import Mathlib

/-!
# dsacpp::vector and dsacpp::unique_ptr — a verification development

Shallow embedding of `src/vector/vector.hpp` and of the members of
`src/unique_ptr/unique_ptr.hpp`.

* The free store is explicit: a `Heap T` is the list of blocks handed out by
  `::operator new`, block number `a` being `h[a]?`.  A block is a row of slots,
  each raw (`none`) or holding a constructed `T` (`some v`).  A released block
  is `none`.  Block numbers are never reused.
* A `pointer` is `none` (`nullptr`) or the number of a block.  `data_[i]` is
  slot `i` of the block `data_` points to.
* `std::size_t` is `Nat` with the 64-bit wrap written out (`% SIZE_MOD`) at the
  places where the source computes on it: `VECTOR_GROWTH_RATE * capacity_`,
  `size_++`, `size_ - 1` and the byte count `n * sizeof(T)` of a request.
* Allocation always succeeds (`std::bad_alloc` is outside the model).  The
  request `::operator new(n * sizeof(T))` is computed in `size_t`: the block has
  as many slots as the wrapped byte count holds, `n` of them only when
  `n * sizeof(T) < 2^64`.  `sizeof(T)` is a parameter of the element type.
* A write to a slot that does not exist (null, released, or past the end of the
  block) is undefined behaviour in C++; here the write is dropped, and a read of
  such a slot, or of a raw slot, yields `none`.
* A parameter of reference type (`const T&`, `T&&`, `Args&&...`) is an
  `argument`: an object outside the store or a slot of the store.  The callee
  reads it at the point where the source does, so a reference to an element of
  the vector itself is read after `_resize()` has released the old block; an
  element constructed from a slot that holds no object is itself no object
  (`none`).
* The pair `begin, end` of the range constructor is an `iter_range`: what the
  first walk (`std::distance`) meets and what the second walk
  (`std::uninitialized_copy`) meets; the two agree for forward iterators only.
* A member function that can throw returns the outcome together with the
  store and the object as they are when the call ends.
* An iterator holds a pointer that walks a block: a block and an offset in
  slots; offsets and pointer differences (`std::ptrdiff_t`) are `Int`.
* A loop of the client (`for (it = begin(); it != end(); ++it)`) and the
  `while` loop of `resize` run on fuel; theorems give the fuel that suffices.
-/

namespace dsacpp

/-! ## Free store -/

/-- Modulus of `std::size_t` arithmetic. -/
def SIZE_MOD : Nat := 2 ^ 64

/-- A block of storage: one entry per slot, `none` for raw memory. -/
abbrev Block (T : Type) := List (Option T)

/-- The free store: every block ever allocated, `none` once released. -/
abbrev Heap (T : Type) := List (Option (Block T))

/-- A `T*`: `nullptr` or the number of a block. -/
abbrev pointer := Option Nat

/-- The element type has a size in bytes, `sizeof(T)`, which is at least 1. -/
class sized (T : Type) where
  bytes : Nat
  bytes_pos : 0 < bytes

/-- The constant `sizeof(T)`. -/
def sizeof (T : Type) [sized T] : Nat := sized.bytes T

/-- In the examples `Nat` stands for `int`, of 4 bytes. -/
instance : sized Nat := ⟨4, by decide⟩

/-- Number of slots of type `T` in a block of `n * sizeof(T)` bytes, the product computed in
`size_t`. -/
def alloc_slots (T : Type) [sized T] (n : Nat) : Nat :=
  ((n * sizeof T) % SIZE_MOD) / sizeof T

/-- The call `static_cast<pointer>(::operator new(n * sizeof(T)))`: a fresh block of raw
slots, as many as the requested bytes hold. -/
def operator_new {T : Type} [sized T] (n : Nat) (h : Heap T) : pointer × Heap T :=
  (some h.length, h ++ [some (List.replicate (alloc_slots T n) none)])

/-- The call `::operator delete(p)`: releases the block; deleting `nullptr` does nothing. -/
def operator_delete {T : Type} (p : pointer) (h : Heap T) : Heap T :=
  match p with
  | none => h
  | some a => h.set a none

/-- Number of slots of the block `p` points to (0 when there is no such block). -/
def slots {T : Type} (h : Heap T) (p : pointer) : Nat :=
  match p with
  | none => 0
  | some a =>
    match h[a]? with
    | some (some b) => b.length
    | _ => 0

/-- Content of slot `p[i]`: the constructed value, or `none`. -/
def load {T : Type} (h : Heap T) (p : pointer) (i : Nat) : Option T :=
  match p with
  | none => none
  | some a =>
    match h[a]? with
    | some (some b) => (b[i]?).join
    | _ => none

/-- Overwrites slot `p[i]`: `some v` is a placement-new of `v` (`new (p + i) T(v)`),
`none` is a destructor call (`p[i].~T()`). -/
def store {T : Type} (h : Heap T) (p : pointer) (i : Nat) (o : Option T) : Heap T :=
  match p with
  | none => h
  | some a =>
    match h[a]? with
    | some (some b) => h.set a (some (b.set i o))
    | _ => h

/-- The loop `for (size_t i = lo; i < hi; i++) body`, threading the state `st`. -/
def for_loop {σ : Type} (lo hi : Nat) (body : Nat → σ → σ) (st : σ) : σ :=
  (List.range' lo (hi - lo)).foldl (fun acc i => body i acc) st

/-! ## The vector object -/

/-- The three data members of `vector<T>`. -/
structure vector where
  size_ : Nat
  capacity_ : Nat
  data_ : pointer
deriving DecidableEq, Repr

/-- What a member function throws. -/
inductive exception where
  | out_of_range (what : String)
  | logic_error (what : String)
deriving DecidableEq, Repr

/-- A `T&` into a block: the slot `base[index]`. -/
structure reference where
  base : pointer
  index : Nat
deriving DecidableEq, Repr

/-- What a parameter of type `const T&`, `T&&` or `Args&&...` is bound to: an object outside
the free store (a local or a temporary), or a slot of a block. -/
inductive argument (T : Type) where
  | value (v : T)
  | slot (r : reference)
deriving DecidableEq, Repr

/-- The range `[begin, end)` of a pair of iterators, as a callee that walks it twice from
`begin` meets it: the elements of the first walk and those of the second.  Forward iterators
give the same sequence both times; single-pass input iterators need not. -/
structure iter_range (T : Type) where
  first_pass : List T
  second_pass : List T
deriving DecidableEq, Repr

/-- A range of forward (multi-pass) iterators over `xs`. -/
def iter_range.forward {T : Type} (xs : List T) : iter_range T :=
  { first_pass := xs, second_pass := xs }

/-- A range of `std::istream_iterator` over a stream holding `xs`: `begin` has read and keeps
the first element; after a first walk has drained the stream, a second walk from `begin`
meets that element and then the end of the stream. -/
def iter_range.istream {T : Type} (xs : List T) : iter_range T :=
  { first_pass := xs, second_pass := xs.take 1 }

/-- The argument of a member taking a `vector&`: the object the member is called on,
or another object. -/
inductive vector_ref where
  | this_
  | other (v : vector)
deriving DecidableEq, Repr

def VECTOR_DEFAULT_CAPACITY : Nat := 16

def VECTOR_GROWTH_RATE : Nat := 2

/-- Bound on the iterations of the `while` loop of `resize` that the model runs.
Under `_resize` the capacity reaches 0 after at most 64 doublings and then cycles
through 0, 16, 32, …, 2^63, so 128 iterations meet every capacity the loop can see
(`resize_grow_fuel_complete`). -/
def RESIZE_FUEL : Nat := 128

/-- The elements `data_[0], …, data_[size_ - 1]` as they stand in the store. -/
def vector.elems {T : Type} (h : Heap T) (s : vector) : List (Option T) :=
  (List.range s.size_).map (load h s.data_)

/-- Reading through a reference. -/
def reference.get {T : Type} (h : Heap T) (r : reference) : Option T :=
  load h r.base r.index

/-- Assigning through a reference. -/
def reference.set {T : Type} (h : Heap T) (r : reference) (v : T) : Heap T :=
  store h r.base r.index (some v)

/-- The object a reference parameter denotes at the moment the callee reads it: for a slot,
what the store holds there then (`none` once the slot is destroyed or its block released). -/
def argument.read {T : Type} (h : Heap T) : argument T → Option T
  | .value v => some v
  | .slot r => r.get h

/-! ## Constructors and destructor -/

/-- Member `vector()`. -/
def vector.ctor : vector :=
  { size_ := 0, capacity_ := 0, data_ := none }

/-- Member `vector(size_type count, const_reference value)`. -/
def vector.ctor_fill {T : Type} [sized T] (count : Nat) (value : T) (h : Heap T) : Heap T × vector :=
  let size := count
  let capacity := count
  let (data, h1) := if capacity ≠ 0 then operator_new capacity h else (none, h)
  -- std::uninitialized_fill_n(data_, size_, value)
  let h2 := for_loop 0 size (fun i hh => store hh data i (some value)) h1
  (h2, { size_ := size, capacity_ := capacity, data_ := data })

/-- Member `vector(const vector& other)`. -/
def vector.ctor_copy {T : Type} [sized T] (other : vector) (h : Heap T) : Heap T × vector :=
  let size := other.size_
  let capacity := other.capacity_
  let (data, h1) := if capacity ≠ 0 then operator_new capacity h else (none, h)
  -- std::uninitialized_copy_n(other.data_, size_, data_)
  let h2 := for_loop 0 size (fun i hh => store hh data i (load hh other.data_ i)) h1
  (h2, { size_ := size, capacity_ := capacity, data_ := data })

/-- Member `vector(vector&& other)`: returns the new object and the moved-from `other`. -/
def vector.ctor_move (other : vector) : vector × vector :=
  ({ size_ := other.size_, capacity_ := other.capacity_, data_ := other.data_ },
   { size_ := 0, capacity_ := 0, data_ := none })

/-- Member `vector(std::initializer_list<value_type> init_list)`. -/
def vector.ctor_list {T : Type} [sized T] (init_list : List T) (h : Heap T) : Heap T × vector :=
  let size := init_list.length
  let capacity := init_list.length
  let (data, h1) := if capacity ≠ 0 then operator_new capacity h else (none, h)
  -- std::uninitialized_copy(init_list.begin(), init_list.end(), data_)
  let h2 := for_loop 0 init_list.length (fun i hh => store hh data i init_list[i]?) h1
  (h2, { size_ := size, capacity_ := capacity, data_ := data })

/-- Member `vector(iter begin, iter end)`, enabled for every iterator category derived from
`std::input_iterator_tag`: `std::distance` walks the range, then `std::uninitialized_copy`
walks it again from `begin`. -/
def vector.ctor_range {T : Type} [sized T] (range : iter_range T) (h : Heap T) : Heap T × vector :=
  -- auto dist = std::distance(begin, end)
  let dist := range.first_pass.length
  let size := dist
  let capacity := dist
  let (data, h1) := if capacity ≠ 0 then operator_new capacity h else (none, h)
  -- std::uninitialized_copy(begin, end, data_)
  let h2 := for_loop 0 range.second_pass.length
    (fun i hh => store hh data i range.second_pass[i]?) h1
  (h2, { size_ := size, capacity_ := capacity, data_ := data })

/-- Member `_clear()`: destroys the elements and releases the block; `data_` is left as it is. -/
def vector._clear {T : Type} (h : Heap T) (s : vector) : Heap T × vector :=
  let h1 := for_loop 0 s.size_ (fun i hh => store hh s.data_ i none) h
  let h2 := operator_delete s.data_ h1
  (h2, { s with size_ := 0, capacity_ := 0 })

/-- Member `~vector()`. -/
def vector.dtor {T : Type} (h : Heap T) (s : vector) : Heap T × vector :=
  vector._clear h s

/-- The value `_resize()` gives `capacity_`:
`capacity_ ? VECTOR_GROWTH_RATE * capacity_ : VECTOR_DEFAULT_CAPACITY`, in `size_t`. -/
def vector.grown_capacity (capacity_ : Nat) : Nat :=
  if capacity_ ≠ 0 then (VECTOR_GROWTH_RATE * capacity_) % SIZE_MOD
  else VECTOR_DEFAULT_CAPACITY

/-- Member `_resize()`: one growth step. -/
def vector._resize {T : Type} [sized T] (h : Heap T) (s : vector) : Heap T × vector :=
  let capacity := vector.grown_capacity s.capacity_
  let (new_data, h1) := if capacity ≠ 0 then operator_new capacity h else (none, h)
  let h2 := for_loop 0 s.size_
    (fun i hh => store (store hh new_data i (load hh s.data_ i)) s.data_ i none) h1
  let h3 := operator_delete s.data_ h2
  (h3, { s with capacity_ := capacity, data_ := new_data })

/-! ## Element access -/

/-- Member `at(size_type index)`, both overloads. -/
def vector.at {T : Type} (index : Nat) (h : Heap T) (s : vector) :
    Except exception reference × Heap T × vector :=
  if index ≥ s.size_ then
    (.error (.out_of_range
      ("vector::at index" ++ toString index ++ " out of range" ++ "(size=" ++
        toString s.size_ ++ ")")), h, s)
  else
    (.ok { base := s.data_, index := index }, h, s)

/-- Member `front()`, both overloads. -/
def vector.front {T : Type} (h : Heap T) (s : vector) :
    Except exception reference × Heap T × vector :=
  vector.at 0 h s

/-- Member `back()`, both overloads; `size_ - 1` is computed in `size_t`. -/
def vector.back {T : Type} (h : Heap T) (s : vector) :
    Except exception reference × Heap T × vector :=
  vector.at ((s.size_ + SIZE_MOD - 1) % SIZE_MOD) h s

/-- Member `operator[](size_type index)`, both overloads. -/
def vector.operator_index {T : Type} (index : Nat) (h : Heap T) (s : vector) :
    Except exception reference × Heap T × vector :=
  vector.at index h s

/-! ## Mutation -/

/-- Member `clear()`. -/
def vector.clear {T : Type} (h : Heap T) (s : vector) : Heap T × vector :=
  let h1 := for_loop 0 s.size_ (fun i hh => store hh s.data_ i none) h
  (h1, { s with size_ := 0 })

/-- Member `push_back(const_reference value)`: `value` is read by `T(value)`, after the growth
step. -/
def vector.push_back {T : Type} [sized T] (value : argument T) (h : Heap T) (s : vector) :
    Heap T × vector :=
  let (h1, s1) := if s.size_ ≥ s.capacity_ then vector._resize h s else (h, s)
  -- new (data_ + size_++) T(value)
  (store h1 s1.data_ s1.size_ (value.read h1), { s1 with size_ := (s1.size_ + 1) % SIZE_MOD })

/-- Member `push_back(rvalue_reference value)`: `value` is read by `T(std::move(value))`, after
the growth step. -/
def vector.push_back_move {T : Type} [sized T] (value : argument T) (h : Heap T) (s : vector) :
    Heap T × vector :=
  let (h1, s1) := if s.size_ ≥ s.capacity_ then vector._resize h s else (h, s)
  -- new (data_ + size_++) T(std::move(value))
  (store h1 s1.data_ s1.size_ (value.read h1), { s1 with size_ := (s1.size_ + 1) % SIZE_MOD })

/-- Member `emplace_back(Args&&... args)` called with one argument the element is built
from: it is read by `T(std::forward<Args>(args)...)`, after the growth step. -/
def vector.emplace_back {T : Type} [sized T] (value : argument T) (h : Heap T) (s : vector) :
    Heap T × vector :=
  let (h1, s1) := if s.size_ = s.capacity_ then vector._resize h s else (h, s)
  -- new (data_ + size_++) T(std::forward<Args>(args)...)
  (store h1 s1.data_ s1.size_ (value.read h1), { s1 with size_ := (s1.size_ + 1) % SIZE_MOD })

/-- Member `pop_back()`. -/
def vector.pop_back {T : Type} (h : Heap T) (s : vector) :
    Except exception Unit × Heap T × vector :=
  if s.size_ = 0 then
    (.error (.out_of_range "vector::pop_back empty vector"), h, s)
  else
    (.ok (), store h s.data_ (s.size_ - 1) none, { s with size_ := s.size_ - 1 })

/-- The loop `while (new_size > capacity_) _resize();` run for at most `fuel` tests;
`none` when the loop is still running then. -/
def vector.resize_grow {T : Type} [sized T] (new_size : Nat) :
    Nat → Heap T → vector → Option (Heap T × vector)
  | 0, _, _ => none
  | fuel + 1, h, s =>
    if new_size > s.capacity_ then
      vector.resize_grow new_size fuel (vector._resize h s).1 (vector._resize h s).2
    else some (h, s)

/-- Member `resize(size_type new_size)`; the new slots receive `T()`, here `default`. -/
def vector.resize {T : Type} [sized T] [Inhabited T] (new_size : Nat) (h : Heap T) (s : vector) :
    Option (Heap T × vector) :=
  if new_size = s.size_ then some (h, s)
  else if new_size < s.size_ then
    let h1 := for_loop new_size s.size_ (fun i hh => store hh s.data_ i none) h
    some (h1, { s with size_ := new_size })
  else
    match vector.resize_grow new_size RESIZE_FUEL h s with
    | none => none
    | some (h1, s1) =>
      let h2 := for_loop s1.size_ new_size (fun i hh => store hh s1.data_ i (some default)) h1
      some (h2, { s1 with size_ := new_size })

/-- Member `resize(size_type new_size, const_reference value)`: `value` is read by each
`T(value)` of the second loop, after the growth loop. -/
def vector.resize_value {T : Type} [sized T] (new_size : Nat) (value : argument T) (h : Heap T)
    (s : vector) : Option (Heap T × vector) :=
  if new_size = s.size_ then some (h, s)
  else if new_size < s.size_ then
    let h1 := for_loop new_size s.size_ (fun i hh => store hh s.data_ i none) h
    some (h1, { s with size_ := new_size })
  else
    match vector.resize_grow new_size RESIZE_FUEL h s with
    | none => none
    | some (h1, s1) =>
      let h2 := for_loop s1.size_ new_size (fun i hh => store hh s1.data_ i (value.read hh)) h1
      some (h2, { s1 with size_ := new_size })

/-- Member `swap(vector& other)` with another object: returns the object and `other`. -/
def vector.swap (s other : vector) : vector × vector :=
  -- std::swap(data_, other.data_)
  let (s1, o1) := ({ s with data_ := other.data_ }, { other with data_ := s.data_ })
  -- std::swap(size_, other.size_)
  let (s2, o2) := ({ s1 with size_ := o1.size_ }, { o1 with size_ := s1.size_ })
  -- std::swap(capacity_, other.capacity_)
  ({ s2 with capacity_ := o2.capacity_ }, { o2 with capacity_ := s2.capacity_ })

/-! ## Metadata -/

/-- Member `size()`. -/
def vector.size (s : vector) : Nat := s.size_

/-- Member `capacity()`. -/
def vector.capacity (s : vector) : Nat := s.capacity_

/-- Member `empty()`. -/
def vector.empty (s : vector) : Bool := s.size_ == 0

/-- Member `shrink_to_fit()`. -/
def vector.shrink_to_fit {T : Type} [sized T] (h : Heap T) (s : vector) : Heap T × vector :=
  if s.capacity_ = s.size_ then (h, s)
  else
    let (new_data, h1) := if s.size_ ≠ 0 then operator_new s.size_ h else (none, h)
    let h2 := for_loop 0 s.size_
      (fun i hh => store (store hh new_data i (load hh s.data_ i)) s.data_ i none) h1
    let h3 := operator_delete s.data_ h2
    (h3, { s with data_ := new_data, capacity_ := s.size_ })

/-- Member `reserve(size_type new_capacity)`. -/
def vector.reserve {T : Type} [sized T] (new_capacity : Nat) (h : Heap T) (s : vector) : Heap T × vector :=
  if new_capacity ≤ s.capacity_ then (h, s)
  else
    let (new_data, h1) := if new_capacity ≠ 0 then operator_new new_capacity h else (none, h)
    let h2 := for_loop 0 s.size_
      (fun i hh => store (store hh new_data i (load hh s.data_ i)) s.data_ i none) h1
    let h3 := operator_delete s.data_ h2
    (h3, { s with data_ := new_data, capacity_ := new_capacity })

/-- Member `reallocate(size_type new_capacity)`. -/
def vector.reallocate {T : Type} [sized T] (new_capacity : Nat) (h : Heap T) (s : vector) :
    Heap T × vector :=
  if new_capacity = s.capacity_ then (h, s)
  else
    let (new_data, h1) := if new_capacity ≠ 0 then operator_new new_capacity h else (none, h)
    let h2 := for_loop 0 s.size_
      (fun i hh => store (store hh new_data i (load hh s.data_ i)) s.data_ i none) h1
    let h3 := operator_delete s.data_ h2
    (h3, { s with data_ := new_data, capacity_ := new_capacity })

/-! ## Assignment -/

/-- Member `operator=(const vector& other)`. -/
def vector.operator_assign {T : Type} [sized T] (other : vector_ref) (h : Heap T) (s : vector) :
    Heap T × vector :=
  match other with
  | .this_ => (h, s)
  | .other o =>
    let (h1, s1) := vector._clear h s
    let s2 := { s1 with size_ := o.size_, capacity_ := o.capacity_ }
    let (data, h2) := if s2.capacity_ ≠ 0 then operator_new s2.capacity_ h1 else (none, h1)
    let h3 := for_loop 0 s2.size_ (fun i hh => store hh data i (load hh o.data_ i)) h2
    (h3, { s2 with data_ := data })

/-- Member `operator=(vector&& other)`: returns the store, the object, and `other` afterwards
(`none` when `other` is the object itself). -/
def vector.operator_assign_move {T : Type} (other : vector_ref) (h : Heap T) (s : vector) :
    Heap T × vector × Option vector :=
  match other with
  | .this_ => (h, s, none)
  | .other o =>
    let (h1, s1) := vector._clear h s
    (h1, { s1 with size_ := o.size_, capacity_ := o.capacity_, data_ := o.data_ },
      some { size_ := 0, capacity_ := 0, data_ := none })

/-- Member `operator=(std::initializer_list<value_type> init_list)`.  The last statement of the
source is `std::uninitialized_copy_n(init_list.begin(), init_list.end(), data_)`: the
pointer `init_list.end()` stands where the algorithm expects the number of elements, and
`end_as_count` is the number the algorithm takes from that argument. -/
def vector.operator_assign_list {T : Type} [sized T] (init_list : List T) (end_as_count : Nat)
    (h : Heap T) (s : vector) : Heap T × vector :=
  let (h1, s1) := vector._clear h s
  let s2 := { s1 with size_ := init_list.length, capacity_ := init_list.length }
  let (data, h2) := if s2.capacity_ ≠ 0 then operator_new s2.capacity_ h1 else (none, h1)
  let h3 := for_loop 0 end_as_count (fun i hh => store hh data i init_list[i]?) h2
  (h3, { s2 with data_ := data })

/-! ## Call sequences -/

/-- The calls `push_back(x_1); …; push_back(x_N)` made one after the other. -/
def vector.push_back_all {T : Type} [sized T] (xs : List (argument T)) (h : Heap T) (s : vector) :
    Heap T × vector :=
  xs.foldl (fun st x => vector.push_back x st.1 st.2) (h, s)

/-- A mutating call a client can make on a vector: `push_back(value)`,
`emplace_back(value)`, `pop_back()`, `resize(new_size, value)`, `clear()`,
`reserve(new_capacity)`, `shrink_to_fit()`, `reallocate(new_capacity)`, and the write
`at(index) = value`. -/
inductive mutation (T : Type) where
  | push_back (value : argument T)
  | emplace_back (value : argument T)
  | pop_back
  | resize (new_size : Nat) (value : argument T)
  | clear
  | reserve (new_capacity : Nat)
  | shrink_to_fit
  | reallocate (new_capacity : Nat)
  | assign_at (index : Nat) (value : T)

/-- Store and object after one call; a call that throws leaves both as they are; `none`
when the loop of `resize` does not exit. -/
def mutation.run {T : Type} [sized T] : mutation T → Heap T × vector → Option (Heap T × vector)
  | .push_back value, (h, s) => some (vector.push_back value h s)
  | .emplace_back value, (h, s) => some (vector.emplace_back value h s)
  | .pop_back, (h, s) => some (vector.pop_back h s).2
  | .resize new_size value, (h, s) => vector.resize_value new_size value h s
  | .clear, (h, s) => some (vector.clear h s)
  | .reserve new_capacity, (h, s) => some (vector.reserve new_capacity h s)
  | .shrink_to_fit, (h, s) => some (vector.shrink_to_fit h s)
  | .reallocate new_capacity, (h, s) => some (vector.reallocate new_capacity h s)
  | .assign_at index value, (h, s) =>
    match (vector.at index h s).1 with
    | .ok r => some (r.set h value, s)
    | .error _ => some (h, s)

/-- Store and object after a sequence of calls made one after the other. -/
def mutation.run_all {T : Type} [sized T] : List (mutation T) → Heap T × vector → Option (Heap T × vector)
  | [], st => some st
  | m :: ms, st => (m.run st).bind (mutation.run_all ms)

/-! ## Representation predicates -/

/-- The pointer is null or the number of a block of the store. -/
def in_heap {T : Type} (h : Heap T) (p : pointer) : Prop :=
  match p with
  | none => True
  | some a => a < h.length

instance {T : Type} (h : Heap T) (p : pointer) : Decidable (in_heap h p) := by
  unfold in_heap; split <;> infer_instance

/-- The object holds its storage: `data_` is null with `capacity_ == 0`, or it points to
a block of exactly `capacity_` slots, `capacity_ != 0`. -/
def vector.owns {T : Type} (h : Heap T) (s : vector) : Prop :=
  (s.data_ = none ∧ s.capacity_ = 0) ∨
    (s.data_ ≠ none ∧ s.capacity_ ≠ 0 ∧ slots h s.data_ = s.capacity_)

instance {T : Type} (h : Heap T) (s : vector) : Decidable (s.owns h) := by
  unfold vector.owns; infer_instance

/-- Invariant 3 of the data model: when `capacity_ == 0`, `data_` is null. -/
def vector.null_at_zero (s : vector) : Prop :=
  s.capacity_ = 0 → s.data_ = none

instance (s : vector) : Decidable s.null_at_zero := by
  unfold vector.null_at_zero; infer_instance

/-- The block of `s` and the pointer `q` lie in the store and `q` is null or another block
than the block of `s`. -/
def vector.apart {T : Type} (h : Heap T) (s : vector) (q : pointer) : Prop :=
  in_heap h s.data_ ∧ in_heap h q ∧ (q = none ∨ q ≠ s.data_)

instance {T : Type} (h : Heap T) (s : vector) (q : pointer) : Decidable (s.apart h q) := by
  unfold vector.apart; infer_instance

/-- The argument is no element of the vector `s`: it is an object outside the store, or a
slot of a block of the store other than the block of `s`. -/
def argument.apart {T : Type} (h : Heap T) (s : vector) : argument T → Prop
  | .value _ => True
  | .slot r => s.apart h r.base

instance {T : Type} (h : Heap T) (s : vector) (a : argument T) : Decidable (a.apart h s) := by
  cases a <;> unfold argument.apart <;> infer_instance

/-- The store `h'` has at `q` the block that `h` has there: as many slots, same contents. -/
def same_block {T : Type} (h h' : Heap T) (q : pointer) : Prop :=
  slots h' q = slots h q ∧ ∀ j, load h' q j = load h q j

/-! ## Iterators -/

/-- A `const T*` that walks a block: the block (`none` for the null pointer) and the
offset, in slots, from the start of the block.  `p + n` and `p - n` act on the offset and
`p - q` is the difference of the offsets (`std::ptrdiff_t`, here `Int`). -/
structure slot_pointer where
  base : pointer
  offset : Int
deriving DecidableEq, Repr

/-- Content of the slot `*p`; `none` for a raw slot and for a slot that does not exist. -/
def slot_pointer.get {T : Type} (h : Heap T) (p : slot_pointer) : Option T :=
  if 0 ≤ p.offset then load h p.base p.offset.toNat else none

/-- The class `vector<T>::iterator`: its data member. -/
structure iterator where
  ptr_ : slot_pointer
deriving DecidableEq, Repr

/-- Member `iterator()`. -/
def iterator.ctor : iterator := { ptr_ := { base := none, offset := 0 } }

/-- Member `iterator(pointer p)`. -/
def iterator.ctor_ptr (p : slot_pointer) : iterator := { ptr_ := p }

/-- Member `operator*()`: the slot `*ptr_` as a reference. -/
def iterator.operator_star (it : iterator) : slot_pointer := it.ptr_

/-- Member `operator->()`. -/
def iterator.operator_arrow (it : iterator) : slot_pointer := it.ptr_

/-- Member `operator++()`: the iterator after `++ptr_`. -/
def iterator.pre_inc (it : iterator) : iterator :=
  { ptr_ := { it.ptr_ with offset := it.ptr_.offset + 1 } }

/-- Member `operator++(int)`: the returned copy and the iterator afterwards. -/
def iterator.post_inc (it : iterator) : iterator × iterator :=
  (it, it.pre_inc)

/-- Member `operator--()`: the iterator after `--ptr_`. -/
def iterator.pre_dec (it : iterator) : iterator :=
  { ptr_ := { it.ptr_ with offset := it.ptr_.offset - 1 } }

/-- Member `operator--(int)`: the returned copy and the iterator afterwards. -/
def iterator.post_dec (it : iterator) : iterator × iterator :=
  (it, it.pre_dec)

/-- Member `operator+=(difference_type n)`. -/
def iterator.add_assign (it : iterator) (n : Int) : iterator :=
  { ptr_ := { it.ptr_ with offset := it.ptr_.offset + n } }

/-- Member `operator-=(difference_type n)`. -/
def iterator.sub_assign (it : iterator) (n : Int) : iterator :=
  { ptr_ := { it.ptr_ with offset := it.ptr_.offset - n } }

/-- Member `operator+(difference_type n)`: `iterator tmp{ ptr_ }; tmp += n; return tmp;`. -/
def iterator.operator_plus (it : iterator) (n : Int) : iterator :=
  (iterator.ctor_ptr it.ptr_).add_assign n

/-- Member `operator-(difference_type n)`: `iterator tmp{ ptr_ }; tmp -= n; return tmp;`. -/
def iterator.operator_minus (it : iterator) (n : Int) : iterator :=
  (iterator.ctor_ptr it.ptr_).sub_assign n

/-- Member `operator-(const iterator& other)`: `ptr_ - other.ptr_`. -/
def iterator.difference (it other : iterator) : Int :=
  it.ptr_.offset - other.ptr_.offset

/-- Member `operator==(const iterator& other)`: `ptr_ == other.ptr_`. -/
def iterator.operator_eq (it other : iterator) : Bool :=
  it.ptr_ == other.ptr_

/-- Member `operator!=(const iterator& other)`: `ptr_ != other.ptr_`. -/
def iterator.operator_ne (it other : iterator) : Bool :=
  it.ptr_ != other.ptr_

/-- The class `vector<T>::const_iterator`: its data member. -/
structure const_iterator where
  ptr_ : slot_pointer
deriving DecidableEq, Repr

/-- Member `const_iterator()`. -/
def const_iterator.ctor : const_iterator := { ptr_ := { base := none, offset := 0 } }

/-- Member `const_iterator(pointer p)`. -/
def const_iterator.ctor_ptr (p : slot_pointer) : const_iterator := { ptr_ := p }

/-- Member `operator*()` of `const_iterator`. -/
def const_iterator.operator_star (it : const_iterator) : slot_pointer := it.ptr_

/-- Member `operator->()` of `const_iterator`. -/
def const_iterator.operator_arrow (it : const_iterator) : slot_pointer := it.ptr_

/-- Member `operator++()` of `const_iterator`. -/
def const_iterator.pre_inc (it : const_iterator) : const_iterator :=
  { ptr_ := { it.ptr_ with offset := it.ptr_.offset + 1 } }

/-- Member `operator++(int)` of `const_iterator`: `auto tmp = *this; ++ptr_; return tmp;`. -/
def const_iterator.post_inc (it : const_iterator) : const_iterator × const_iterator :=
  (it, { ptr_ := { it.ptr_ with offset := it.ptr_.offset + 1 } })

/-- Member `operator--()` of `const_iterator`. -/
def const_iterator.pre_dec (it : const_iterator) : const_iterator :=
  { ptr_ := { it.ptr_ with offset := it.ptr_.offset - 1 } }

/-- Member `operator--(int)` of `const_iterator`: `auto tmp = *this; --ptr_; return tmp;`. -/
def const_iterator.post_dec (it : const_iterator) : const_iterator × const_iterator :=
  (it, { ptr_ := { it.ptr_ with offset := it.ptr_.offset - 1 } })

/-- Member `operator+=(difference_type n)` of `const_iterator`. -/
def const_iterator.add_assign (it : const_iterator) (n : Int) : const_iterator :=
  { ptr_ := { it.ptr_ with offset := it.ptr_.offset + n } }

/-- Member `operator-=(difference_type n)` of `const_iterator`. -/
def const_iterator.sub_assign (it : const_iterator) (n : Int) : const_iterator :=
  { ptr_ := { it.ptr_ with offset := it.ptr_.offset - n } }

/-- Member `operator+(difference_type n)` of `const_iterator`:
`return const_iterator{ ptr_ + n };`. -/
def const_iterator.operator_plus (it : const_iterator) (n : Int) : const_iterator :=
  const_iterator.ctor_ptr { it.ptr_ with offset := it.ptr_.offset + n }

/-- Member `operator-(difference_type n)` of `const_iterator`:
`return const_iterator{ ptr_ - n };`. -/
def const_iterator.operator_minus (it : const_iterator) (n : Int) : const_iterator :=
  const_iterator.ctor_ptr { it.ptr_ with offset := it.ptr_.offset - n }

/-- Member `operator-(const const_iterator& other)`: `ptr_ - other.ptr_`. -/
def const_iterator.difference (it other : const_iterator) : Int :=
  it.ptr_.offset - other.ptr_.offset

/-- Member `operator==(const const_iterator& other)`. -/
def const_iterator.operator_eq (it other : const_iterator) : Bool :=
  it.ptr_ == other.ptr_

/-- Member `operator!=(const const_iterator& other)`. -/
def const_iterator.operator_ne (it other : const_iterator) : Bool :=
  it.ptr_ != other.ptr_

/-- The standard adaptor `std::reverse_iterator<iterator>`: it holds the iterator `current`;
`*r` is `*--tmp` for a copy `tmp` of `current`, `++r` is `--current`, and two adaptors are
equal when their `current` are. -/
structure reverse_iterator where
  current : iterator
deriving DecidableEq, Repr

/-- The adaptor's `operator*()`: `Iter tmp = current; return *--tmp;`. -/
def reverse_iterator.operator_star (r : reverse_iterator) : slot_pointer :=
  r.current.pre_dec.operator_star

/-- The adaptor's `operator++()`: `--current`. -/
def reverse_iterator.pre_inc (r : reverse_iterator) : reverse_iterator :=
  { current := r.current.pre_dec }

/-- The adaptor's `operator!=`: `current != other.current`. -/
def reverse_iterator.operator_ne (r other : reverse_iterator) : Bool :=
  r.current.operator_ne other.current

/-- The standard adaptor `std::reverse_iterator<const_iterator>`. -/
structure const_reverse_iterator where
  current : const_iterator
deriving DecidableEq, Repr

/-- The adaptor's `operator*()` over `const_iterator`. -/
def const_reverse_iterator.operator_star (r : const_reverse_iterator) : slot_pointer :=
  r.current.pre_dec.operator_star

/-- The adaptor's `operator++()` over `const_iterator`. -/
def const_reverse_iterator.pre_inc (r : const_reverse_iterator) : const_reverse_iterator :=
  { current := r.current.pre_dec }

/-- The adaptor's `operator!=` over `const_iterator`. -/
def const_reverse_iterator.operator_ne (r other : const_reverse_iterator) : Bool :=
  r.current.operator_ne other.current

/-- Member `begin() noexcept`: `iterator{ data_ }`. -/
def vector.begin (s : vector) : iterator :=
  iterator.ctor_ptr { base := s.data_, offset := 0 }

/-- Member `begin() const noexcept`: `const_iterator{ data_ }`. -/
def vector.begin_const (s : vector) : const_iterator :=
  const_iterator.ctor_ptr { base := s.data_, offset := 0 }

/-- Member `end() noexcept`: `iterator{ data_ + size_ }`. -/
def vector.end (s : vector) : iterator :=
  iterator.ctor_ptr { base := s.data_, offset := s.size_ }

/-- Member `end() const noexcept`: `const_iterator{ data_ + size_ }`. -/
def vector.end_const (s : vector) : const_iterator :=
  const_iterator.ctor_ptr { base := s.data_, offset := s.size_ }

/-- Member `rbegin() noexcept`: `std::reverse_iterator<iterator>{ end() }`. -/
def vector.rbegin (s : vector) : reverse_iterator :=
  { current := s.end }

/-- Member `rbegin() const noexcept`: `std::reverse_iterator<const_iterator>{ end() }`. -/
def vector.rbegin_const (s : vector) : const_reverse_iterator :=
  { current := s.end_const }

/-- Member `rend() noexcept`: `std::reverse_iterator<iterator>{ begin() }`. -/
def vector.rend (s : vector) : reverse_iterator :=
  { current := s.begin }

/-- Member `rend() const noexcept`: `std::reverse_iterator<const_iterator>{ begin() }`. -/
def vector.rend_const (s : vector) : const_reverse_iterator :=
  { current := s.begin_const }

/-- The loop `for (auto it = first; it != last; ++it) visit(*it);` run for at most `fuel`
tests of `it != last`: the slots visited, in order; `none` when the loop is still running
after them. -/
def iterator.walk : Nat → iterator → iterator → Option (List slot_pointer)
  | 0, _, _ => none
  | fuel + 1, it, last =>
    if it.operator_ne last then (iterator.walk fuel it.pre_inc last).map (it.operator_star :: ·)
    else some []

/-- The same loop over `const_iterator`. -/
def const_iterator.walk : Nat → const_iterator → const_iterator → Option (List slot_pointer)
  | 0, _, _ => none
  | fuel + 1, it, last =>
    if it.operator_ne last then
      (const_iterator.walk fuel it.pre_inc last).map (it.operator_star :: ·)
    else some []

/-- The same loop over `std::reverse_iterator<iterator>`. -/
def reverse_iterator.walk :
    Nat → reverse_iterator → reverse_iterator → Option (List slot_pointer)
  | 0, _, _ => none
  | fuel + 1, it, last =>
    if it.operator_ne last then
      (reverse_iterator.walk fuel it.pre_inc last).map (it.operator_star :: ·)
    else some []

/-- The same loop over `std::reverse_iterator<const_iterator>`. -/
def const_reverse_iterator.walk :
    Nat → const_reverse_iterator → const_reverse_iterator → Option (List slot_pointer)
  | 0, _, _ => none
  | fuel + 1, it, last =>
    if it.operator_ne last then
      (const_reverse_iterator.walk fuel it.pre_inc last).map (it.operator_star :: ·)
    else some []

/-! ## Appending, in the words of the specification -/

/-- The call is a `push_back` or an `emplace_back`. -/
def mutation.is_append {T : Type} : mutation T → Bool
  | .push_back _ => true
  | .emplace_back _ => true
  | _ => false

/-! ## The owning pointer `unique_ptr<T, D>` and its array form `unique_ptr<T[], D>`

The deleter `del_` is the action of the call `del_(p)` on the store; the template argument
`D` enters as the deleter a constructor starts with. -/

/-- The class `unique_ptr<T, D>`: its data members. -/
structure unique_ptr (T : Type) where
  ptr_ : pointer
  del_ : pointer → Heap T → Heap T

/-- The argument of a member of `unique_ptr<T, D>` taking a `unique_ptr&&`: the object
itself, or another object. -/
inductive unique_ptr_ref (T : Type) where
  | this_
  | other (u : unique_ptr T)

/-- The call operator of `default_delete<T>`: `delete ptr`. -/
def default_delete {T : Type} (ptr : pointer) (h : Heap T) : Heap T :=
  operator_delete ptr (store h ptr 0 none)

/-- The call operator of `default_delete<T[]>`: `delete[] ptr`. -/
def default_delete_array {T : Type} (ptr : pointer) (h : Heap T) : Heap T :=
  operator_delete ptr (for_loop 0 (slots h ptr) (fun i hh => store hh ptr i none) h)

/-- Member `unique_ptr()`. -/
def unique_ptr.ctor {T : Type} (D : pointer → Heap T → Heap T) : unique_ptr T :=
  { ptr_ := none, del_ := D }

/-- Member `unique_ptr(pointer ptr)`. -/
def unique_ptr.ctor_ptr {T : Type} (D : pointer → Heap T → Heap T) (ptr : pointer) :
    unique_ptr T :=
  { ptr_ := ptr, del_ := D }

/-- Member `unique_ptr(unique_ptr&& other)`: the new object and `other` afterwards. -/
def unique_ptr.ctor_move {T : Type} (other : unique_ptr T) : unique_ptr T × unique_ptr T :=
  ({ ptr_ := other.ptr_, del_ := other.del_ }, { other with ptr_ := none })

/-- Member `~unique_ptr()`: `del_(ptr_)`. -/
def unique_ptr.dtor {T : Type} (h : Heap T) (u : unique_ptr T) : Heap T :=
  u.del_ u.ptr_ h

/-- Member `release()`: the returned pointer and the object afterwards. -/
def unique_ptr.release {T : Type} (u : unique_ptr T) : pointer × unique_ptr T :=
  (u.ptr_, { u with ptr_ := none })

/-- Member `reset(pointer new_ptr)`. -/
def unique_ptr.reset {T : Type} (new_ptr : pointer) (h : Heap T) (u : unique_ptr T) :
    Heap T × unique_ptr T :=
  let h1 := if u.ptr_ ≠ none then u.del_ u.ptr_ h else h
  (h1, { u with ptr_ := new_ptr })

/-- Member `swap(unique_ptr& other)` with another object. -/
def unique_ptr.swap {T : Type} (u other : unique_ptr T) : unique_ptr T × unique_ptr T :=
  ({ ptr_ := other.ptr_, del_ := other.del_ }, { ptr_ := u.ptr_, del_ := u.del_ })

/-- Member `get()`. -/
def unique_ptr.get {T : Type} (u : unique_ptr T) : pointer := u.ptr_

/-- Member `is_owning()`: `ptr_ != nullptr`. -/
def unique_ptr.is_owning {T : Type} (u : unique_ptr T) : Bool := u.ptr_ != none

/-- Member `operator=(unique_ptr&& other)`: the store, the object, and `other` afterwards
(`none` when `other` is the object itself). -/
def unique_ptr.operator_assign_move {T : Type} (other : unique_ptr_ref T) (h : Heap T)
    (u : unique_ptr T) : Heap T × unique_ptr T × Option (unique_ptr T) :=
  match other with
  | .this_ => (h, u, none)
  | .other o =>
    let (h1, u1) := unique_ptr.reset none h u
    (h1, { u1 with ptr_ := o.ptr_, del_ := o.del_ }, some { o with ptr_ := none })

/-- Member `operator*()`: the reference `*ptr_`, or `std::logic_error`; with the store and
the object as the call leaves them. -/
def unique_ptr.operator_star {T : Type} (h : Heap T) (u : unique_ptr T) :
    Except exception reference × Heap T × unique_ptr T :=
  if u.ptr_ ≠ none then
    (.ok { base := u.ptr_, index := 0 }, h, u)
  else
    (.error (.logic_error "unique_ptr::operator* attempting to dereference nullptr"), h, u)

/-- Member `operator->()`. -/
def unique_ptr.operator_arrow {T : Type} (u : unique_ptr T) : pointer := u.ptr_

/-- Member `operator bool()`. -/
def unique_ptr.operator_bool {T : Type} (u : unique_ptr T) : Bool := u.ptr_ != none

/-- The class `unique_ptr<T[], D>`: its data members. -/
structure unique_ptr_array (T : Type) where
  ptr_ : pointer
  del_ : pointer → Heap T → Heap T

/-- The argument of a member of `unique_ptr<T[], D>` taking a `unique_ptr&&`. -/
inductive unique_ptr_array_ref (T : Type) where
  | this_
  | other (u : unique_ptr_array T)

/-- Member `unique_ptr()` of the array form. -/
def unique_ptr_array.ctor {T : Type} (D : pointer → Heap T → Heap T) : unique_ptr_array T :=
  { ptr_ := none, del_ := D }

/-- Member `unique_ptr(pointer ptr)` of the array form. -/
def unique_ptr_array.ctor_ptr {T : Type} (D : pointer → Heap T → Heap T) (ptr : pointer) :
    unique_ptr_array T :=
  { ptr_ := ptr, del_ := D }

/-- Member `unique_ptr(unique_ptr&& other)` of the array form, whose body is empty: the new
object and `other` afterwards. -/
def unique_ptr_array.ctor_move {T : Type} (other : unique_ptr_array T) :
    unique_ptr_array T × unique_ptr_array T :=
  ({ ptr_ := other.ptr_, del_ := other.del_ }, other)

/-- Member `~unique_ptr()` of the array form: `del_(ptr_)`. -/
def unique_ptr_array.dtor {T : Type} (h : Heap T) (u : unique_ptr_array T) : Heap T :=
  u.del_ u.ptr_ h

/-- Member `release()` of the array form. -/
def unique_ptr_array.release {T : Type} (u : unique_ptr_array T) :
    pointer × unique_ptr_array T :=
  (u.ptr_, { u with ptr_ := none })

/-- Member `reset(pointer new_ptr)` of the array form. -/
def unique_ptr_array.reset {T : Type} (new_ptr : pointer) (h : Heap T)
    (u : unique_ptr_array T) : Heap T × unique_ptr_array T :=
  let h1 := if u.ptr_ ≠ none then u.del_ u.ptr_ h else h
  (h1, { u with ptr_ := new_ptr })

/-- Member `swap(unique_ptr& other)` of the array form, with another object. -/
def unique_ptr_array.swap {T : Type} (u other : unique_ptr_array T) :
    unique_ptr_array T × unique_ptr_array T :=
  ({ ptr_ := other.ptr_, del_ := other.del_ }, { ptr_ := u.ptr_, del_ := u.del_ })

/-- Member `get()` of the array form. -/
def unique_ptr_array.get {T : Type} (u : unique_ptr_array T) : pointer := u.ptr_

/-- Member `is_owning()` of the array form. -/
def unique_ptr_array.is_owning {T : Type} (u : unique_ptr_array T) : Bool := u.ptr_ != none

/-- Member `operator=(unique_ptr&& other)` of the array form. -/
def unique_ptr_array.operator_assign_move {T : Type} (other : unique_ptr_array_ref T)
    (h : Heap T) (u : unique_ptr_array T) :
    Heap T × unique_ptr_array T × Option (unique_ptr_array T) :=
  match other with
  | .this_ => (h, u, none)
  | .other o =>
    let (h1, u1) := unique_ptr_array.reset none h u
    (h1, { u1 with ptr_ := o.ptr_, del_ := o.del_ }, some { o with ptr_ := none })

/-- Member `operator[](size_t index)` of the array form: the reference `ptr_[index]`, or
`std::logic_error`; with the store and the object as the call leaves them. -/
def unique_ptr_array.operator_index {T : Type} (index : Nat) (h : Heap T)
    (u : unique_ptr_array T) : Except exception reference × Heap T × unique_ptr_array T :=
  if u.ptr_ ≠ none then
    (.ok { base := u.ptr_, index := index }, h, u)
  else
    (.error (.logic_error "unique_ptr::operator* attempting to dereference nullptr"), h, u)

/-- Member `operator bool()` of the array form. -/
def unique_ptr_array.operator_bool {T : Type} (u : unique_ptr_array T) : Bool :=
  u.ptr_ != none


/-! ## Store lemmas -/

theorem length_store {T : Type} (h : Heap T) (p : pointer) (i : Nat) (o : Option T) :
    (store h p i o).length = h.length := by
  unfold store
  split
  · rfl
  · split <;> simp

theorem slots_store {T : Type} (h : Heap T) (p q : pointer) (i : Nat) (o : Option T) :
    slots (store h p i o) q = slots h q := by
  unfold store
  split
  · rfl
  · next a =>
    split
    · next b hb =>
      cases q with
      | none => rfl
      | some c =>
        simp only [slots, List.getElem?_set]
        by_cases hac : a = c
        · subst hac
          have hlt : a < h.length := by
            by_contra hge
            rw [List.getElem?_eq_none (by omega)] at hb
            cases hb
          simp [hlt, hb]
        · simp [hac]
    · rfl

theorem load_store {T : Type} (h : Heap T) (p q : pointer) (i j : Nat) (o : Option T) :
    load (store h p i o) q j = if q = p ∧ j = i ∧ i < slots h p then o else load h q j := by
  unfold store
  split
  · cases q <;> simp [load, slots]
  · next a =>
    split
    · next b hb =>
      have hlt : a < h.length := by
        by_contra hge
        rw [List.getElem?_eq_none (by omega)] at hb
        cases hb
      cases q with
      | none => simp [load]
      | some c =>
        simp only [load, slots, List.getElem?_set, hb]
        by_cases hac : a = c
        · subst hac
          by_cases hji : j = i
          · subst hji
            by_cases hjb : j < b.length
            · simp [hlt, hjb]
            · have hb2 : h[a] = some b := by
                rw [List.getElem?_eq_getElem hlt] at hb
                exact Option.some.inj hb
              simp [hlt, hjb, List.getElem?_set, hb2,
                List.getElem?_eq_none (Nat.le_of_not_lt hjb)]
          · simp [hlt, hb, hji, List.getElem?_set, Ne.symm hji]
        · have hca : ¬ (some c : pointer) = some a := by
            intro hh; exact hac (Option.some.inj hh).symm
          simp [hac, hca]
    · next hb =>
      have hs : slots h (some a) = 0 := by
        simp only [slots]
      simp [hs]


theorem in_heap_lt {T : Type} {h : Heap T} {q : pointer} {a : Nat} (hq : in_heap h q)
    (ha : q = some a) : a < h.length := by
  subst ha
  exact hq

theorem in_heap_mono {T : Type} {h h' : Heap T} {q : pointer} (hle : h.length ≤ h'.length)
    (hq : in_heap h q) : in_heap h' q := by
  cases q with
  | none => trivial
  | some a => exact Nat.lt_of_lt_of_le (in_heap_lt hq rfl) hle

theorem in_heap_store {T : Type} {h : Heap T} {q : pointer} (p : pointer) (i : Nat)
    (o : Option T) (hq : in_heap h q) : in_heap (store h p i o) q :=
  in_heap_mono (by rw [length_store]) hq

theorem in_heap_append {T : Type} {h : Heap T} {q : pointer} (b : Option (Block T))
    (hq : in_heap h q) : in_heap (h ++ [b]) q :=
  in_heap_mono (by simp) hq

theorem in_heap_none {T : Type} (h : Heap T) : in_heap h none := trivial

theorem ne_fresh {T : Type} {h : Heap T} {q : pointer} (hq : in_heap h q) :
    q ≠ some h.length := by
  intro hh
  have := in_heap_lt hq hh
  omega

theorem load_append {T : Type} {h : Heap T} {q : pointer} (b : Option (Block T)) (j : Nat)
    (hq : in_heap h q) : load (h ++ [b]) q j = load h q j := by
  cases q with
  | none => rfl
  | some a =>
    have hlt := in_heap_lt hq rfl
    simp only [load, List.getElem?_append_left hlt]

theorem slots_append {T : Type} {h : Heap T} {q : pointer} (b : Option (Block T))
    (hq : in_heap h q) : slots (h ++ [b]) q = slots h q := by
  cases q with
  | none => rfl
  | some a =>
    have hlt := in_heap_lt hq rfl
    simp only [slots, List.getElem?_append_left hlt]

theorem slots_fresh {T : Type} (h : Heap T) (n : Nat) :
    slots (h ++ [some (List.replicate n none)]) (some h.length) = n := by
  simp [slots]

theorem load_fresh {T : Type} (h : Heap T) (n j : Nat) :
    load (h ++ [some (List.replicate n (none : Option T))]) (some h.length) j = none := by
  simp only [load, List.getElem?_concat_length, List.getElem?_replicate]
  split <;> rfl

theorem length_delete {T : Type} (h : Heap T) (p : pointer) :
    (operator_delete p h).length = h.length := by
  cases p <;> simp [operator_delete]

theorem load_delete {T : Type} (h : Heap T) {p q : pointer} (j : Nat) (hne : q ≠ p) :
    load (operator_delete p h) q j = load h q j := by
  cases p with
  | none => rfl
  | some a =>
    cases q with
    | none => rfl
    | some c =>
      have hac : a ≠ c := fun hh => hne (by rw [hh])
      simp only [operator_delete, load, List.getElem?_set_ne hac]

theorem slots_delete {T : Type} (h : Heap T) {p q : pointer} (hne : q ≠ p) :
    slots (operator_delete p h) q = slots h q := by
  cases p with
  | none => rfl
  | some a =>
    cases q with
    | none => rfl
    | some c =>
      have hac : a ≠ c := fun hh => hne (by rw [hh])
      simp only [operator_delete, slots, List.getElem?_set_ne hac]

theorem in_heap_delete {T : Type} {h : Heap T} {q : pointer} (p : pointer)
    (hq : in_heap h q) : in_heap (operator_delete p h) q :=
  in_heap_mono (by rw [length_delete]) hq

/-! ## Loop lemmas -/

theorem for_loop_self {σ : Type} (lo : Nat) (body : Nat → σ → σ) (st : σ) :
    for_loop lo lo body st = st := by
  simp [for_loop]

theorem for_loop_ge {σ : Type} {lo hi : Nat} (body : Nat → σ → σ) (st : σ) (hle : hi ≤ lo) :
    for_loop lo hi body st = st := by
  simp [for_loop, Nat.sub_eq_zero_of_le hle]

theorem for_loop_succ {σ : Type} {lo hi : Nat} (body : Nat → σ → σ) (st : σ) (hle : lo ≤ hi) :
    for_loop lo (hi + 1) body st = body hi (for_loop lo hi body st) := by
  unfold for_loop
  have e : hi + 1 - lo = (hi - lo) + 1 := by omega
  rw [e, List.range'_concat, List.foldl_append]
  simp only [List.foldl_cons, List.foldl_nil, Nat.one_mul]
  congr 1
  omega

/-- Invariant rule for `for_loop`. -/
theorem for_loop_inv {σ : Type} (P : Nat → σ → Prop) {lo hi : Nat} (body : Nat → σ → σ)
    (st : σ) (hle : lo ≤ hi) (h0 : P lo st)
    (hstep : ∀ i acc, lo ≤ i → i < hi → P i acc → P (i + 1) (body i acc)) :
    P hi (for_loop lo hi body st) := by
  induction hi with
  | zero =>
    have : lo = 0 := by omega
    subst this
    rw [for_loop_self]
    exact h0
  | succ n ih =>
    by_cases hl : lo = n + 1
    · subst hl
      rw [for_loop_self]
      exact h0
    · have hle2 : lo ≤ n := by omega
      rw [for_loop_succ body st hle2]
      exact hstep n _ hle2 (by omega)
        (ih hle2 (fun i acc h1 h2 hp => hstep i acc h1 (by omega) hp))


/-- A loop that overwrites slots `lo .. hi-1` of one block with values `f i`. -/
theorem store_loop_spec {T : Type} (h : Heap T) (p : pointer) {lo hi : Nat}
    (f : Nat → Option T) (hle : lo ≤ hi) :
    (for_loop lo hi (fun i hh => store hh p i (f i)) h).length = h.length ∧
    (∀ q, slots (for_loop lo hi (fun i hh => store hh p i (f i)) h) q = slots h q) ∧
    (∀ q j, load (for_loop lo hi (fun i hh => store hh p i (f i)) h) q j =
      if q = p ∧ lo ≤ j ∧ j < hi ∧ j < slots h p then f j else load h q j) := by
  refine for_loop_inv
    (fun k acc => acc.length = h.length ∧ (∀ q, slots acc q = slots h q) ∧
      (∀ q j, load acc q j =
        if q = p ∧ lo ≤ j ∧ j < k ∧ j < slots h p then f j else load h q j))
    _ h hle ?_ ?_
  · refine ⟨rfl, fun _ => rfl, fun q j => ?_⟩
    have : ¬ (q = p ∧ lo ≤ j ∧ j < lo ∧ j < slots h p) := by
      rintro ⟨-, h1, h2, -⟩; omega
    rw [if_neg this]
  · rintro i acc hlo hhi ⟨hlen, hsl, hld⟩
    refine ⟨by rw [length_store, hlen], fun q => by rw [slots_store, hsl], fun q j => ?_⟩
    rw [load_store, hsl, hld]
    by_cases hq : q = p
    · subst hq
      by_cases hji : j = i
      · subst hji
        by_cases hs : j < slots h q
        · simp [hs, hlo]
        · simp [hs]
      · have h1 : (j < i + 1) = (j < i) := by
          apply propext; constructor <;> intro hh <;> omega
        simp [hji, h1]
    · simp [hq]

/-- A loop that copies slots `0 .. hi-1` of block `src` into another block `p`. -/
theorem copy_loop_spec {T : Type} (h : Heap T) {p src : pointer} (hi : Nat)
    (hne : src ≠ p) :
    (for_loop 0 hi (fun i hh => store hh p i (load hh src i)) h).length = h.length ∧
    (∀ q, slots (for_loop 0 hi (fun i hh => store hh p i (load hh src i)) h) q = slots h q) ∧
    (∀ q j, load (for_loop 0 hi (fun i hh => store hh p i (load hh src i)) h) q j =
      if q = p ∧ j < hi ∧ j < slots h p then load h src j else load h q j) := by
  refine for_loop_inv
    (fun k acc => acc.length = h.length ∧ (∀ q, slots acc q = slots h q) ∧
      (∀ q j, load acc q j =
        if q = p ∧ j < k ∧ j < slots h p then load h src j else load h q j))
    _ h (Nat.zero_le hi) ?_ ?_
  · refine ⟨rfl, fun _ => rfl, fun q j => ?_⟩
    simp
  · rintro i acc - hhi ⟨hlen, hsl, hld⟩
    refine ⟨by rw [length_store, hlen], fun q => by rw [slots_store, hsl], fun q j => ?_⟩
    have hsrc : load acc src i = load h src i := by
      rw [hld]; simp [hne]
    rw [load_store, hsl, hsrc, hld]
    by_cases hq : q = p
    · subst hq
      by_cases hji : j = i
      · subst hji
        by_cases hs : j < slots h q
        · simp [hs]
        · simp [hs]
      · have h1 : (j < i + 1) = (j < i) := by
          apply propext; constructor <;> intro hh <;> omega
        simp [hji, h1]
    · simp [hq]

/-- The relocation loop shared by `_resize`, `reserve`, `reallocate` and `shrink_to_fit`:
slot `i` of `old` is moved to slot `i` of `nw` and destroyed, for `i < sz`. -/
theorem relocate_spec {T : Type} (h : Heap T) {nw old : pointer} (sz : Nat)
    (hne : nw ≠ old) :
    (for_loop 0 sz (fun i hh => store (store hh nw i (load hh old i)) old i none) h).length
      = h.length ∧
    (∀ q, slots (for_loop 0 sz
        (fun i hh => store (store hh nw i (load hh old i)) old i none) h) q = slots h q) ∧
    (∀ j, load (for_loop 0 sz
        (fun i hh => store (store hh nw i (load hh old i)) old i none) h) nw j =
      if j < sz ∧ j < slots h nw then load h old j else load h nw j) ∧
    (∀ j, load (for_loop 0 sz
        (fun i hh => store (store hh nw i (load hh old i)) old i none) h) old j =
      if j < sz ∧ j < slots h old then none else load h old j) ∧
    (∀ q j, q ≠ nw → q ≠ old → load (for_loop 0 sz
        (fun i hh => store (store hh nw i (load hh old i)) old i none) h) q j = load h q j) := by
  refine for_loop_inv
    (fun k acc => acc.length = h.length ∧ (∀ q, slots acc q = slots h q) ∧
      (∀ j, load acc nw j = if j < k ∧ j < slots h nw then load h old j else load h nw j) ∧
      (∀ j, load acc old j = if j < k ∧ j < slots h old then none else load h old j) ∧
      (∀ q j, q ≠ nw → q ≠ old → load acc q j = load h q j))
    _ h (Nat.zero_le sz) ?_ ?_
  · refine ⟨rfl, fun _ => rfl, fun j => ?_, fun j => ?_, fun _ _ _ _ => rfl⟩ <;> simp
  · rintro i acc - hhi ⟨hlen, hsl, hnw, hold, hfr⟩
    have hsrc : load acc old i = load h old i := by
      rw [hold]; simp
    have h1 : ∀ j, j ≠ i → (j < i + 1) = (j < i) := by
      intro j hj; apply propext; constructor <;> intro hh <;> omega
    refine ⟨by rw [length_store, length_store, hlen],
      fun q => by rw [slots_store, slots_store, hsl], fun j => ?_, fun j => ?_,
      fun q j hq1 hq2 => ?_⟩
    · rw [load_store, load_store, hsl, hnw, hsrc]
      by_cases hji : j = i
      · subst hji
        by_cases hs : j < slots h nw
        · simp [hs, hne]
        · simp [hs, hne]
      · simp [hji, h1 j hji, hne]
    · rw [load_store, load_store, slots_store, hsl, hsl, hsrc, hold]
      by_cases hji : j = i
      · subst hji
        by_cases hs : j < slots h old
        · simp [hs]
        · simp [hs, Ne.symm hne]
      · simp [hji, h1 j hji]
    · rw [load_store, load_store, hfr q j hq1 hq2]
      simp [hq1, hq2]


/-! ## Field effects of the operations -/

theorem _resize_fields {T : Type} [sized T] (h : Heap T) (s : vector) :
    (vector._resize h s).2.size_ = s.size_ ∧
    (vector._resize h s).2.capacity_ = vector.grown_capacity s.capacity_ := by
  constructor <;> simp [vector._resize]

theorem push_back_fields {T : Type} [sized T] (value : argument T) (h : Heap T) (s : vector) :
    (vector.push_back value h s).2.size_ = (s.size_ + 1) % SIZE_MOD ∧
    (vector.push_back value h s).2.capacity_ =
      if s.size_ ≥ s.capacity_ then vector.grown_capacity s.capacity_ else s.capacity_ := by
  by_cases hc : s.size_ ≥ s.capacity_ <;>
    simp [vector.push_back, hc, (_resize_fields h s).1, (_resize_fields h s).2]

theorem push_back_move_fields {T : Type} [sized T] (value : argument T) (h : Heap T) (s : vector) :
    (vector.push_back_move value h s).2.size_ = (s.size_ + 1) % SIZE_MOD ∧
    (vector.push_back_move value h s).2.capacity_ =
      if s.size_ ≥ s.capacity_ then vector.grown_capacity s.capacity_ else s.capacity_ := by
  by_cases hc : s.size_ ≥ s.capacity_ <;>
    simp [vector.push_back_move, hc, (_resize_fields h s).1, (_resize_fields h s).2]

theorem emplace_back_fields {T : Type} [sized T] (value : argument T) (h : Heap T) (s : vector) :
    (vector.emplace_back value h s).2.size_ = (s.size_ + 1) % SIZE_MOD ∧
    (vector.emplace_back value h s).2.capacity_ =
      if s.size_ = s.capacity_ then vector.grown_capacity s.capacity_ else s.capacity_ := by
  by_cases hc : s.size_ = s.capacity_ <;>
    simp [vector.emplace_back, hc, (_resize_fields h s).1, (_resize_fields h s).2]

theorem grown_capacity_eq (c : Nat) (hc : c < 2 ^ 63) :
    vector.grown_capacity c = if c = 0 then 16 else 2 * c := by
  unfold vector.grown_capacity VECTOR_GROWTH_RATE VECTOR_DEFAULT_CAPACITY SIZE_MOD
  by_cases h0 : c = 0
  · simp [h0]
  · simp only [h0, ne_eq, not_false_eq_true, if_true, if_false]
    apply Nat.mod_eq_of_lt
    omega


theorem grown_capacity_iterate_succ (c : Nat) (k : Nat) :
    vector.grown_capacity^[k + 1] c = vector.grown_capacity^[k] (vector.grown_capacity c) :=
  Function.iterate_succ_apply _ _ _

/-- What the `while` loop of `resize` leaves in the fields, whenever it exits. -/
theorem resize_grow_fields {T : Type} [sized T] (n : Nat) :
    ∀ (fuel : Nat) (h : Heap T) (s : vector) (r : Heap T × vector),
      vector.resize_grow n fuel h s = some r →
      r.2.size_ = s.size_ ∧ n ≤ r.2.capacity_ ∧
      ∃ k, r.2.capacity_ = vector.grown_capacity^[k] s.capacity_ ∧
        ∀ j, j < k → vector.grown_capacity^[j] s.capacity_ < n := by
  intro fuel
  induction fuel with
  | zero => intro h s r hr; simp [vector.resize_grow] at hr
  | succ f ih =>
    intro h s r hr
    unfold vector.resize_grow at hr
    by_cases hc : n > s.capacity_
    · rw [if_pos hc] at hr
      obtain ⟨h1, h2, k, hk, hlt⟩ := ih _ _ r hr
      rw [(_resize_fields h s).1] at h1
      rw [(_resize_fields h s).2] at hk hlt
      refine ⟨h1, h2, k + 1, ?_, ?_⟩
      · rw [grown_capacity_iterate_succ]; exact hk
      · intro j hj
        cases j with
        | zero => simpa using hc
        | succ j =>
          rw [grown_capacity_iterate_succ]
          exact hlt j (by omega)
    · rw [if_neg hc] at hr
      cases hr
      exact ⟨rfl, Nat.le_of_not_lt hc, 0, rfl, fun j hj => by omega⟩

/-- The `while` loop of `resize` exits when no doubling can wrap. -/
theorem resize_grow_some {T : Type} [sized T] (n : Nat) (hn : n ≤ 2 ^ 63) :
    ∀ (f fuel : Nat) (h : Heap T) (s : vector), f < fuel → 1 ≤ s.capacity_ →
      n ≤ s.capacity_ * 2 ^ f → ∃ r, vector.resize_grow n fuel h s = some r := by
  intro f
  induction f with
  | zero =>
    intro fuel h s hf hc hle
    cases fuel with
    | zero => omega
    | succ fuel =>
      unfold vector.resize_grow
      have : ¬ n > s.capacity_ := by simp at hle; omega
      rw [if_neg this]
      exact ⟨_, rfl⟩
  | succ f ih =>
    intro fuel h s hf hc hle
    cases fuel with
    | zero => omega
    | succ fuel =>
      unfold vector.resize_grow
      by_cases hgt : n > s.capacity_
      · rw [if_pos hgt]
        apply ih
        · omega
        · rw [(_resize_fields h s).2, grown_capacity_eq _ (by omega)]
          have : s.capacity_ ≠ 0 := by omega
          simp [this]; omega
        · rw [(_resize_fields h s).2, grown_capacity_eq _ (by omega)]
          have : s.capacity_ ≠ 0 := by omega
          simp only [this, if_false]
          rw [pow_succ] at hle
          calc n ≤ s.capacity_ * (2 ^ f * 2) := hle
            _ = 2 * s.capacity_ * 2 ^ f := by ring
      · rw [if_neg hgt]
        exact ⟨_, rfl⟩

theorem resize_grow_terminates {T : Type} [sized T] (n : Nat) (hn : n ≤ 2 ^ 63) (h : Heap T)
    (s : vector) : ∃ r, vector.resize_grow n RESIZE_FUEL h s = some r := by
  by_cases hc : 1 ≤ s.capacity_
  · apply resize_grow_some n hn 63 RESIZE_FUEL h s (by decide) hc
    calc n ≤ 2 ^ 63 := hn
      _ ≤ s.capacity_ * 2 ^ 63 := Nat.le_mul_of_pos_left _ hc
  · have h0 : s.capacity_ = 0 := by omega
    show ∃ r, vector.resize_grow n (127 + 1) h s = some r
    unfold vector.resize_grow
    by_cases hgt : n > s.capacity_
    · rw [if_pos hgt]
      apply resize_grow_some n hn 63 127 _ _ (by decide)
      · rw [(_resize_fields h s).2, h0]; decide
      · rw [(_resize_fields h s).2, h0]
        calc n ≤ 2 ^ 63 := hn
          _ ≤ vector.grown_capacity 0 * 2 ^ 63 := by decide
    · rw [if_neg hgt]
      exact ⟨_, rfl⟩


/-- Fields after `resize(new_size, value)`, whenever the call returns. -/
theorem resize_value_fields {T : Type} [sized T] (n : Nat) (value : argument T) (h : Heap T) (s : vector)
    (r : Heap T × vector) (hr : vector.resize_value n value h s = some r) :
    r.2.size_ = n ∧ (s.size_ < n → n ≤ r.2.capacity_) ∧
    ∃ k, r.2.capacity_ = vector.grown_capacity^[k] s.capacity_ ∧
      ∀ j, j < k → vector.grown_capacity^[j] s.capacity_ < n := by
  unfold vector.resize_value at hr
  by_cases h1 : n = s.size_
  · rw [if_pos h1] at hr
    cases hr
    exact ⟨h1.symm, fun hlt => by omega, 0, rfl, fun j hj => by omega⟩
  · rw [if_neg h1] at hr
    by_cases h2 : n < s.size_
    · rw [if_pos h2] at hr
      cases hr
      exact ⟨rfl, fun hlt => by omega, 0, rfl, fun j hj => by omega⟩
    · rw [if_neg h2] at hr
      cases hg : vector.resize_grow n RESIZE_FUEL h s with
      | none => rw [hg] at hr; cases hr
      | some g =>
        rw [hg] at hr
        obtain ⟨h1g, s1g⟩ := g
        simp only [Option.some.injEq] at hr
        subst hr
        obtain ⟨-, hle, hk⟩ := resize_grow_fields n _ _ _ _ hg
        exact ⟨rfl, fun _ => hle, hk⟩

/-- Fields after `resize(new_size)`, whenever the call returns. -/
theorem resize_fields {T : Type} [sized T] [Inhabited T] (n : Nat) (h : Heap T) (s : vector)
    (r : Heap T × vector) (hr : vector.resize n h s = some r) :
    r.2.size_ = n ∧ (s.size_ < n → n ≤ r.2.capacity_) ∧
    ∃ k, r.2.capacity_ = vector.grown_capacity^[k] s.capacity_ ∧
      ∀ j, j < k → vector.grown_capacity^[j] s.capacity_ < n := by
  unfold vector.resize at hr
  by_cases h1 : n = s.size_
  · rw [if_pos h1] at hr
    cases hr
    exact ⟨h1.symm, fun hlt => by omega, 0, rfl, fun j hj => by omega⟩
  · rw [if_neg h1] at hr
    by_cases h2 : n < s.size_
    · rw [if_pos h2] at hr
      cases hr
      exact ⟨rfl, fun hlt => by omega, 0, rfl, fun j hj => by omega⟩
    · rw [if_neg h2] at hr
      cases hg : vector.resize_grow n RESIZE_FUEL h s with
      | none => rw [hg] at hr; cases hr
      | some g =>
        rw [hg] at hr
        obtain ⟨h1g, s1g⟩ := g
        simp only [Option.some.injEq] at hr
        subst hr
        obtain ⟨-, hle, hk⟩ := resize_grow_fields n _ _ _ _ hg
        exact ⟨rfl, fun _ => hle, hk⟩

/-- The call `resize(new_size, value)` returns when `new_size <= 2^63`. -/
theorem resize_value_returns {T : Type} [sized T] (n : Nat) (value : argument T) (h : Heap T) (s : vector)
    (hn : n ≤ 2 ^ 63) : ∃ r, vector.resize_value n value h s = some r := by
  unfold vector.resize_value
  by_cases h1 : n = s.size_
  · rw [if_pos h1]; exact ⟨_, rfl⟩
  · rw [if_neg h1]
    by_cases h2 : n < s.size_
    · rw [if_pos h2]; exact ⟨_, rfl⟩
    · rw [if_neg h2]
      obtain ⟨g, hg⟩ := resize_grow_terminates n hn h s
      rw [hg]
      exact ⟨_, rfl⟩

/-- The call `resize(new_size)` returns when `new_size <= 2^63`. -/
theorem resize_returns {T : Type} [sized T] [Inhabited T] (n : Nat) (h : Heap T) (s : vector)
    (hn : n ≤ 2 ^ 63) : ∃ r, vector.resize n h s = some r := by
  unfold vector.resize
  by_cases h1 : n = s.size_
  · rw [if_pos h1]; exact ⟨_, rfl⟩
  · rw [if_neg h1]
    by_cases h2 : n < s.size_
    · rw [if_pos h2]; exact ⟨_, rfl⟩
    · rw [if_neg h2]
      obtain ⟨g, hg⟩ := resize_grow_terminates n hn h s
      rw [hg]
      exact ⟨_, rfl⟩

theorem resize_capacity_of_le (c n k : Nat) (hle : n ≤ c)
    (hk : ∀ j, j < k → vector.grown_capacity^[j] c < n) : k = 0 := by
  by_contra hne
  have := hk 0 (by omega)
  simp at this
  omega

theorem push_size_le (s : vector) (hinv : s.size_ ≤ s.capacity_) (hsz : s.size_ < 2 ^ 63) :
    (s.size_ + 1) % SIZE_MOD ≤
      (if s.size_ ≥ s.capacity_ then vector.grown_capacity s.capacity_ else s.capacity_) := by
  have hm : (s.size_ + 1) % SIZE_MOD = s.size_ + 1 := by
    apply Nat.mod_eq_of_lt
    unfold SIZE_MOD
    omega
  rw [hm]
  by_cases h1 : s.size_ ≥ s.capacity_
  · rw [if_pos h1, grown_capacity_eq _ (by omega)]
    split <;> omega
  · rw [if_neg h1]
    omega

theorem reserve_fields {T : Type} [sized T] (n : Nat) (h : Heap T) (s : vector) :
    (vector.reserve n h s).2.size_ = s.size_ ∧
    (vector.reserve n h s).2.capacity_ = if n ≤ s.capacity_ then s.capacity_ else n := by
  by_cases hc : n ≤ s.capacity_ <;> simp [vector.reserve, hc]

theorem reallocate_fields {T : Type} [sized T] (n : Nat) (h : Heap T) (s : vector) :
    (vector.reallocate n h s).2.size_ = s.size_ ∧ (vector.reallocate n h s).2.capacity_ = n := by
  by_cases hc : n = s.capacity_ <;> simp [vector.reallocate, hc]

theorem shrink_to_fit_fields {T : Type} [sized T] (h : Heap T) (s : vector) :
    (vector.shrink_to_fit h s).2.size_ = s.size_ ∧
    (vector.shrink_to_fit h s).2.capacity_ = s.size_ := by
  by_cases hc : s.capacity_ = s.size_ <;> simp [vector.shrink_to_fit, hc]

theorem pop_back_fields {T : Type} [sized T] (h : Heap T) (s : vector) :
    (vector.pop_back h s).2.2.size_ = s.size_ - 1 ∧
    (vector.pop_back h s).2.2.capacity_ = s.capacity_ := by
  by_cases hc : s.size_ = 0 <;> simp [vector.pop_back, hc]


/-! ## The fuel of the `resize` loop is enough -/

set_option maxRecDepth 100000 in
theorem grown_capacity_cycle : vector.grown_capacity^[61] 0 = 0 := by decide

theorem grown_capacity_of_ne (x : Nat) (hx : x ≠ 0) :
    vector.grown_capacity x = (2 * x) % SIZE_MOD := by
  unfold vector.grown_capacity VECTOR_GROWTH_RATE
  rw [if_pos hx]

theorem grown_capacity_mod (c : Nat) (j : Nat)
    (hne : ∀ i, i < j → vector.grown_capacity^[i] c ≠ 0) :
    vector.grown_capacity^[j] c % SIZE_MOD = (c * 2 ^ j) % SIZE_MOD := by
  induction j with
  | zero => simp
  | succ j ih =>
    have h1 := ih (fun i hi => hne i (by omega))
    have h2 := hne j (by omega)
    rw [Function.iterate_succ_apply', grown_capacity_of_ne _ h2,
      Nat.mod_mod, Nat.mul_mod, h1, ← Nat.mul_mod, pow_succ]
    congr 1
    ring

/-- From any capacity, at most 64 growth steps lead to capacity 0. -/
theorem grown_capacity_reaches_zero (c : Nat) :
    ∃ z, z ≤ 64 ∧ vector.grown_capacity^[z] c = 0 := by
  by_contra hcon
  have hne : ∀ i, i < 65 → vector.grown_capacity^[i] c ≠ 0 := by
    intro i hi h0
    exact hcon ⟨i, by omega, h0⟩
  have h63 := hne 63 (by omega)
  have h64 := hne 64 (by omega)
  have hm := grown_capacity_mod c 64 (fun i hi => hne i (by omega))
  have e : (c * 2 ^ 64) % SIZE_MOD = 0 := by
    unfold SIZE_MOD
    exact Nat.mul_mod_left c (2 ^ 64)
  rw [e] at hm
  have hlt : vector.grown_capacity^[64] c < SIZE_MOD := by
    rw [Function.iterate_succ_apply', grown_capacity_of_ne _ h63]
    exact Nat.mod_lt _ (by unfold SIZE_MOD; decide)
  rw [Nat.mod_eq_of_lt hlt] at hm
  exact h64 hm

/-- The capacities seen by the loop repeat with period 61 from step 64 on. -/
theorem grown_capacity_periodic (c k : Nat) (hk : 125 ≤ k) :
    vector.grown_capacity^[k] c = vector.grown_capacity^[k - 61] c := by
  obtain ⟨z, hz, h0⟩ := grown_capacity_reaches_zero c
  have e1 : k = (k - 61 - z) + (61 + z) := by omega
  have e2 : k - 61 = (k - 61 - z) + z := by omega
  rw [e2, Function.iterate_add_apply, h0]
  conv_lhs => rw [e1, Function.iterate_add_apply, Function.iterate_add_apply, h0,
    grown_capacity_cycle]

theorem grown_capacity_early (c n : Nat) :
    ∀ k, n ≤ vector.grown_capacity^[k] c → ∃ k', k' < 125 ∧ n ≤ vector.grown_capacity^[k'] c := by
  intro k
  induction k using Nat.strong_induction_on with
  | _ k ih =>
    intro hle
    by_cases hk : k < 125
    · exact ⟨k, hk, hle⟩
    · rw [grown_capacity_periodic c k (by omega)] at hle
      exact ih (k - 61) (by omega) hle

theorem resize_grow_exit {T : Type} [sized T] (n : Nat) :
    ∀ (fuel : Nat) (h : Heap T) (s : vector) (r : Heap T × vector),
      vector.resize_grow n fuel h s = some r →
      ∃ k, k < fuel ∧ n ≤ vector.grown_capacity^[k] s.capacity_ := by
  intro fuel
  induction fuel with
  | zero => intro h s r hr; simp [vector.resize_grow] at hr
  | succ f ih =>
    intro h s r hr
    unfold vector.resize_grow at hr
    by_cases hc : n > s.capacity_
    · rw [if_pos hc] at hr
      obtain ⟨k, hk, hle⟩ := ih _ _ r hr
      rw [(_resize_fields h s).2] at hle
      exact ⟨k + 1, by omega, by rw [grown_capacity_iterate_succ]; exact hle⟩
    · exact ⟨0, by omega, by simpa using hc⟩

theorem resize_grow_of_exit {T : Type} [sized T] (n : Nat) :
    ∀ (fuel : Nat) (h : Heap T) (s : vector) (k : Nat), k < fuel →
      n ≤ vector.grown_capacity^[k] s.capacity_ →
      ∃ r, vector.resize_grow n fuel h s = some r := by
  intro fuel
  induction fuel with
  | zero => intro h s k hk; omega
  | succ f ih =>
    intro h s k hk hle
    unfold vector.resize_grow
    by_cases hc : n > s.capacity_
    · rw [if_pos hc]
      cases k with
      | zero => simp at hle; omega
      | succ k =>
        rw [grown_capacity_iterate_succ, ← (_resize_fields h s).2] at hle
        exact ih _ _ k (by omega) hle
    · rw [if_neg hc]
      exact ⟨_, rfl⟩

/-- When the model's bounded loop gives up (`none`), the `while` loop of `resize` does not
exit with any number of iterations. -/
theorem resize_grow_fuel_complete {T : Type} [sized T] (n : Nat) (h : Heap T) (s : vector)
    (hnone : vector.resize_grow n RESIZE_FUEL h s = none) :
    ∀ fuel, vector.resize_grow n fuel h s = none := by
  intro fuel
  cases hr : vector.resize_grow n fuel h s with
  | none => rfl
  | some r =>
    obtain ⟨k, -, hle⟩ := resize_grow_exit n fuel h s r hr
    obtain ⟨k', hk', hle'⟩ := grown_capacity_early s.capacity_ n k hle
    obtain ⟨r', hr'⟩ := resize_grow_of_exit n RESIZE_FUEL h s k'
      (by unfold RESIZE_FUEL; omega) hle'
    rw [hnone] at hr'
    cases hr'


/-! ## C1 -/

/-- C1: `size_ <= capacity_` holds after every constructor (default, count+value, copy,
move, initializer list, iterator range; copy and move from a source that satisfies it)
and is preserved by `push_back` (both overloads), `emplace_back`, `pop_back`, `clear`,
`resize` (both overloads), `reserve`, `shrink_to_fit`, `swap`, copy-, move- and
list-assignment, and by `reallocate(n)` whenever `n >= size_`.  For the three appending
members the size is below 2^63, so that `VECTOR_GROWTH_RATE * capacity_` of a full vector
does not wrap in `size_t`; `resize` keeps it whenever it returns, and it returns when the
requested size is at most 2^63. -/
theorem C1_size_le_capacity {T : Type} [sized T] [Inhabited T] :
    -- constructors
    vector.ctor.size_ ≤ vector.ctor.capacity_ ∧
    (∀ (count : Nat) (value : T) (h : Heap T),
      (vector.ctor_fill count value h).2.size_ ≤ (vector.ctor_fill count value h).2.capacity_) ∧
    (∀ (other : vector) (h : Heap T), other.size_ ≤ other.capacity_ →
      (vector.ctor_copy other h).2.size_ ≤ (vector.ctor_copy other h).2.capacity_) ∧
    (∀ (other : vector), other.size_ ≤ other.capacity_ →
      (vector.ctor_move other).1.size_ ≤ (vector.ctor_move other).1.capacity_ ∧
      (vector.ctor_move other).2.size_ ≤ (vector.ctor_move other).2.capacity_) ∧
    (∀ (init_list : List T) (h : Heap T),
      (vector.ctor_list init_list h).2.size_ ≤ (vector.ctor_list init_list h).2.capacity_) ∧
    (∀ (range : iter_range T) (h : Heap T),
      (vector.ctor_range range h).2.size_ ≤ (vector.ctor_range range h).2.capacity_) ∧
    -- appending
    (∀ (value : argument T) (h : Heap T) (s : vector), s.size_ ≤ s.capacity_ → s.size_ < 2 ^ 63 →
      (vector.push_back value h s).2.size_ ≤ (vector.push_back value h s).2.capacity_ ∧
      (vector.push_back_move value h s).2.size_ ≤
        (vector.push_back_move value h s).2.capacity_ ∧
      (vector.emplace_back value h s).2.size_ ≤ (vector.emplace_back value h s).2.capacity_) ∧
    -- removing
    (∀ (h : Heap T) (s : vector), s.size_ ≤ s.capacity_ →
      (vector.pop_back h s).2.2.size_ ≤ (vector.pop_back h s).2.2.capacity_ ∧
      (vector.clear h s).2.size_ ≤ (vector.clear h s).2.capacity_) ∧
    -- resize
    (∀ (new_size : Nat) (value : argument T) (h : Heap T) (s : vector), s.size_ ≤ s.capacity_ →
      (∀ r, vector.resize new_size h s = some r → r.2.size_ ≤ r.2.capacity_) ∧
      (∀ r, vector.resize_value new_size value h s = some r → r.2.size_ ≤ r.2.capacity_) ∧
      (new_size ≤ 2 ^ 63 →
        (∃ r, vector.resize new_size h s = some r) ∧
        (∃ r, vector.resize_value new_size value h s = some r))) ∧
    -- capacity management
    (∀ (n : Nat) (h : Heap T) (s : vector), s.size_ ≤ s.capacity_ →
      (vector.reserve n h s).2.size_ ≤ (vector.reserve n h s).2.capacity_ ∧
      (vector.shrink_to_fit h s).2.size_ ≤ (vector.shrink_to_fit h s).2.capacity_ ∧
      (s.size_ ≤ n →
        (vector.reallocate n h s).2.size_ ≤ (vector.reallocate n h s).2.capacity_)) ∧
    -- swap
    (∀ (s other : vector), s.size_ ≤ s.capacity_ → other.size_ ≤ other.capacity_ →
      (vector.swap s other).1.size_ ≤ (vector.swap s other).1.capacity_ ∧
      (vector.swap s other).2.size_ ≤ (vector.swap s other).2.capacity_) ∧
    -- assignment
    (∀ (h : Heap T) (s other : vector), s.size_ ≤ s.capacity_ →
      other.size_ ≤ other.capacity_ →
      (vector.operator_assign (.other other) h s).2.size_ ≤
        (vector.operator_assign (.other other) h s).2.capacity_ ∧
      (vector.operator_assign .this_ h s).2.size_ ≤
        (vector.operator_assign .this_ h s).2.capacity_ ∧
      (vector.operator_assign_move (.other other) h s).2.1.size_ ≤
        (vector.operator_assign_move (.other other) h s).2.1.capacity_ ∧
      (∀ o, (vector.operator_assign_move (.other other) h s).2.2 = some o →
        o.size_ ≤ o.capacity_) ∧
      (vector.operator_assign_move .this_ h s).2.1.size_ ≤
        (vector.operator_assign_move .this_ h s).2.1.capacity_) ∧
    (∀ (init_list : List T) (end_as_count : Nat) (h : Heap T) (s : vector),
      (vector.operator_assign_list init_list end_as_count h s).2.size_ ≤
        (vector.operator_assign_list init_list end_as_count h s).2.capacity_) := by
  refine ⟨Nat.le_refl _, ?_, ?_, ?_, ?_, ?_, ?_, ?_, ?_, ?_, ?_, ?_, ?_⟩
  · intro count value h
    simp [vector.ctor_fill]
  · intro other h hinv
    simpa [vector.ctor_copy] using hinv
  · intro other hinv
    exact ⟨hinv, Nat.le_refl _⟩
  · intro init_list h
    simp [vector.ctor_list]
  · intro range h
    simp [vector.ctor_range]
  · intro value h s hinv hsz
    refine ⟨?_, ?_, ?_⟩
    · rw [(push_back_fields value h s).1, (push_back_fields value h s).2]
      exact push_size_le s hinv hsz
    · rw [(push_back_move_fields value h s).1, (push_back_move_fields value h s).2]
      exact push_size_le s hinv hsz
    · rw [(emplace_back_fields value h s).1, (emplace_back_fields value h s).2]
      have := push_size_le s hinv hsz
      by_cases he : s.size_ = s.capacity_
      · rw [if_pos he]
        rw [if_pos (by omega)] at this
        exact this
      · rw [if_neg he]
        rw [if_neg (by omega)] at this
        exact this
  · intro h s hinv
    refine ⟨?_, ?_⟩
    · rw [(pop_back_fields h s).1, (pop_back_fields h s).2]
      omega
    · simp [vector.clear]
  · intro n value h s hinv
    refine ⟨fun r hr => ?_, fun r hr => ?_, fun hn => ?_⟩
    · obtain ⟨h1, h2, k, hk, hlt⟩ := resize_fields n h s r hr
      by_cases hc : s.size_ < n
      · rw [h1]; exact h2 hc
      · have hk0 := resize_capacity_of_le s.capacity_ n k (by omega) hlt
        subst hk0
        rw [h1, hk]
        simp
        omega
    · obtain ⟨h1, h2, k, hk, hlt⟩ := resize_value_fields n value h s r hr
      by_cases hc : s.size_ < n
      · rw [h1]; exact h2 hc
      · have hk0 := resize_capacity_of_le s.capacity_ n k (by omega) hlt
        subst hk0
        rw [h1, hk]
        simp
        omega
    · exact ⟨resize_returns n h s hn, resize_value_returns n value h s hn⟩
  · intro n h s hinv
    refine ⟨?_, ?_, ?_⟩
    · rw [(reserve_fields n h s).1, (reserve_fields n h s).2]
      split <;> omega
    · rw [(shrink_to_fit_fields h s).1, (shrink_to_fit_fields h s).2]
    · intro hn
      rw [(reallocate_fields n h s).1, (reallocate_fields n h s).2]
      exact hn
  · intro s other hs ho
    exact ⟨ho, hs⟩
  · intro h s other hs ho
    refine ⟨?_, hs, ?_, ?_, hs⟩
    · simpa [vector.operator_assign, vector._clear] using ho
    · simpa [vector.operator_assign_move, vector._clear] using ho
    · intro o hoo
      simp [vector.operator_assign_move, vector._clear] at hoo
      subst hoo
      exact Nat.le_refl _
  · intro init_list e h s
    simp [vector.operator_assign_list, vector._clear]

/-- C1 witness: a vector built from the list 1, 2, 3 is full (3 of 3); `push_back(4)` on it
gives size 4 and capacity 6. -/
theorem C1_size_le_capacity_witness :
    (vector.ctor_list [1, 2, 3] ([] : Heap Nat)).2.size_ ≤
      (vector.ctor_list [1, 2, 3] ([] : Heap Nat)).2.capacity_ ∧
    (vector.ctor_list [1, 2, 3] ([] : Heap Nat)).2.size_ < 2 ^ 63 ∧
    (vector.push_back (.value 4) (vector.ctor_list [1, 2, 3] ([] : Heap Nat)).1
        (vector.ctor_list [1, 2, 3] ([] : Heap Nat)).2).2.size_ ≤
      (vector.push_back (.value 4) (vector.ctor_list [1, 2, 3] ([] : Heap Nat)).1
        (vector.ctor_list [1, 2, 3] ([] : Heap Nat)).2).2.capacity_ :=
  ⟨by decide, by decide,
    (C1_size_le_capacity.2.2.2.2.2.2.1 (.value 4) (vector.ctor_list [1, 2, 3] ([] : Heap Nat)).1
      (vector.ctor_list [1, 2, 3] ([] : Heap Nat)).2 (by decide) (by decide)).1⟩


/-! ## Relocation into a fresh block -/

/-- Relocation of `sz` elements from `old` into a fresh block of `c` slots, followed by the
release of `old`: the shape shared by `_resize`, `reserve`, `reallocate`, `shrink_to_fit`. -/
theorem relocate_fresh {T : Type} (h : Heap T) (old : pointer) (sz c : Nat)
    (hin : in_heap h old) :
    (operator_delete old (for_loop 0 sz
      (fun i hh => store (store hh (some h.length) i (load hh old i)) old i none)
      (h ++ [some (List.replicate c none)]))).length = h.length + 1 ∧
    slots (operator_delete old (for_loop 0 sz
      (fun i hh => store (store hh (some h.length) i (load hh old i)) old i none)
      (h ++ [some (List.replicate c none)]))) (some h.length) = c ∧
    (∀ j, load (operator_delete old (for_loop 0 sz
      (fun i hh => store (store hh (some h.length) i (load hh old i)) old i none)
      (h ++ [some (List.replicate c none)]))) (some h.length) j =
        if j < sz ∧ j < c then load h old j else none) ∧
    (∀ q, in_heap h q → q ≠ old →
      slots (operator_delete old (for_loop 0 sz
        (fun i hh => store (store hh (some h.length) i (load hh old i)) old i none)
        (h ++ [some (List.replicate c none)]))) q = slots h q ∧
      ∀ j, load (operator_delete old (for_loop 0 sz
        (fun i hh => store (store hh (some h.length) i (load hh old i)) old i none)
        (h ++ [some (List.replicate c none)]))) q j = load h q j) := by
  have hne : (some h.length : pointer) ≠ old := (ne_fresh hin).symm
  obtain ⟨hlen, hsl, hnw, -, hfr⟩ :=
    relocate_spec (h ++ [some (List.replicate c none)]) sz hne
  refine ⟨?_, ?_, ?_, ?_⟩
  · rw [length_delete, hlen]; simp
  · rw [slots_delete _ hne, hsl, slots_fresh]
  · intro j
    rw [load_delete _ _ hne, hnw, slots_fresh, load_fresh, load_append _ _ hin]
  · intro q hq hqo
    refine ⟨?_, fun j => ?_⟩
    · rw [slots_delete _ hqo, hsl, slots_append _ hq]
    · rw [load_delete _ _ hqo, hfr q j (ne_fresh hq) hqo, load_append _ _ hq]

/-- Relocation when the new capacity is 0: nothing is allocated, the elements of `old`
are destroyed and `old` is released. -/
theorem relocate_null {T : Type} (h : Heap T) (old : pointer) (sz : Nat) :
    (operator_delete old (for_loop 0 sz
      (fun i hh => store (store hh none i (load hh old i)) old i none) h)).length = h.length ∧
    (∀ q, q ≠ old →
      slots (operator_delete old (for_loop 0 sz
        (fun i hh => store (store hh none i (load hh old i)) old i none) h)) q = slots h q ∧
      ∀ j, load (operator_delete old (for_loop 0 sz
        (fun i hh => store (store hh none i (load hh old i)) old i none) h)) q j
          = load h q j) := by
  have e : (fun (i : Nat) (hh : Heap T) => store (store hh none i (load hh old i)) old i none)
      = fun i hh => store hh old i ((fun _ => none) i) := by
    funext i hh; rfl
  rw [e]
  obtain ⟨hlen, hsl, hld⟩ := store_loop_spec h old (fun _ => (none : Option T)) (Nat.zero_le sz)
  refine ⟨by rw [length_delete, hlen], fun q hq => ⟨?_, fun j => ?_⟩⟩
  · rw [slots_delete _ hq, hsl]
  · rw [load_delete _ _ hq, hld]
    simp [hq]

theorem owns_in_heap {T : Type} {h : Heap T} {s : vector} (ho : s.owns h) :
    in_heap h s.data_ := by
  rcases ho with ⟨h1, -⟩ | ⟨-, h2, h3⟩
  · rw [h1]; trivial
  · cases ha : s.data_ with
    | none => trivial
    | some a =>
      show a < h.length
      by_contra hge
      rw [ha] at h3
      simp only [slots] at h3
      rw [List.getElem?_eq_none (by omega)] at h3
      exact h2 h3.symm

/-! ## The size of a requested block -/

theorem sizeof_pos (T : Type) [sized T] : 0 < sizeof T := sized.bytes_pos

/-- A block never has more slots than were asked for. -/
theorem alloc_slots_le (T : Type) [sized T] (n : Nat) : alloc_slots T n ≤ n := by
  unfold alloc_slots
  calc (n * sizeof T % SIZE_MOD) / sizeof T ≤ (n * sizeof T) / sizeof T :=
        Nat.div_le_div_right (Nat.mod_le _ _)
    _ = n := Nat.mul_div_cancel _ (sizeof_pos T)

/-- A request that does not wrap yields the slots asked for. -/
theorem alloc_slots_eq (T : Type) [sized T] (n : Nat) (hw : n * sizeof T < SIZE_MOD) :
    alloc_slots T n = n := by
  unfold alloc_slots
  rw [Nat.mod_eq_of_lt hw, Nat.mul_div_cancel _ (sizeof_pos T)]

/-- A smaller request does not wrap either. -/
theorem no_wrap_mono (T : Type) [sized T] {m n : Nat} (hmn : m ≤ n)
    (hw : n * sizeof T < SIZE_MOD) : m * sizeof T < SIZE_MOD :=
  Nat.lt_of_le_of_lt (Nat.mul_le_mul_right _ hmn) hw

/-- A request that does not wrap is below the modulus of `size_t`. -/
theorem lt_of_no_wrap (T : Type) [sized T] {n : Nat} (hw : n * sizeof T < SIZE_MOD) :
    n < SIZE_MOD :=
  Nat.lt_of_le_of_lt (Nat.le_mul_of_pos_right n (sizeof_pos T)) hw

/-- Heap effect of `_resize()` when the grown capacity is not 0: the new block has the
slots the wrapped request holds. -/
theorem _resize_spec_slots {T : Type} [sized T] (h : Heap T) (s : vector)
    (hin : in_heap h s.data_) (hg : vector.grown_capacity s.capacity_ ≠ 0) :
    (vector._resize h s).2.data_ = some h.length ∧
    (vector._resize h s).1.length = h.length + 1 ∧
    slots (vector._resize h s).1 (some h.length) =
      alloc_slots T (vector.grown_capacity s.capacity_) ∧
    (∀ j, load (vector._resize h s).1 (some h.length) j =
      if j < s.size_ ∧ j < alloc_slots T (vector.grown_capacity s.capacity_)
      then load h s.data_ j else none) ∧
    (∀ q, in_heap h q → q ≠ s.data_ →
      slots (vector._resize h s).1 q = slots h q ∧
      ∀ j, load (vector._resize h s).1 q j = load h q j) := by
  have hr : vector._resize h s =
      (operator_delete s.data_ (for_loop 0 s.size_
        (fun i hh => store (store hh (some h.length) i (load hh s.data_ i)) s.data_ i none)
        (h ++ [some (List.replicate (alloc_slots T (vector.grown_capacity s.capacity_))
          none)])),
       { s with capacity_ := vector.grown_capacity s.capacity_, data_ := some h.length }) := by
    simp [vector._resize, hg, operator_new]
  rw [hr]
  exact ⟨rfl, relocate_fresh h s.data_ s.size_ _ hin⟩

/-- Heap effect of `_resize()` when the grown capacity is not 0 and its request does not
wrap. -/
theorem _resize_spec {T : Type} [sized T] (h : Heap T) (s : vector) (hin : in_heap h s.data_)
    (hg : vector.grown_capacity s.capacity_ ≠ 0)
    (hw : vector.grown_capacity s.capacity_ * sizeof T < SIZE_MOD) :
    (vector._resize h s).2.data_ = some h.length ∧
    (vector._resize h s).1.length = h.length + 1 ∧
    slots (vector._resize h s).1 (some h.length) = vector.grown_capacity s.capacity_ ∧
    (∀ j, load (vector._resize h s).1 (some h.length) j =
      if j < s.size_ ∧ j < vector.grown_capacity s.capacity_ then load h s.data_ j else none) ∧
    (∀ q, in_heap h q → q ≠ s.data_ →
      slots (vector._resize h s).1 q = slots h q ∧
      ∀ j, load (vector._resize h s).1 q j = load h q j) := by
  have hsp := _resize_spec_slots h s hin hg
  rw [alloc_slots_eq T _ hw] at hsp
  exact hsp


/-! ## Element sequences -/

theorem elems_length {T : Type} (h : Heap T) (s : vector) : (s.elems h).length = s.size_ := by
  simp [vector.elems]

theorem elems_getElem? {T : Type} (h : Heap T) (s : vector) (i : Nat) (hi : i < s.size_) :
    (s.elems h)[i]? = some (load h s.data_ i) := by
  simp [vector.elems, List.getElem?_map, List.getElem?_range hi]

/-- Two objects with the same size and the same slot contents below it have the same
element sequence. -/
theorem elems_congr {T : Type} {h h' : Heap T} {s s' : vector} (hsz : s'.size_ = s.size_)
    (hld : ∀ i, i < s.size_ → load h' s'.data_ i = load h s.data_ i) :
    s'.elems h' = s.elems h := by
  unfold vector.elems
  rw [hsz]
  apply List.map_congr_left
  intro i hi
  exact hld i (List.mem_range.mp hi)

/-- Appending one slot to the element sequence. -/
theorem elems_snoc {T : Type} {h h' : Heap T} {s s' : vector} (o : Option T)
    (hsz : s'.size_ = s.size_ + 1)
    (hld : ∀ i, i < s.size_ → load h' s'.data_ i = load h s.data_ i)
    (hlast : load h' s'.data_ s.size_ = o) :
    s'.elems h' = s.elems h ++ [o] := by
  unfold vector.elems
  rw [hsz, List.range_succ, List.map_append]
  congr 1
  · apply List.map_congr_left
    intro i hi
    exact hld i (List.mem_range.mp hi)
  · simp [hlast]

theorem grown_capacity_pos (c : Nat) (hc : c < 2 ^ 63) :
    c < vector.grown_capacity c := by
  rw [grown_capacity_eq c hc]
  split <;> omega


/-! ## Blocks that a call leaves alone -/

theorem same_block_refl {T : Type} (h : Heap T) (q : pointer) : same_block h h q :=
  ⟨rfl, fun _ => rfl⟩

theorem same_block_none {T : Type} (h h' : Heap T) : same_block h h' none :=
  ⟨rfl, fun _ => rfl⟩

theorem same_block_trans {T : Type} {h1 h2 h3 : Heap T} {q : pointer}
    (h12 : same_block h1 h2 q) (h23 : same_block h2 h3 q) : same_block h1 h3 q :=
  ⟨h23.1.trans h12.1, fun j => (h23.2 j).trans (h12.2 j)⟩

theorem elems_of_same_block {T : Type} {h h' : Heap T} {s : vector}
    (hb : same_block h h' s.data_) : s.elems h' = s.elems h :=
  elems_congr rfl (fun i _ => hb.2 i)

/-- A loop of stores to slots of `p` leaves every other block alone. -/
theorem same_block_store_loop {T : Type} (h : Heap T) {p q : pointer} (lo hi : Nat)
    (f : Nat → Option T) (hq : q = none ∨ q ≠ p) :
    same_block h (for_loop lo hi (fun i hh => store hh p i (f i)) h) q := by
  by_cases hle : lo ≤ hi
  · obtain ⟨-, hsl, hld⟩ := store_loop_spec h p f hle
    refine ⟨hsl q, fun j => ?_⟩
    rcases hq with hq | hq
    · subst hq; rfl
    · rw [hld]
      simp [hq]
  · rw [for_loop_ge _ _ (by omega)]
    exact same_block_refl h q

/-- Releasing `p` leaves every other block alone. -/
theorem same_block_delete {T : Type} (h : Heap T) {p q : pointer} (hq : q = none ∨ q ≠ p) :
    same_block h (operator_delete p h) q := by
  rcases hq with hq | hq
  · subst hq; exact same_block_none _ _
  · exact ⟨slots_delete h hq, fun j => load_delete h j hq⟩

/-- The teardown `_clear()` leaves every block but the object's own alone and keeps the
length of the store. -/
theorem _clear_frame {T : Type} (h : Heap T) (s : vector) (q : pointer)
    (hq : q = none ∨ q ≠ s.data_) :
    same_block h (vector._clear h s).1 q ∧ (vector._clear h s).1.length = h.length := by
  refine ⟨?_, ?_⟩
  · exact same_block_trans (same_block_store_loop h 0 s.size_ (fun _ => none) hq)
      (same_block_delete _ hq)
  · show (operator_delete s.data_ (for_loop 0 s.size_
      (fun i hh => store hh s.data_ i none) h)).length = h.length
    rw [length_delete, (store_loop_spec h s.data_ (fun _ => (none : Option T))
      (Nat.zero_le s.size_)).1]

/-! ## Frame of the growth step -/

/-- Relocation into a block obtained for capacity `c` (none when `c == 0`) leaves every
other block of the store alone, and the new block is not one of them. -/
theorem relocate_frame {T : Type} [sized T] (h : Heap T) (old q : pointer) (sz c : Nat)
    (hold : in_heap h old) (hqin : in_heap h q) (hq : q = none ∨ q ≠ old) :
    in_heap (operator_delete old (for_loop 0 sz
        (fun i hh => store (store hh (if c ≠ 0 then operator_new c h else (none, h)).1 i
          (load hh old i)) old i none)
        (if c ≠ 0 then operator_new c h else (none, h)).2))
      (if c ≠ 0 then operator_new c h else (none, h)).1 ∧
    in_heap (operator_delete old (for_loop 0 sz
        (fun i hh => store (store hh (if c ≠ 0 then operator_new c h else (none, h)).1 i
          (load hh old i)) old i none)
        (if c ≠ 0 then operator_new c h else (none, h)).2)) q ∧
    (q = none ∨ q ≠ (if c ≠ 0 then operator_new c h else (none, h)).1) ∧
    same_block h (operator_delete old (for_loop 0 sz
        (fun i hh => store (store hh (if c ≠ 0 then operator_new c h else (none, h)).1 i
          (load hh old i)) old i none)
        (if c ≠ 0 then operator_new c h else (none, h)).2)) q := by
  by_cases hc : c = 0
  · simp only [hc, ne_eq, not_true_eq_false, if_false]
    obtain ⟨hlen, hfr⟩ := relocate_null h old sz
    refine ⟨trivial, in_heap_mono (by rw [hlen]) hqin, ?_, ?_⟩
    · by_cases hn : q = none
      · exact Or.inl hn
      · exact Or.inr hn
    · rcases hq with hq | hq
      · subst hq; exact same_block_none _ _
      · exact ⟨(hfr q hq).1, (hfr q hq).2⟩
  · simp only [hc, ne_eq, not_false_eq_true, if_true, operator_new]
    obtain ⟨hlen, -, -, hfr⟩ := relocate_fresh h old sz (alloc_slots T c) hold
    refine ⟨?_, in_heap_mono (by rw [hlen]; omega) hqin, Or.inr (ne_fresh hqin), ?_⟩
    · show h.length < _
      rw [hlen]; omega
    · rcases hq with hq | hq
      · subst hq; exact same_block_none _ _
      · exact ⟨(hfr q hqin hq).1, (hfr q hqin hq).2⟩

/-- Frame of `_resize()`. -/
theorem _resize_frame {T : Type} [sized T] (h : Heap T) (s : vector) (q : pointer)
    (hap : s.apart h q) :
    (vector._resize h s).2.apart (vector._resize h s).1 q ∧
    same_block h (vector._resize h s).1 q := by
  obtain ⟨a, b, c⟩ := hap
  obtain ⟨r1, r2, r3, r4⟩ :=
    relocate_frame h s.data_ q s.size_ (vector.grown_capacity s.capacity_) a b c
  exact ⟨⟨r1, r2, r3⟩, r4⟩

/-- Frame of the `while` loop of `resize`. -/
theorem resize_grow_frame {T : Type} [sized T] (n : Nat) (q : pointer) :
    ∀ (fuel : Nat) (h : Heap T) (s : vector) (r : Heap T × vector), s.apart h q →
      vector.resize_grow n fuel h s = some r → r.2.apart r.1 q ∧ same_block h r.1 q := by
  intro fuel
  induction fuel with
  | zero => intro h s r _ hr; simp [vector.resize_grow] at hr
  | succ f ih =>
    intro h s r hap hr
    unfold vector.resize_grow at hr
    by_cases hc : n > s.capacity_
    · rw [if_pos hc] at hr
      obtain ⟨r1, r2⟩ := _resize_frame h s q hap
      obtain ⟨t1, t2⟩ := ih _ _ r r1 hr
      exact ⟨t1, same_block_trans r2 t2⟩
    · rw [if_neg hc] at hr
      cases hr
      exact ⟨hap, same_block_refl h q⟩

/-! ## Reading a reference argument -/

/-- The loop `for (i = lo; i < hi; i++) new (p + i) T(value)`: every slot written receives
what `value` denotes when the loop starts, also when `value` is a slot of `p` itself. -/
theorem fill_loop_spec {T : Type} (h : Heap T) (p : pointer) {lo hi : Nat}
    (a : argument T) (hle : lo ≤ hi) :
    (for_loop lo hi (fun i hh => store hh p i (a.read hh)) h).length = h.length ∧
    (∀ q, slots (for_loop lo hi (fun i hh => store hh p i (a.read hh)) h) q = slots h q) ∧
    (∀ q j, load (for_loop lo hi (fun i hh => store hh p i (a.read hh)) h) q j =
      if q = p ∧ lo ≤ j ∧ j < hi ∧ j < slots h p then a.read h else load h q j) := by
  have key := for_loop_inv
    (fun k acc => a.read acc = a.read h ∧ acc.length = h.length ∧
      (∀ q, slots acc q = slots h q) ∧
      (∀ q j, load acc q j =
        if q = p ∧ lo ≤ j ∧ j < k ∧ j < slots h p then a.read h else load h q j))
    (fun i hh => store hh p i (a.read hh)) h hle ?_ ?_
  · exact key.2
  · refine ⟨rfl, rfl, fun _ => rfl, fun q j => ?_⟩
    have : ¬ (q = p ∧ lo ≤ j ∧ j < lo ∧ j < slots h p) := by
      rintro ⟨-, h1, h2, -⟩; omega
    rw [if_neg this]
  · rintro i acc hlo hhi ⟨hrd, hlen, hsl, hld⟩
    have hld2 : ∀ q j, load (store acc p i (a.read acc)) q j =
        if q = p ∧ lo ≤ j ∧ j < i + 1 ∧ j < slots h p then a.read h else load h q j := by
      intro q j
      rw [load_store, hsl, hld, hrd]
      by_cases hq : q = p
      · subst hq
        by_cases hji : j = i
        · subst hji
          by_cases hs : j < slots h q
          · simp [hs, hlo]
          · simp [hs]
        · have h1 : (j < i + 1) = (j < i) := by
            apply propext; constructor <;> intro hh <;> omega
          simp [hji, h1]
      · simp [hq]
    refine ⟨?_, by rw [length_store, hlen], fun q => by rw [slots_store, hsl], hld2⟩
    cases a with
    | value v => rfl
    | slot r =>
      show load (store acc p i (load acc r.base r.index)) r.base r.index = load h r.base r.index
      have hrd2 : load acc r.base r.index = load h r.base r.index := hrd
      rw [load_store, hsl, hrd2]
      split <;> rfl

/-- An argument that is no element of the vector denotes the same object after `_resize()`,
and is no element of the vector afterwards. -/
theorem read_resize {T : Type} [sized T] (h : Heap T) (s : vector) (a : argument T)
    (hap : a.apart h s) :
    a.apart (vector._resize h s).1 (vector._resize h s).2 ∧
    a.read (vector._resize h s).1 = a.read h := by
  cases a with
  | value v => exact ⟨trivial, rfl⟩
  | slot r =>
    obtain ⟨r1, r2⟩ := _resize_frame h s r.base hap
    exact ⟨r1, r2.2 r.index⟩

/-- An argument that is no element of the vector denotes the same object after the `while`
loop of `resize`. -/
theorem read_resize_grow {T : Type} [sized T] (n : Nat) (a : argument T) :
    ∀ (fuel : Nat) (h : Heap T) (s : vector) (r : Heap T × vector), a.apart h s →
      vector.resize_grow n fuel h s = some r → a.apart r.1 r.2 ∧ a.read r.1 = a.read h := by
  intro fuel h s r hap hr
  cases a with
  | value v => exact ⟨trivial, rfl⟩
  | slot rf =>
    obtain ⟨r1, r2⟩ := resize_grow_frame n rf.base fuel h s r hap hr
    exact ⟨r1, r2.2 rf.index⟩

/-- A slot of a released block reads as `none`. -/
theorem load_released {T : Type} (h : Heap T) (p : pointer) (j : Nat) :
    load (operator_delete p h) p j = none := by
  cases p with
  | none => rfl
  | some a =>
    simp only [load, operator_delete]
    by_cases ha : a < h.length
    · rw [List.getElem?_set_self ha]
    · rw [List.getElem?_eq_none (by simpa using Nat.le_of_not_lt ha)]

/-- After `_resize()` a reference to an element of the vector, taken before the call, reads
a released block. -/
theorem read_resize_alias {T : Type} [sized T] (h : Heap T) (s : vector) (i : Nat) :
    (argument.slot { base := s.data_, index := i } : argument T).read (vector._resize h s).1
      = none := by
  show load (operator_delete s.data_ _) s.data_ i = none
  exact load_released _ _ _


/-! ## Heap effect of `push_back` -/

/-- The store in which `push_back` and `emplace_back` read their argument. -/
theorem push_read_eq {T : Type} [sized T] (value : argument T) (h : Heap T) (s : vector)
    (hx : value.apart h s ∨ s.size_ < s.capacity_) :
    value.read (if s.size_ ≥ s.capacity_ then (vector._resize h s).1 else h) = value.read h := by
  by_cases hc : s.size_ ≥ s.capacity_
  · rw [if_pos hc]
    rcases hx with hx | hx
    · exact (read_resize h s value hx).2
    · omega
  · rw [if_neg hc]

/-- Heap effect of `push_back(value)` on an object that holds its storage, when the request
of the growth step does not wrap: the slot `data_[size_]` receives what `value` denotes in
the store as it is after the growth step. -/
theorem push_back_spec {T : Type} [sized T] (value : argument T) (h : Heap T) (s : vector)
    (ho : s.owns h) (hinv : s.size_ ≤ s.capacity_) (hsz : s.size_ < 2 ^ 63)
    (hw : s.size_ ≥ s.capacity_ → vector.grown_capacity s.capacity_ * sizeof T < SIZE_MOD) :
    (vector.push_back value h s).2.owns (vector.push_back value h s).1 ∧
    (vector.push_back value h s).2.size_ = s.size_ + 1 ∧
    (vector.push_back value h s).2.elems (vector.push_back value h s).1 =
      s.elems h ++
        [value.read (if s.size_ ≥ s.capacity_ then (vector._resize h s).1 else h)] := by
  have hm : (s.size_ + 1) % SIZE_MOD = s.size_ + 1 := by
    apply Nat.mod_eq_of_lt
    unfold SIZE_MOD
    omega
  by_cases hc : s.size_ ≥ s.capacity_
  · have hlt := grown_capacity_pos s.capacity_ (by omega)
    have hg : vector.grown_capacity s.capacity_ ≠ 0 := by omega
    obtain ⟨hd, -, hsl, hld, -⟩ := _resize_spec h s (owns_in_heap ho) hg (hw hc)
    obtain ⟨hs1, hc1⟩ := _resize_fields h s
    have hr : vector.push_back value h s =
        (store (vector._resize h s).1 (some h.length) s.size_
            (value.read (vector._resize h s).1),
          { (vector._resize h s).2 with size_ := (s.size_ + 1) % SIZE_MOD }) := by
      simp [vector.push_back, hc, hd, hs1]
    rw [hr, hm, if_pos hc]
    refine ⟨?_, rfl, ?_⟩
    · right
      refine ⟨?_, ?_, ?_⟩
      · simp [hd]
      · simpa [hc1] using hg
      · simp only [hd, hc1]
        rw [slots_store, hsl]
    · apply elems_snoc
      · rfl
      · intro i hi
        simp only [hd]
        rw [load_store, hld]
        have h1 : ¬ i = s.size_ := by omega
        have h2 : i < vector.grown_capacity s.capacity_ := by omega
        simp [h1, h2, hi]
      · simp only [hd]
        rw [load_store, hsl]
        have h2 : s.size_ < vector.grown_capacity s.capacity_ := by omega
        simp [h2]
  · have hr : vector.push_back value h s =
        (store h s.data_ s.size_ (value.read h),
          { s with size_ := (s.size_ + 1) % SIZE_MOD }) := by
      simp [vector.push_back, hc]
    have hsl : slots h s.data_ = s.capacity_ := by
      rcases ho with ⟨-, h2⟩ | ⟨-, -, h3⟩
      · omega
      · exact h3
    rw [hr, hm, if_neg hc]
    refine ⟨?_, rfl, ?_⟩
    · rcases ho with ⟨-, h2⟩ | ⟨h1, h2, h3⟩
      · omega
      · right
        exact ⟨h1, h2, by simp only []; rw [slots_store, h3]⟩
    · apply elems_snoc
      · rfl
      · intro i hi
        simp only []
        rw [load_store]
        have h1 : ¬ i = s.size_ := by omega
        simp [h1]
      · simp only []
        rw [load_store, hsl]
        have h2 : s.size_ < s.capacity_ := by omega
        simp [h2]

theorem push_back_all_snoc {T : Type} [sized T] (xs : List (argument T)) (x : argument T)
    (h : Heap T) (s : vector) :
    vector.push_back_all (xs ++ [x]) h s =
      vector.push_back x (vector.push_back_all xs h s).1 (vector.push_back_all xs h s).2 := by
  simp [vector.push_back_all, List.foldl_append]

/-- A capacity `16 * 2^k` below `2^64` is at most `2^63`. -/
theorem pow_capacity_le (k : Nat) (hlt : 16 * 2 ^ k < 2 ^ 64) : 16 * 2 ^ k ≤ 2 ^ 63 := by
  have e : 16 * 2 ^ k = 2 ^ (k + 4) := by rw [pow_add]; ring
  rw [e] at hlt ⊢
  have hk : k + 4 < 64 := (Nat.pow_lt_pow_iff_right (by decide)).mp hlt
  exact Nat.pow_le_pow_right (by decide) (by omega)

/-- State after `push_back(x_1); …; push_back(x_N)` on a default-constructed vector, when
some capacity `16 * 2^k >= N` can be requested without wrap and each argument, in the call
that pushes it, is no element of the vector unless that call does not grow. -/
theorem push_back_all_spec {T : Type} [sized T] (h : Heap T) (k : Nat)
    (hw : 16 * 2 ^ k * sizeof T < SIZE_MOD) (xs : List (argument T))
    (hk : xs.length ≤ 16 * 2 ^ k)
    (hx : ∀ i a, xs[i]? = some a →
      a.apart (vector.push_back_all (xs.take i) h vector.ctor).1
        (vector.push_back_all (xs.take i) h vector.ctor).2 ∨
      (vector.push_back_all (xs.take i) h vector.ctor).2.size_ <
        (vector.push_back_all (xs.take i) h vector.ctor).2.capacity_) :
    (vector.push_back_all xs h vector.ctor).2.owns (vector.push_back_all xs h vector.ctor).1 ∧
    (vector.push_back_all xs h vector.ctor).2.size_ = xs.length ∧
    (∀ i a, xs[i]? = some a →
      load (vector.push_back_all xs h vector.ctor).1
        (vector.push_back_all xs h vector.ctor).2.data_ i =
      a.read (vector.push_back_all (xs.take i) h vector.ctor).1) ∧
    (xs.length = 0 → (vector.push_back_all xs h vector.ctor).2.capacity_ = 0) ∧
    (0 < xs.length → ∃ k, (vector.push_back_all xs h vector.ctor).2.capacity_ = 16 * 2 ^ k ∧
      xs.length ≤ 16 * 2 ^ k ∧ ∀ j, j < k → 16 * 2 ^ j < xs.length) := by
  have hQ : 16 * 2 ^ k ≤ 2 ^ 63 := pow_capacity_le k (lt_of_no_wrap T hw)
  induction xs using List.reverseRecOn with
  | nil =>
    refine ⟨Or.inl ⟨rfl, rfl⟩, rfl, fun i a hia => ?_, fun _ => rfl, fun hh => ?_⟩
    · simp at hia
    · simp at hh
  | append_singleton xs x ih =>
    have hlen : (xs ++ [x]).length = xs.length + 1 := by simp
    rw [hlen] at hk
    have htake : ∀ i, i ≤ xs.length → (xs ++ [x]).take i = xs.take i :=
      fun i hi => List.take_append_of_le_length hi
    have hget : ∀ i, i < xs.length → (xs ++ [x])[i]? = xs[i]? :=
      fun i hi => List.getElem?_append_left hi
    have hx1 : ∀ i a, xs[i]? = some a →
        a.apart (vector.push_back_all (xs.take i) h vector.ctor).1
          (vector.push_back_all (xs.take i) h vector.ctor).2 ∨
        (vector.push_back_all (xs.take i) h vector.ctor).2.size_ <
          (vector.push_back_all (xs.take i) h vector.ctor).2.capacity_ := by
      intro i a hia
      have hi : i < xs.length := (List.getElem?_eq_some_iff.mp hia).1
      have := hx i a (by rw [hget i hi]; exact hia)
      rwa [htake i (by omega)] at this
    obtain ⟨ho, hsz, hld, hc0, hck⟩ := ih (by omega) hx1
    have hxl : (xs ++ [x])[xs.length]? = some x := by simp
    have hx2 := hx xs.length x hxl
    rw [htake xs.length (Nat.le_refl _), List.take_length] at hx2
    rw [push_back_all_snoc, hlen]
    have hcap0 : xs.length ≤ (vector.push_back_all xs h vector.ctor).2.capacity_ := by
      rcases Nat.eq_zero_or_pos xs.length with h0 | hpos
      · omega
      · obtain ⟨k1, hk1, hle, -⟩ := hck hpos
        omega
    have hinv : (vector.push_back_all xs h vector.ctor).2.size_ ≤
        (vector.push_back_all xs h vector.ctor).2.capacity_ := by omega
    have hk1pos : 1 ≤ 2 ^ k := Nat.one_le_two_pow
    -- the capacity a growth step asks for is at most `16 * 2^k`
    have hgrow : (vector.push_back_all xs h vector.ctor).2.size_ ≥
          (vector.push_back_all xs h vector.ctor).2.capacity_ →
        (vector.push_back_all xs h vector.ctor).2.capacity_ < 2 ^ 63 ∧
        vector.grown_capacity (vector.push_back_all xs h vector.ctor).2.capacity_ ≤
          16 * 2 ^ k := by
      intro hfull
      rcases Nat.eq_zero_or_pos xs.length with h0 | hpos
      · have hz := hc0 h0
        rw [hz]
        refine ⟨by decide, ?_⟩
        rw [grown_capacity_eq 0 (by decide)]
        simp only [if_true]
        omega
      · obtain ⟨k1, hk1, hle, -⟩ := hck hpos
        have hkk : k1 < k := by
          by_contra hge
          have : 2 ^ k ≤ 2 ^ k1 := Nat.pow_le_pow_right (by decide) (by omega)
          omega
        have h2 : 2 ^ k1 * 2 ≤ 2 ^ k := by
          rw [← pow_succ]
          exact Nat.pow_le_pow_right (by decide) hkk
        have hlt : (vector.push_back_all xs h vector.ctor).2.capacity_ < 2 ^ 63 := by omega
        refine ⟨hlt, ?_⟩
        rw [grown_capacity_eq _ hlt]
        have hne : (vector.push_back_all xs h vector.ctor).2.capacity_ ≠ 0 := by omega
        rw [if_neg hne]
        omega
    obtain ⟨ho2, hsz2, hel2⟩ := push_back_spec x _ _ ho hinv (by omega)
      (fun hfull => no_wrap_mono T (hgrow hfull).2 hw)
    rw [push_read_eq x _ _ hx2] at hel2
    refine ⟨ho2, by omega, fun i a hia => ?_, fun hh => by omega, fun _ => ?_⟩
    · have hi : i < xs.length + 1 := by
        have := (List.getElem?_eq_some_iff.mp hia).1
        rwa [hlen] at this
      have hload := elems_getElem? (vector.push_back x (vector.push_back_all xs h vector.ctor).1
        (vector.push_back_all xs h vector.ctor).2).1
        (vector.push_back x (vector.push_back_all xs h vector.ctor).1
        (vector.push_back_all xs h vector.ctor).2).2 i (by omega)
      rw [hel2] at hload
      have hel_len : ((vector.push_back_all xs h vector.ctor).2.elems
          (vector.push_back_all xs h vector.ctor).1).length = xs.length := by
        rw [elems_length, hsz]
      by_cases hil : i < xs.length
      · rw [List.getElem?_append_left (by rw [hel_len]; exact hil),
          elems_getElem? _ _ i (by omega)] at hload
        rw [hget i hil] at hia
        rw [htake i (by omega), ← hld i a hia]
        exact (Option.some.inj hload).symm
      · have hie : i = xs.length := by omega
        subst hie
        rw [hxl] at hia
        cases Option.some.inj hia
        rw [htake xs.length (Nat.le_refl _), List.take_length]
        rw [List.getElem?_append_right (by rw [hel_len]), hel_len] at hload
        simp only [Nat.sub_self, List.getElem?_cons_zero] at hload
        exact (Option.some.inj hload).symm
    · rw [(push_back_fields x _ _).2, hsz]
      by_cases hfull : xs.length ≥ (vector.push_back_all xs h vector.ctor).2.capacity_
      · rw [if_pos hfull, grown_capacity_eq _ (hgrow (by omega)).1]
        rcases Nat.eq_zero_or_pos xs.length with h0 | hpos
        · rw [hc0 h0, h0]
          exact ⟨0, by simp, by simp, fun j hj => by omega⟩
        · obtain ⟨k1, hk1, hle, hmin⟩ := hck hpos
          have hne : (vector.push_back_all xs h vector.ctor).2.capacity_ ≠ 0 := by omega
          rw [if_neg hne, hk1]
          refine ⟨k1 + 1, by rw [pow_succ]; ring, by rw [pow_succ]; omega, fun j hj => ?_⟩
          have : 2 ^ j ≤ 2 ^ k1 := Nat.pow_le_pow_right (by decide) (by omega)
          omega
      · rw [if_neg hfull]
        have hpos : 0 < xs.length := by
          by_contra hz
          have h0 : xs.length = 0 := by omega
          have := hc0 h0
          omega
        obtain ⟨k1, hk1, hle, hmin⟩ := hck hpos
        refine ⟨k1, hk1, by omega, fun j hj => ?_⟩
        have := hmin j hj
        omega

set_option maxRecDepth 100000 in
/-- C2, as stated, fails: after `push_back(1), …, push_back(16)` on a default-constructed
`vector<int>` the vector is full (size 16, capacity 16) and `at(0)` refers to the element 1.
The seventeenth call `push_back(v.at(0))` passes that reference: `_resize()` moves the
elements to a new block and releases the old one before `T(value)` reads the argument, so
the size becomes 17 and `at(16)` succeeds, but the slot it refers to was built from a
released slot and does not hold `x_17 = 1`. -/
theorem C2_push_back_alias_counterexample :
    (vector.push_back_all ((List.range 16).map (fun i => argument.value (i + 1)))
      ([] : Heap Nat) vector.ctor).2 = { size_ := 16, capacity_ := 16, data_ := some 0 } ∧
    (vector.at 0
      (vector.push_back_all ((List.range 16).map (fun i => argument.value (i + 1)))
        ([] : Heap Nat) vector.ctor).1
      (vector.push_back_all ((List.range 16).map (fun i => argument.value (i + 1)))
        ([] : Heap Nat) vector.ctor).2).1 = .ok { base := some 0, index := 0 } ∧
    (argument.slot { base := some 0, index := 0 } : argument Nat).read
      (vector.push_back_all ((List.range 16).map (fun i => argument.value (i + 1)))
        ([] : Heap Nat) vector.ctor).1 = some 1 ∧
    (vector.push_back_all ((List.range 16).map (fun i => argument.value (i + 1)) ++
        [argument.slot { base := some 0, index := 0 }])
      ([] : Heap Nat) vector.ctor).2 = { size_ := 17, capacity_ := 32, data_ := some 1 } ∧
    (vector.at 16
      (vector.push_back_all ((List.range 16).map (fun i => argument.value (i + 1)) ++
          [argument.slot { base := some 0, index := 0 }])
        ([] : Heap Nat) vector.ctor).1
      (vector.push_back_all ((List.range 16).map (fun i => argument.value (i + 1)) ++
          [argument.slot { base := some 0, index := 0 }])
        ([] : Heap Nat) vector.ctor).2).1 = .ok { base := some 1, index := 16 } ∧
    (reference.mk (some 1) 16).get
      (vector.push_back_all ((List.range 16).map (fun i => argument.value (i + 1)) ++
          [argument.slot { base := some 0, index := 0 }])
        ([] : Heap Nat) vector.ctor).1 ≠ some 1 :=
  ⟨by decide, rfl, by decide, by decide, rfl, by decide⟩

set_option maxRecDepth 100000 in
/-- C2, amended: starting from a default-constructed vector, let `push_back(x_1), …,
push_back(x_N)` be calls in each of which the argument is no element of the vector itself
(an object outside the store or an element of another block) unless the call finds
`size_ < capacity_` and does not grow, and let some capacity `16 * 2^k >= N` be one that can
be requested without wrap (`16 * 2^k * sizeof(T) < 2^64`).  Then `size_ == N`; `at(i)`
succeeds and refers to what `x_(i+1)` denoted when it was pushed, for every `i < N`; the
final capacity is 0 when `N == 0` and otherwise the smallest value of the form `16 * 2^k`
that is `>= N`; a single `push_back`, on any vector and with any argument, leaves the
capacity as it was or makes one growth step; and for `N = 0, 1, …, 20` the capacity runs 0,
then 16 up to 16 elements, then 32. -/
theorem C2_push_back_sequence {T : Type} [sized T] (xs : List (argument T)) (h : Heap T)
    (k : Nat) (hk : xs.length ≤ 16 * 2 ^ k) (hw : 16 * 2 ^ k * sizeof T < SIZE_MOD)
    (hx : ∀ i a, xs[i]? = some a →
      a.apart (vector.push_back_all (xs.take i) h vector.ctor).1
        (vector.push_back_all (xs.take i) h vector.ctor).2 ∨
      (vector.push_back_all (xs.take i) h vector.ctor).2.size_ <
        (vector.push_back_all (xs.take i) h vector.ctor).2.capacity_) :
    (vector.push_back_all xs h vector.ctor).2.size_ = xs.length ∧
    (∀ i a, xs[i]? = some a → ∃ r,
      (vector.at i (vector.push_back_all xs h vector.ctor).1
        (vector.push_back_all xs h vector.ctor).2).1 = .ok r ∧
      r.get (vector.push_back_all xs h vector.ctor).1 =
        a.read (vector.push_back_all (xs.take i) h vector.ctor).1) ∧
    (xs.length = 0 → (vector.push_back_all xs h vector.ctor).2.capacity_ = 0) ∧
    (0 < xs.length → ∃ k, (vector.push_back_all xs h vector.ctor).2.capacity_ = 16 * 2 ^ k ∧
      xs.length ≤ 16 * 2 ^ k ∧ ∀ j, xs.length ≤ 16 * 2 ^ j → 16 * 2 ^ k ≤ 16 * 2 ^ j) ∧
    (∀ (x : argument T) (h1 : Heap T) (s1 : vector),
      (vector.push_back x h1 s1).2.capacity_ = s1.capacity_ ∨
      (vector.push_back x h1 s1).2.capacity_ = vector.grown_capacity s1.capacity_) ∧
    (List.range 21).map
      (fun n => (vector.push_back_all ((List.range n).map argument.value) ([] : Heap Nat)
        vector.ctor).2.capacity_) =
    [0, 16, 16, 16, 16, 16, 16, 16, 16, 16, 16, 16, 16, 16, 16, 16, 16, 32, 32, 32, 32] := by
  obtain ⟨-, hsz, hld, hc0, hck⟩ := push_back_all_spec h k hw xs hk hx
  refine ⟨hsz, fun i a hia => ?_, hc0, fun hpos => ?_, fun x h1 s1 => ?_, by decide⟩
  · refine ⟨⟨(vector.push_back_all xs h vector.ctor).2.data_, i⟩, ?_, hld i a hia⟩
    have hi : i < xs.length := (List.getElem?_eq_some_iff.mp hia).1
    have hlt : ¬ i ≥ (vector.push_back_all xs h vector.ctor).2.size_ := by omega
    simp [vector.at, hlt]
  · obtain ⟨k1, hk1, hle, hmin⟩ := hck hpos
    refine ⟨k1, hk1, hle, fun j hj => ?_⟩
    have hkj : k1 ≤ j := by
      by_contra hlt
      have := hmin j (by omega)
      omega
    have : 2 ^ k1 ≤ 2 ^ j := Nat.pow_le_pow_right (by decide) hkj
    omega
  · rw [(push_back_fields x h1 s1).2]
    split
    · right; rfl
    · left; rfl

set_option maxRecDepth 100000 in
/-- C2 witness: the pushes of 1, 2, 3 followed by `push_back(v.at(0))`, which finds size 3
below capacity 16 and does not grow: size 4, and `at(3)` refers to a copy of the element
1. -/
theorem C2_push_back_sequence_witness :
    ([argument.value 1, .value 2, .value 3, .slot { base := some 0, index := 0 }] :
      List (argument Nat)).length ≤ 16 * 2 ^ 0 ∧
    16 * 2 ^ 0 * sizeof Nat < SIZE_MOD ∧
    (vector.push_back_all
      [argument.value 1, .value 2, .value 3, .slot { base := some 0, index := 0 }]
      ([] : Heap Nat) vector.ctor).2.size_ = 4 ∧
    (∃ r, (vector.at 3
        (vector.push_back_all
          [argument.value 1, .value 2, .value 3, .slot { base := some 0, index := 0 }]
          ([] : Heap Nat) vector.ctor).1
        (vector.push_back_all
          [argument.value 1, .value 2, .value 3, .slot { base := some 0, index := 0 }]
          ([] : Heap Nat) vector.ctor).2).1 = .ok r ∧
      r.get (vector.push_back_all
          [argument.value 1, .value 2, .value 3, .slot { base := some 0, index := 0 }]
          ([] : Heap Nat) vector.ctor).1 = some 1) :=
  have hx : ∀ i a,
      ([argument.value 1, .value 2, .value 3, .slot { base := some 0, index := 0 }] :
        List (argument Nat))[i]? = some a →
      a.apart
        (vector.push_back_all
          (([argument.value 1, .value 2, .value 3, .slot { base := some 0, index := 0 }] :
            List (argument Nat)).take i) ([] : Heap Nat) vector.ctor).1
        (vector.push_back_all
          (([argument.value 1, .value 2, .value 3, .slot { base := some 0, index := 0 }] :
            List (argument Nat)).take i) ([] : Heap Nat) vector.ctor).2 ∨
      (vector.push_back_all
          (([argument.value 1, .value 2, .value 3, .slot { base := some 0, index := 0 }] :
            List (argument Nat)).take i) ([] : Heap Nat) vector.ctor).2.size_ <
        (vector.push_back_all
          (([argument.value 1, .value 2, .value 3, .slot { base := some 0, index := 0 }] :
            List (argument Nat)).take i) ([] : Heap Nat) vector.ctor).2.capacity_ := by
    intro i a hia
    match i, hia with
    | 0, hia => cases Option.some.inj hia; exact Or.inl trivial
    | 1, hia => cases Option.some.inj hia; exact Or.inl trivial
    | 2, hia => cases Option.some.inj hia; exact Or.inl trivial
    | 3, hia => cases Option.some.inj hia; exact Or.inr (by decide)
    | n + 4, hia => simp at hia
  ⟨by decide, by decide,
   (C2_push_back_sequence _ ([] : Heap Nat) 0 (by decide) (by decide) hx).1,
   (C2_push_back_sequence _ ([] : Heap Nat) 0 (by decide) (by decide) hx).2.1 3 _ rfl⟩


/-! ## C3 -/

theorem iterate_resize_capacity {T : Type} [sized T] (k : Nat) :
    ∀ (h : Heap T) (s : vector),
      ((fun st : Heap T × vector => vector._resize st.1 st.2)^[k] (h, s)).2.capacity_ =
        vector.grown_capacity^[k] s.capacity_ := by
  induction k with
  | zero => intro h s; rfl
  | succ k ih =>
    intro h s
    rw [Function.iterate_succ_apply, Function.iterate_succ_apply]
    have := ih (vector._resize h s).1 (vector._resize h s).2
    rw [(_resize_fields h s).2] at this
    exact this

/-- C3, as stated, fails: a vector built by `vector(3, 0)` is full with capacity 3, and
`push_back` on it (likewise `emplace_back` and `resize(4, 0)`) grows the capacity to 6,
not to `max(16, 2 * 3) = 16`. -/
theorem C3_growth_not_max_counterexample :
    (vector.ctor_fill 3 0 ([] : Heap Nat)).2.size_ = 3 ∧
    (vector.ctor_fill 3 0 ([] : Heap Nat)).2.capacity_ = 3 ∧
    (vector.push_back (.value 0) (vector.ctor_fill 3 0 ([] : Heap Nat)).1
      (vector.ctor_fill 3 0 ([] : Heap Nat)).2).2.capacity_ = 6 ∧
    (vector.emplace_back (.value 0) (vector.ctor_fill 3 0 ([] : Heap Nat)).1
      (vector.ctor_fill 3 0 ([] : Heap Nat)).2).2.capacity_ = 6 ∧
    (vector.resize_value 4 (.value 0) (vector.ctor_fill 3 0 ([] : Heap Nat)).1
      (vector.ctor_fill 3 0 ([] : Heap Nat)).2).map (fun r => r.2.capacity_) = some 6 ∧
    (vector.push_back (.value 0) (vector.ctor_fill 3 0 ([] : Heap Nat)).1
      (vector.ctor_fill 3 0 ([] : Heap Nat)).2).2.capacity_ ≠
        max 16 (2 * (vector.ctor_fill 3 0 ([] : Heap Nat)).2.capacity_) := by
  decide

/-- C3, amended: a growth step (`_resize()`, hence `push_back` with `size_ >= capacity_`,
`emplace_back` with `size_ == capacity_`, and every step of the loop of `resize`) sets the
capacity to 16 when the old capacity is 0 and to twice the old capacity otherwise (old
capacity below 2^63, so that the product does not wrap in `size_t`).  This is
`max(16, 2 * old)` when the old capacity is 0 or at least 8; for an old capacity from 1
to 7 it is `2 * old`, which is less than 16. -/
theorem C3_growth_step {T : Type} [sized T] (h : Heap T) (s : vector) (value : argument T)
    (hcap : s.capacity_ < 2 ^ 63) :
    (vector._resize h s).2.capacity_ = (if s.capacity_ = 0 then 16 else 2 * s.capacity_) ∧
    (s.size_ ≥ s.capacity_ →
      (vector.push_back value h s).2.capacity_ = (vector._resize h s).2.capacity_ ∧
      (vector.push_back_move value h s).2.capacity_ = (vector._resize h s).2.capacity_) ∧
    (s.size_ = s.capacity_ →
      (vector.emplace_back value h s).2.capacity_ = (vector._resize h s).2.capacity_) ∧
    (∀ (new_size : Nat) (r : Heap T × vector),
      vector.resize_value new_size value h s = some r →
      ∃ k, r.2.capacity_ =
        ((fun st : Heap T × vector => vector._resize st.1 st.2)^[k] (h, s)).2.capacity_) ∧
    (s.capacity_ = 0 ∨ 8 ≤ s.capacity_ →
      (vector._resize h s).2.capacity_ = max 16 (2 * s.capacity_)) ∧
    (1 ≤ s.capacity_ ∧ s.capacity_ ≤ 7 →
      (vector._resize h s).2.capacity_ = 2 * s.capacity_ ∧
      (vector._resize h s).2.capacity_ < 16) := by
  have hg : (vector._resize h s).2.capacity_ = (if s.capacity_ = 0 then 16 else 2 * s.capacity_) := by
    rw [(_resize_fields h s).2, grown_capacity_eq _ hcap]
  refine ⟨hg, fun hfull => ⟨?_, ?_⟩, fun hfull => ?_, fun n r hr => ?_, fun hc => ?_, fun hc => ?_⟩
  · rw [(push_back_fields value h s).2, if_pos hfull, (_resize_fields h s).2]
  · rw [(push_back_move_fields value h s).2, if_pos hfull, (_resize_fields h s).2]
  · rw [(emplace_back_fields value h s).2, if_pos hfull, (_resize_fields h s).2]
  · obtain ⟨-, -, k, hk, -⟩ := resize_value_fields n value h s r hr
    exact ⟨k, by rw [hk, iterate_resize_capacity]⟩
  · rw [hg]
    rcases hc with h0 | h8
    · simp [h0]
    · have : s.capacity_ ≠ 0 := by omega
      rw [if_neg this]
      omega
  · rw [hg]
    have : s.capacity_ ≠ 0 := by omega
    rw [if_neg this]
    omega

/-- C3 witness: the full vector `vector(3, 0)` grows from capacity 3 to capacity 6. -/
theorem C3_growth_step_witness :
    (vector.ctor_fill 3 0 ([] : Heap Nat)).2.capacity_ < 2 ^ 63 ∧
    (vector._resize (vector.ctor_fill 3 0 ([] : Heap Nat)).1
      (vector.ctor_fill 3 0 ([] : Heap Nat)).2).2.capacity_ =
      2 * (vector.ctor_fill 3 0 ([] : Heap Nat)).2.capacity_ :=
  ⟨by decide,
    ((C3_growth_step (vector.ctor_fill 3 0 ([] : Heap Nat)).1
      (vector.ctor_fill 3 0 ([] : Heap Nat)).2 (.value 0) (by decide)).2.2.2.2.2
        ⟨by decide, by decide⟩).1⟩


/-! ## C4 -/

/-- The exception of `at(index)` for `index >= size_`. -/
theorem at_throws {T : Type} (h : Heap T) (s : vector) (index : Nat) (hge : index ≥ s.size_) :
    (vector.at index h s).1 = .error (.out_of_range
      ("vector::at index" ++ toString index ++ " out of range(size=" ++
        toString s.size_ ++ ")")) := by
  simp [vector.at, hge, String.append_assoc]

/-- C4: `at(index)` throws `std::out_of_range` if and only if `index >= size_` (so
`at(size_)` and `at(size_ + k)` both throw), the exception text carrying the index and the
size; otherwise it returns the reference to slot `index` of the block, whose content is
entry `index` of the element sequence; `operator[](index)` gives what `at(index)` gives,
for every index. -/
theorem C4_at_bounds {T : Type} (h : Heap T) (s : vector) (index : Nat) :
    ((∃ e, (vector.at index h s).1 = .error e) ↔ index ≥ s.size_) ∧
    (index ≥ s.size_ → (vector.at index h s).1 = .error (.out_of_range
      ("vector::at index" ++ toString index ++ " out of range(size=" ++
        toString s.size_ ++ ")"))) ∧
    (∀ k, ∃ what, (vector.at (s.size_ + k) h s).1 = .error (.out_of_range what)) ∧
    (index < s.size_ →
      (vector.at index h s).1 = .ok { base := s.data_, index := index } ∧
      (s.elems h)[index]? =
        some (reference.get h ({ base := s.data_, index := index } : reference))) ∧
    vector.operator_index index h s = vector.at index h s := by
  refine ⟨⟨?_, ?_⟩, ?_, ?_, ?_, rfl⟩
  · rintro ⟨e, he⟩
    by_contra hlt
    simp [vector.at, hlt] at he
  · intro hge
    simp [vector.at, hge]
  · exact at_throws h s index
  · intro k
    have hge : s.size_ + k ≥ s.size_ := by omega
    simp [vector.at, hge]
  · intro hlt
    have hge : ¬ index ≥ s.size_ := by omega
    refine ⟨by simp [vector.at, hge], ?_⟩
    rw [elems_getElem? h s index hlt]
    rfl

/-- C4 witness: in the vector 1, 2, 3, `at(1)` refers to the value 2. -/
theorem C4_at_bounds_witness :
    1 < (vector.ctor_list [1, 2, 3] ([] : Heap Nat)).2.size_ ∧
    ((vector.ctor_list [1, 2, 3] ([] : Heap Nat)).2.elems
      (vector.ctor_list [1, 2, 3] ([] : Heap Nat)).1)[1]? = some (some 2) :=
  ⟨by decide,
    ((C4_at_bounds (vector.ctor_list [1, 2, 3] ([] : Heap Nat)).1
      (vector.ctor_list [1, 2, 3] ([] : Heap Nat)).2 1).2.2.2.1 (by decide)).2⟩

/-! ## C5 -/

/-- C5: a call of `at`, `operator[]`, `front`, `back` or `pop_back` that throws leaves the
store (the data block and every stored element) and the object (`size_`, `capacity_`,
`data_`) exactly as they were; the calls do throw for `index >= size_`, respectively
`size_ == 0`. -/
theorem C5_failed_call_keeps_state {T : Type} (h : Heap T) (s : vector) (index : Nat) :
    (∀ e, (vector.at index h s).1 = .error e → (vector.at index h s).2 = (h, s)) ∧
    (∀ e, (vector.operator_index index h s).1 = .error e →
      (vector.operator_index index h s).2 = (h, s)) ∧
    (∀ e, (vector.front h s).1 = .error e → (vector.front h s).2 = (h, s)) ∧
    (∀ e, (vector.back h s).1 = .error e → (vector.back h s).2 = (h, s)) ∧
    (∀ e, (vector.pop_back h s).1 = .error e → (vector.pop_back h s).2 = (h, s)) ∧
    (index ≥ s.size_ → ∃ e, (vector.at index h s).1 = .error e ∧
      (vector.operator_index index h s).1 = .error e) ∧
    (s.size_ = 0 → (∃ e, (vector.front h s).1 = .error e) ∧
      (∃ e, (vector.back h s).1 = .error e) ∧ ∃ e, (vector.pop_back h s).1 = .error e) := by
  have hat : ∀ i, (vector.at i h s).2 = (h, s) := by
    intro i
    unfold vector.at
    split <;> rfl
  refine ⟨fun _ _ => hat _, fun _ _ => hat _, fun _ _ => hat _, fun _ _ => hat _, ?_, ?_, ?_⟩
  · intro e he
    by_cases h0 : s.size_ = 0
    · simp [vector.pop_back, h0]
    · simp [vector.pop_back, h0] at he
  · intro hge
    exact ⟨_, at_throws h s index hge, at_throws h s index hge⟩
  · intro h0
    refine ⟨?_, ?_, ?_⟩
    · simp [vector.front, vector.at, h0]
    · simp [vector.back, vector.at, h0]
    · simp [vector.pop_back, h0]

/-- C5 witness: `pop_back()` and `back()` on a default-constructed vector throw and leave
the store and the object as they were. -/
theorem C5_failed_call_keeps_state_witness :
    (vector.pop_back ([] : Heap Nat) vector.ctor).1 =
      .error (.out_of_range "vector::pop_back empty vector") ∧
    (vector.pop_back ([] : Heap Nat) vector.ctor).2 = (([] : Heap Nat), vector.ctor) :=
  ⟨rfl, (C5_failed_call_keeps_state ([] : Heap Nat) vector.ctor 0).2.2.2.2.1 _ rfl⟩

/-! ## C6 -/

/-- C6: `pop_back()` throws `std::out_of_range` if and only if `size_ == 0`; otherwise it
returns normally, the new size is the old size minus 1, the element sequence is the old one
without its last entry, and `capacity_` and `data_` are unchanged. -/
theorem C6_pop_back {T : Type} (h : Heap T) (s : vector) :
    ((vector.pop_back h s).1 = .error (.out_of_range "vector::pop_back empty vector")
      ↔ s.size_ = 0) ∧
    ((∃ e, (vector.pop_back h s).1 = .error e) ↔ s.size_ = 0) ∧
    (s.size_ ≠ 0 →
      (vector.pop_back h s).1 = .ok () ∧
      (vector.pop_back h s).2.2.size_ = s.size_ - 1 ∧
      (vector.pop_back h s).2.2.elems (vector.pop_back h s).2.1 = (s.elems h).dropLast ∧
      (vector.pop_back h s).2.2.capacity_ = s.capacity_ ∧
      (vector.pop_back h s).2.2.data_ = s.data_) := by
  refine ⟨⟨?_, ?_⟩, ⟨?_, ?_⟩, ?_⟩
  · intro he
    by_contra h0
    simp [vector.pop_back, h0] at he
  · intro h0
    simp [vector.pop_back, h0]
  · rintro ⟨e, he⟩
    by_contra h0
    simp [vector.pop_back, h0] at he
  · intro h0
    simp [vector.pop_back, h0]
  · intro h0
    have hr : vector.pop_back h s =
        (.ok (), store h s.data_ (s.size_ - 1) none, { s with size_ := s.size_ - 1 }) := by
      simp [vector.pop_back, h0]
    rw [hr]
    refine ⟨rfl, rfl, ?_, rfl, rfl⟩
    have hsn : s.elems h =
        vector.elems (store h s.data_ (s.size_ - 1) none) { s with size_ := s.size_ - 1 }
          ++ [load h s.data_ (s.size_ - 1)] := by
      apply elems_snoc
      · show s.size_ = s.size_ - 1 + 1
        omega
      · intro i hi
        have hi2 : i < s.size_ - 1 := hi
        rw [load_store]
        have : ¬ i = s.size_ - 1 := by omega
        simp [this]
      · rfl
    simp only []
    rw [hsn, List.dropLast_concat]

/-- C6 witness: `pop_back()` on the vector 1, 2, 3 leaves 1, 2 with capacity 3. -/
theorem C6_pop_back_witness :
    (vector.ctor_list [1, 2, 3] ([] : Heap Nat)).2.size_ ≠ 0 ∧
    (vector.pop_back (vector.ctor_list [1, 2, 3] ([] : Heap Nat)).1
      (vector.ctor_list [1, 2, 3] ([] : Heap Nat)).2).2.2.elems
      (vector.pop_back (vector.ctor_list [1, 2, 3] ([] : Heap Nat)).1
        (vector.ctor_list [1, 2, 3] ([] : Heap Nat)).2).2.1 = [some 1, some 2] :=
  ⟨by decide,
    ((C6_pop_back (vector.ctor_list [1, 2, 3] ([] : Heap Nat)).1
      (vector.ctor_list [1, 2, 3] ([] : Heap Nat)).2).2.2 (by decide)).2.2.1⟩


/-! ## C7 -/

theorem elems_eq_of {T : Type} {h : Heap T} {s : vector} {l : List (Option T)}
    (hlen : l.length = s.size_) (hget : ∀ i, i < s.size_ → l[i]? = some (load h s.data_ i)) :
    s.elems h = l := by
  apply List.ext_getElem?
  intro i
  by_cases hi : i < s.size_
  · rw [elems_getElem? h s i hi, hget i hi]
  · rw [List.getElem?_eq_none (by rw [elems_length]; omega),
      List.getElem?_eq_none (by omega)]

theorem load_of_elems_eq {T : Type} {h h' : Heap T} {s s' : vector}
    (hel : s'.elems h' = s.elems h) (i : Nat) (hi : i < s.size_) :
    load h' s'.data_ i = load h s.data_ i := by
  have hsz : s'.size_ = s.size_ := by
    rw [← elems_length h' s', hel, elems_length]
  have h1 := elems_getElem? h' s' i (by omega)
  rw [hel, elems_getElem? h s i hi] at h1
  exact (Option.some.inj h1).symm

/-- One growth step whose request does not wrap keeps the object in possession of its block
and keeps its elements. -/
theorem _resize_elems {T : Type} [sized T] (h : Heap T) (s : vector) (ho : s.owns h)
    (hinv : s.size_ ≤ s.capacity_) (hcap : s.capacity_ < 2 ^ 63)
    (hw : vector.grown_capacity s.capacity_ * sizeof T < SIZE_MOD) :
    (vector._resize h s).2.owns (vector._resize h s).1 ∧
    (vector._resize h s).2.elems (vector._resize h s).1 = s.elems h := by
  have hlt := grown_capacity_pos s.capacity_ hcap
  have hg : vector.grown_capacity s.capacity_ ≠ 0 := by omega
  obtain ⟨hd, -, hsl, hld, -⟩ := _resize_spec h s (owns_in_heap ho) hg hw
  obtain ⟨hs1, hc1⟩ := _resize_fields h s
  refine ⟨Or.inr ⟨by simp [hd], by rw [hc1]; exact hg, by rw [hd, hc1, hsl]⟩, ?_⟩
  apply elems_congr hs1
  intro i hi
  rw [hd, hld]
  have : i < vector.grown_capacity s.capacity_ := by omega
  simp [hi, this]

/-- A new size `n` with `2 * n * sizeof(T) <= 2^64` is at most `2^63`. -/
theorem le_of_double_no_wrap (T : Type) [sized T] {n : Nat}
    (hn : 2 * n * sizeof T ≤ SIZE_MOD) : n ≤ 2 ^ 63 := by
  have h1 : 2 * n ≤ 2 * n * sizeof T := Nat.le_mul_of_pos_right _ (sizeof_pos T)
  unfold SIZE_MOD at hn
  omega

/-- The request of a growth step taken while `capacity_ < n` does not wrap. -/
theorem grow_no_wrap (T : Type) [sized T] {n c : Nat} (h16 : 16 * sizeof T < SIZE_MOD)
    (hn : 2 * n * sizeof T ≤ SIZE_MOD) (hc : n > c) :
    vector.grown_capacity c * sizeof T < SIZE_MOD := by
  have hn63 := le_of_double_no_wrap T hn
  rw [grown_capacity_eq c (by omega)]
  by_cases h0 : c = 0
  · rw [if_pos h0]; exact h16
  · rw [if_neg h0]
    have h1 : 2 * c * sizeof T < 2 * n * sizeof T :=
      Nat.mul_lt_mul_of_pos_right (by omega) (sizeof_pos T)
    omega

/-- The `while` loop of `resize` keeps the object in possession of its block and keeps its
elements, when no request wraps. -/
theorem resize_grow_elems {T : Type} [sized T] (n : Nat) (h16 : 16 * sizeof T < SIZE_MOD)
    (hn : 2 * n * sizeof T ≤ SIZE_MOD) :
    ∀ (fuel : Nat) (h : Heap T) (s : vector) (r : Heap T × vector), s.owns h →
      s.size_ ≤ s.capacity_ → vector.resize_grow n fuel h s = some r →
      r.2.owns r.1 ∧ r.2.elems r.1 = s.elems h := by
  have hn63 := le_of_double_no_wrap T hn
  intro fuel
  induction fuel with
  | zero => intro h s r _ _ hr; simp [vector.resize_grow] at hr
  | succ f ih =>
    intro h s r ho hinv hr
    unfold vector.resize_grow at hr
    by_cases hc : n > s.capacity_
    · rw [if_pos hc] at hr
      obtain ⟨ho1, hel1⟩ := _resize_elems h s ho hinv (by omega) (grow_no_wrap T h16 hn hc)
      have hinv1 : (vector._resize h s).2.size_ ≤ (vector._resize h s).2.capacity_ := by
        rw [(_resize_fields h s).1, (_resize_fields h s).2]
        have := grown_capacity_pos s.capacity_ (by omega)
        omega
      obtain ⟨ho2, hel2⟩ := ih _ _ r ho1 hinv1 hr
      exact ⟨ho2, by rw [hel2, hel1]⟩
    · rw [if_neg hc] at hr
      cases hr
      exact ⟨ho, rfl⟩

theorem resize_eq_resize_value {T : Type} [sized T] [Inhabited T] (n : Nat) (h : Heap T)
    (s : vector) :
    vector.resize n h s = vector.resize_value n (.value default) h s := rfl

/-- The `while` loop of `resize` does nothing when the capacity suffices. -/
theorem resize_grow_stay {T : Type} [sized T] (n : Nat) (h : Heap T) (s : vector)
    (hc : n ≤ s.capacity_) : vector.resize_grow n RESIZE_FUEL h s = some (h, s) := by
  show vector.resize_grow n (127 + 1) h s = some (h, s)
  unfold vector.resize_grow
  rw [if_neg (by omega)]

/-- What `value` denotes after the `while` loop of `resize`, when it is no element of the
vector or the loop does not grow. -/
theorem resize_read_eq {T : Type} [sized T] (n : Nat) (value : argument T) (h : Heap T)
    (s : vector) (hx : value.apart h s ∨ n ≤ s.capacity_) (r : Heap T × vector)
    (hr : vector.resize_grow n RESIZE_FUEL h s = some r) : value.read r.1 = value.read h := by
  rcases hx with hx | hx
  · exact (read_resize_grow n value _ h s r hx hr).2
  · rw [resize_grow_stay n h s hx] at hr
    cases hr
    rfl

/-- Heap effect of `resize(new_size, value)` when no request wraps: the new slots receive
what `value` denotes in the store as it is after the `while` loop. -/
theorem resize_value_elems_read {T : Type} [sized T] (n : Nat) (value : argument T)
    (h : Heap T) (s : vector) (ho : s.owns h) (hinv : s.size_ ≤ s.capacity_)
    (h16 : 16 * sizeof T < SIZE_MOD) (hn : 2 * n * sizeof T ≤ SIZE_MOD)
    (r : Heap T × vector) (hr : vector.resize_value n value h s = some r) :
    r.2.owns r.1 ∧
    ∃ g, (n > s.size_ → vector.resize_grow n RESIZE_FUEL h s = some g) ∧
      r.2.elems r.1 =
        (s.elems h).take n ++ List.replicate (n - s.size_) (value.read g.1) := by
  unfold vector.resize_value at hr
  by_cases h1 : n = s.size_
  · rw [if_pos h1] at hr
    cases hr
    refine ⟨ho, (h, s), fun hh => by omega, ?_⟩
    have : n - s.size_ = 0 := by omega
    rw [this, List.take_of_length_le (by rw [elems_length]; omega)]
    simp
  · rw [if_neg h1] at hr
    by_cases h2 : n < s.size_
    · rw [if_pos h2] at hr
      cases hr
      obtain ⟨-, hsl, hld⟩ :=
        store_loop_spec h s.data_ (fun _ => (none : Option T)) (Nat.le_of_lt h2)
      refine ⟨?_, (h, s), fun hh => by omega, ?_⟩
      · rcases ho with ⟨a, b⟩ | ⟨a, b, c⟩
        · exact Or.inl ⟨a, b⟩
        · exact Or.inr ⟨a, b, by simp only []; rw [hsl]; exact c⟩
      · have : n - s.size_ = 0 := by omega
        rw [this]
        apply elems_eq_of
        · simp [elems_length]; omega
        · intro i hi
          have hi2 : i < n := hi
          simp only []
          rw [hld]
          have hc : ¬ (s.data_ = s.data_ ∧ n ≤ i ∧ i < s.size_ ∧ i < slots h s.data_) := by
            rintro ⟨-, hh, -⟩; omega
          rw [if_neg hc]
          simp only [List.replicate_zero, List.append_nil]
          rw [List.getElem?_take_of_lt hi2, elems_getElem? h s i (by omega)]
    · rw [if_neg h2] at hr
      cases hg : vector.resize_grow n RESIZE_FUEL h s with
      | none => rw [hg] at hr; cases hr
      | some g =>
        rw [hg] at hr
        obtain ⟨h1g, s1g⟩ := g
        simp only [Option.some.injEq] at hr
        subst hr
        obtain ⟨hsz, hle, -⟩ := resize_grow_fields n _ _ _ _ hg
        obtain ⟨hog, helg⟩ := resize_grow_elems n h16 hn _ _ _ _ ho hinv hg
        simp only [] at hsz hle hog helg
        have hslg : slots h1g s1g.data_ = s1g.capacity_ := by
          rcases hog with ⟨-, b⟩ | ⟨-, -, c⟩
          · omega
          · exact c
        obtain ⟨-, hsl, hld⟩ :=
          @fill_loop_spec T h1g s1g.data_ s1g.size_ n value (by omega)
        refine ⟨?_, (h1g, s1g), fun _ => rfl, ?_⟩
        · rcases hog with ⟨-, b⟩ | ⟨a, b, c⟩
          · omega
          · exact Or.inr ⟨a, b, by simp only []; rw [hsl]; exact c⟩
        · apply elems_eq_of
          · simp [elems_length]; omega
          · intro i hi
            have hi2 : i < n := hi
            simp only []
            rw [hld, hslg, List.getElem?_append, List.length_take, elems_length]
            by_cases hlt : i < s.size_
            · have hc : ¬ (s1g.data_ = s1g.data_ ∧ s1g.size_ ≤ i ∧ i < n ∧
                  i < s1g.capacity_) := by
                rintro ⟨-, hh, -⟩; omega
              rw [if_neg hc, if_pos (by omega), List.getElem?_take_of_lt hi2,
                elems_getElem? h s i hlt, load_of_elems_eq helg i hlt]
            · have hc : s1g.data_ = s1g.data_ ∧ s1g.size_ ≤ i ∧ i < n ∧
                  i < s1g.capacity_ := ⟨rfl, by omega, hi2, by omega⟩
              rw [if_pos hc, if_neg (by omega), List.getElem?_replicate, if_pos (by omega)]

/-- Heap effect of `resize(new_size, value)` when no request wraps and `value` is no element
of the vector or the capacity suffices: the new slots receive what `value` denotes. -/
theorem resize_value_elems {T : Type} [sized T] (n : Nat) (value : argument T) (h : Heap T)
    (s : vector) (ho : s.owns h) (hinv : s.size_ ≤ s.capacity_)
    (h16 : 16 * sizeof T < SIZE_MOD) (hn : 2 * n * sizeof T ≤ SIZE_MOD)
    (hx : value.apart h s ∨ n ≤ s.capacity_)
    (r : Heap T × vector) (hr : vector.resize_value n value h s = some r) :
    r.2.owns r.1 ∧
    r.2.elems r.1 = (s.elems h).take n ++ List.replicate (n - s.size_) (value.read h) := by
  obtain ⟨ho2, g, hg, hel⟩ := resize_value_elems_read n value h s ho hinv h16 hn r hr
  refine ⟨ho2, ?_⟩
  by_cases hgt : n > s.size_
  · rw [hel, resize_read_eq n value h s hx g (hg hgt)]
  · have : n - s.size_ = 0 := by omega
    rw [hel, this]
    rfl


set_option maxRecDepth 100000 in
/-- C7, as stated, fails: on the vector 1, 2, 3 (size 3, capacity 3) the call
`resize(5, v[0])` passes a reference to the element 1.  The `while` loop calls `_resize()`,
which moves the elements to a new block and releases the old one, before `T(value)` reads
the argument: the size becomes 5 and the first three elements stay, but the two new slots
are built from a released slot and are not copies of 1. -/
theorem C7_resize_alias_counterexample :
    (vector.ctor_list [1, 2, 3] ([] : Heap Nat)).2
      = { size_ := 3, capacity_ := 3, data_ := some 0 } ∧
    (vector.operator_index 0 (vector.ctor_list [1, 2, 3] ([] : Heap Nat)).1
      (vector.ctor_list [1, 2, 3] ([] : Heap Nat)).2).1 = .ok { base := some 0, index := 0 } ∧
    (argument.slot { base := some 0, index := 0 } : argument Nat).read
      (vector.ctor_list [1, 2, 3] ([] : Heap Nat)).1 = some 1 ∧
    (vector.resize_value 5 (.slot { base := some 0, index := 0 })
      (vector.ctor_list [1, 2, 3] ([] : Heap Nat)).1
      (vector.ctor_list [1, 2, 3] ([] : Heap Nat)).2).map
        (fun r => (r.2.size_, r.2.capacity_, r.2.elems r.1))
      = some (5, 6, [some 1, some 2, some 3, none, none]) ∧
    (vector.resize_value 5 (.slot { base := some 0, index := 0 })
      (vector.ctor_list [1, 2, 3] ([] : Heap Nat)).1
      (vector.ctor_list [1, 2, 3] ([] : Heap Nat)).2).map (fun r => r.2.elems r.1)
      ≠ some ([some 1, some 2, some 3] ++ List.replicate 2 (some 1)) :=
  ⟨by decide, rfl, by decide, by decide, by decide⟩

set_option maxRecDepth 100000 in
/-- C7, amended: for a vector that holds its block, with `size_ <= capacity_`, a new size
whose growth requests do not wrap (`2 * new_size * sizeof(T) <= 2^64` and
`16 * sizeof(T) < 2^64`), and a `value` that is no element of the vector itself unless
`new_size <= capacity_` (no growth), `resize(new_size, value)` returns; afterwards
`size_ == new_size`, the element sequence is the first `new_size` old elements followed by
`new_size - size_` copies of what `value` denotes; the capacity is unchanged when
`new_size <= capacity_`, and otherwise it is the first value `>= new_size` in the sequence
obtained from the old capacity by repeated growth steps.  `resize(new_size)` is
`resize(new_size, T())`.  The vector 1, 2, 3 becomes 1, 2, 3, 9, 9 under `resize(5, 9)`;
the vector 1, 2, 3, 4, 5 becomes 1, 2 with capacity 5 under `resize(2)`. -/
theorem C7_resize {T : Type} [sized T] [Inhabited T] (new_size : Nat) (value : argument T)
    (h : Heap T) (s : vector) (ho : s.owns h) (hinv : s.size_ ≤ s.capacity_)
    (h16 : 16 * sizeof T < SIZE_MOD) (hn : 2 * new_size * sizeof T ≤ SIZE_MOD)
    (hx : value.apart h s ∨ new_size ≤ s.capacity_) :
    (∃ r, vector.resize_value new_size value h s = some r ∧
      r.2.size_ = new_size ∧
      r.2.elems r.1 =
        (s.elems h).take new_size ++ List.replicate (new_size - s.size_) (value.read h) ∧
      (new_size ≤ s.capacity_ → r.2.capacity_ = s.capacity_) ∧
      (s.capacity_ < new_size → new_size ≤ r.2.capacity_ ∧
        ∃ k, r.2.capacity_ = vector.grown_capacity^[k] s.capacity_ ∧
          ∀ j, j < k → vector.grown_capacity^[j] s.capacity_ < new_size)) ∧
    vector.resize new_size h s = vector.resize_value new_size (.value default) h s ∧
    (vector.resize_value 5 (.value 9) (vector.ctor_list [1, 2, 3] ([] : Heap Nat)).1
      (vector.ctor_list [1, 2, 3] ([] : Heap Nat)).2).map (fun r => (r.2.elems r.1, r.2.size_))
      = some ([some 1, some 2, some 3, some 9, some 9], 5) ∧
    (vector.resize 2 (vector.ctor_list [1, 2, 3, 4, 5] ([] : Heap Nat)).1
      (vector.ctor_list [1, 2, 3, 4, 5] ([] : Heap Nat)).2).map
        (fun r => (r.2.elems r.1, r.2.size_, r.2.capacity_))
      = some ([some 1, some 2], 2, 5) := by
  refine ⟨?_, rfl, by decide, by decide⟩
  have hn63 := le_of_double_no_wrap T hn
  obtain ⟨r, hr⟩ := resize_value_returns new_size value h s hn63
  obtain ⟨hsz, hle, k, hk, hmin⟩ := resize_value_fields new_size value h s r hr
  obtain ⟨-, hel⟩ := resize_value_elems new_size value h s ho hinv h16 hn hx r hr
  refine ⟨r, hr, hsz, hel, fun hc => ?_, fun hc => ⟨hle (by omega), k, hk, hmin⟩⟩
  have hk0 := resize_capacity_of_le s.capacity_ new_size k hc hmin
  subst hk0
  exact hk

set_option maxRecDepth 100000 in
/-- C7 witness: `resize(5, 9)` on the vector 1, 2, 3, the 9 being a temporary. -/
theorem C7_resize_witness :
    (vector.ctor_list [1, 2, 3] ([] : Heap Nat)).2.owns
      (vector.ctor_list [1, 2, 3] ([] : Heap Nat)).1 ∧
    (argument.value 9).apart (vector.ctor_list [1, 2, 3] ([] : Heap Nat)).1
      (vector.ctor_list [1, 2, 3] ([] : Heap Nat)).2 ∧
    2 * 5 * sizeof Nat ≤ SIZE_MOD ∧
    ∃ r, vector.resize_value 5 (.value 9) (vector.ctor_list [1, 2, 3] ([] : Heap Nat)).1
        (vector.ctor_list [1, 2, 3] ([] : Heap Nat)).2 = some r ∧
      r.2.size_ = 5 ∧ r.2.elems r.1 = [some 1, some 2, some 3, some 9, some 9] := by
  refine ⟨by decide, trivial, by decide, ?_⟩
  obtain ⟨r, hr, hsz, hel, -⟩ :=
    (C7_resize 5 (.value 9) (vector.ctor_list [1, 2, 3] ([] : Heap Nat)).1
      (vector.ctor_list [1, 2, 3] ([] : Heap Nat)).2 (by decide) (by decide) (by decide)
      (by decide) (Or.inl trivial)).1
  exact ⟨r, hr, hsz, hel.trans (by decide)⟩

/-! ## C8, C9, C10 -/

/-- Relocation into a fresh block of `c >= size_` slots keeps the element sequence. -/
theorem relocate_elems {T : Type} (h : Heap T) (s : vector) (c : Nat)
    (hin : in_heap h s.data_) (hc : s.size_ ≤ c) (hc0 : c ≠ 0) :
    ({ s with data_ := some h.length, capacity_ := c } : vector).owns
      (operator_delete s.data_ (for_loop 0 s.size_
        (fun i hh => store (store hh (some h.length) i (load hh s.data_ i)) s.data_ i none)
        (h ++ [some (List.replicate c none)]))) ∧
    ({ s with data_ := some h.length, capacity_ := c } : vector).elems
      (operator_delete s.data_ (for_loop 0 s.size_
        (fun i hh => store (store hh (some h.length) i (load hh s.data_ i)) s.data_ i none)
        (h ++ [some (List.replicate c none)]))) = s.elems h := by
  obtain ⟨-, hsl, hld, -⟩ := relocate_fresh h s.data_ s.size_ c hin
  refine ⟨Or.inr ⟨by simp, hc0, hsl⟩, ?_⟩
  refine @elems_congr T h _ s _ rfl ?_
  intro i hi
  simp only []
  rw [hld]
  have : i < c := by omega
  simp [hi, this]

set_option maxRecDepth 100000 in
/-- C8, as stated, fails: on the `vector<int>` 1, 2, 3 (4-byte elements) the call
`reserve(2^62 + 1)` requests `(2^62 + 1) * 4` bytes, which is 4 in `size_t`: the new block
has one slot.  The capacity becomes `2^62 + 1` and the size stays 3, but only the first
element finds room in the new block: the element sequence is not kept. -/
theorem C8_reserve_wrap_counterexample :
    sizeof Nat = 4 ∧
    (vector.reserve (2 ^ 62 + 1) (vector.ctor_list [1, 2, 3] ([] : Heap Nat)).1
      (vector.ctor_list [1, 2, 3] ([] : Heap Nat)).2).2.capacity_ = 2 ^ 62 + 1 ∧
    (vector.reserve (2 ^ 62 + 1) (vector.ctor_list [1, 2, 3] ([] : Heap Nat)).1
      (vector.ctor_list [1, 2, 3] ([] : Heap Nat)).2).2.size_ = 3 ∧
    slots (vector.reserve (2 ^ 62 + 1) (vector.ctor_list [1, 2, 3] ([] : Heap Nat)).1
        (vector.ctor_list [1, 2, 3] ([] : Heap Nat)).2).1
      (vector.reserve (2 ^ 62 + 1) (vector.ctor_list [1, 2, 3] ([] : Heap Nat)).1
        (vector.ctor_list [1, 2, 3] ([] : Heap Nat)).2).2.data_ = 1 ∧
    (vector.ctor_list [1, 2, 3] ([] : Heap Nat)).2.elems
      (vector.ctor_list [1, 2, 3] ([] : Heap Nat)).1 = [some 1, some 2, some 3] ∧
    (vector.reserve (2 ^ 62 + 1) (vector.ctor_list [1, 2, 3] ([] : Heap Nat)).1
      (vector.ctor_list [1, 2, 3] ([] : Heap Nat)).2).2.elems
      (vector.reserve (2 ^ 62 + 1) (vector.ctor_list [1, 2, 3] ([] : Heap Nat)).1
        (vector.ctor_list [1, 2, 3] ([] : Heap Nat)).2).1 = [some 1, none, none] := by
  decide

/-- C8, amended: `reserve(n)` leaves the store and the object unchanged when
`n <= capacity_`; when `n > capacity_` the capacity becomes exactly `n` and the size stays,
and, when the request does not wrap (`n * sizeof(T) < 2^64`), for a vector with
`size_ <= capacity_` whose `data_` is null or a block of the store the element sequence is
unchanged and the object holds a block of `n` slots.  `reserve(100)` on the vector 1, 2, 3
gives size 3, capacity 100 and the elements 1, 2, 3. -/
theorem C8_reserve {T : Type} [sized T] (n : Nat) (h : Heap T) (s : vector) :
    (n ≤ s.capacity_ → vector.reserve n h s = (h, s)) ∧
    (s.capacity_ < n →
      (vector.reserve n h s).2.capacity_ = n ∧
      (vector.reserve n h s).2.size_ = s.size_ ∧
      (n * sizeof T < SIZE_MOD → in_heap h s.data_ → s.size_ ≤ s.capacity_ →
        (vector.reserve n h s).2.elems (vector.reserve n h s).1 = s.elems h ∧
        (vector.reserve n h s).2.owns (vector.reserve n h s).1)) ∧
    ((vector.reserve 100 (vector.ctor_list [1, 2, 3] ([] : Heap Nat)).1
        (vector.ctor_list [1, 2, 3] ([] : Heap Nat)).2).2.size_ = 3 ∧
     (vector.reserve 100 (vector.ctor_list [1, 2, 3] ([] : Heap Nat)).1
        (vector.ctor_list [1, 2, 3] ([] : Heap Nat)).2).2.capacity_ = 100 ∧
     (vector.reserve 100 (vector.ctor_list [1, 2, 3] ([] : Heap Nat)).1
        (vector.ctor_list [1, 2, 3] ([] : Heap Nat)).2).2.elems
       (vector.reserve 100 (vector.ctor_list [1, 2, 3] ([] : Heap Nat)).1
        (vector.ctor_list [1, 2, 3] ([] : Heap Nat)).2).1 = [some 1, some 2, some 3]) := by
  refine ⟨fun hle => by simp [vector.reserve, hle], fun hlt => ?_, by decide⟩
  have hnle : ¬ n ≤ s.capacity_ := by omega
  have hn0 : n ≠ 0 := by omega
  refine ⟨by rw [(reserve_fields n h s).2, if_neg hnle], (reserve_fields n h s).1, ?_⟩
  intro hw hin hinv
  have hr : vector.reserve n h s =
      (operator_delete s.data_ (for_loop 0 s.size_
        (fun i hh => store (store hh (some h.length) i (load hh s.data_ i)) s.data_ i none)
        (h ++ [some (List.replicate n none)])),
       { s with data_ := some h.length, capacity_ := n }) := by
    simp [vector.reserve, hnle, hn0, operator_new, alloc_slots_eq T n hw]
  rw [hr]
  obtain ⟨h1, h2⟩ := relocate_elems h s n hin (by omega) hn0
  exact ⟨h2, h1⟩

/-- C8 witness: `reserve(100)` on the vector 1, 2, 3, a request of 400 bytes. -/
theorem C8_reserve_witness :
    (vector.ctor_list [1, 2, 3] ([] : Heap Nat)).2.capacity_ < 100 ∧
    100 * sizeof Nat < SIZE_MOD ∧
    (vector.reserve 100 (vector.ctor_list [1, 2, 3] ([] : Heap Nat)).1
      (vector.ctor_list [1, 2, 3] ([] : Heap Nat)).2).2.elems
      (vector.reserve 100 (vector.ctor_list [1, 2, 3] ([] : Heap Nat)).1
        (vector.ctor_list [1, 2, 3] ([] : Heap Nat)).2).1 =
    (vector.ctor_list [1, 2, 3] ([] : Heap Nat)).2.elems
      (vector.ctor_list [1, 2, 3] ([] : Heap Nat)).1 :=
  ⟨by decide, by decide,
    (((C8_reserve 100 (vector.ctor_list [1, 2, 3] ([] : Heap Nat)).1
      (vector.ctor_list [1, 2, 3] ([] : Heap Nat)).2).2.1 (by decide)).2.2
        (by decide) (by decide) (by decide)).1⟩

/-- C9: `shrink_to_fit()` gives exactly the store and the object that `reallocate(size_)`
gives; it changes nothing when `capacity_ == size_`; afterwards `capacity_ == size_`, and a
second `shrink_to_fit()` changes nothing. -/
theorem C9_shrink_to_fit {T : Type} [sized T] (h : Heap T) (s : vector) :
    vector.shrink_to_fit h s = vector.reallocate s.size_ h s ∧
    (s.capacity_ = s.size_ → vector.shrink_to_fit h s = (h, s)) ∧
    (vector.shrink_to_fit h s).2.capacity_ = (vector.shrink_to_fit h s).2.size_ ∧
    vector.shrink_to_fit (vector.shrink_to_fit h s).1 (vector.shrink_to_fit h s).2 =
      vector.shrink_to_fit h s := by
  have hnoop : ∀ (h' : Heap T) (s' : vector), s'.capacity_ = s'.size_ →
      vector.shrink_to_fit h' s' = (h', s') := by
    intro h' s' hc
    simp [vector.shrink_to_fit, hc]
  have htight : (vector.shrink_to_fit h s).2.capacity_ = (vector.shrink_to_fit h s).2.size_ := by
    rw [(shrink_to_fit_fields h s).1, (shrink_to_fit_fields h s).2]
  refine ⟨?_, hnoop h s, htight, hnoop _ _ htight⟩
  by_cases hc : s.capacity_ = s.size_
  · rw [hnoop h s hc]
    have hc' : s.size_ = s.capacity_ := hc.symm
    simp [vector.reallocate, hc']
  · have hc' : ¬ s.size_ = s.capacity_ := fun hh => hc hh.symm
    simp [vector.shrink_to_fit, vector.reallocate, hc, hc']

/-- C9 witness: the vector 1, 2, 3 of capacity 3 is tight, `shrink_to_fit()` leaves it. -/
theorem C9_shrink_to_fit_witness :
    (vector.ctor_list [1, 2, 3] ([] : Heap Nat)).2.capacity_ =
      (vector.ctor_list [1, 2, 3] ([] : Heap Nat)).2.size_ ∧
    vector.shrink_to_fit (vector.ctor_list [1, 2, 3] ([] : Heap Nat)).1
      (vector.ctor_list [1, 2, 3] ([] : Heap Nat)).2 =
    ((vector.ctor_list [1, 2, 3] ([] : Heap Nat)).1,
      (vector.ctor_list [1, 2, 3] ([] : Heap Nat)).2) :=
  ⟨by decide,
    (C9_shrink_to_fit (vector.ctor_list [1, 2, 3] ([] : Heap Nat)).1
      (vector.ctor_list [1, 2, 3] ([] : Heap Nat)).2).2.1 (by decide)⟩

set_option maxRecDepth 100000 in
/-- C10, as stated, fails: on the `vector<int>` 1, 2, 3 (4-byte elements) the call
`reallocate(2^62 + 1)` has `n >= size_`, but requests `(2^62 + 1) * 4` bytes, which is 4 in
`size_t`: the new block has one slot, and the element sequence is not kept. -/
theorem C10_reallocate_wrap_counterexample :
    sizeof Nat = 4 ∧
    (vector.ctor_list [1, 2, 3] ([] : Heap Nat)).2.size_ ≤ 2 ^ 62 + 1 ∧
    (vector.reallocate (2 ^ 62 + 1) (vector.ctor_list [1, 2, 3] ([] : Heap Nat)).1
      (vector.ctor_list [1, 2, 3] ([] : Heap Nat)).2).2.capacity_ = 2 ^ 62 + 1 ∧
    slots (vector.reallocate (2 ^ 62 + 1) (vector.ctor_list [1, 2, 3] ([] : Heap Nat)).1
        (vector.ctor_list [1, 2, 3] ([] : Heap Nat)).2).1
      (vector.reallocate (2 ^ 62 + 1) (vector.ctor_list [1, 2, 3] ([] : Heap Nat)).1
        (vector.ctor_list [1, 2, 3] ([] : Heap Nat)).2).2.data_ = 1 ∧
    (vector.ctor_list [1, 2, 3] ([] : Heap Nat)).2.elems
      (vector.ctor_list [1, 2, 3] ([] : Heap Nat)).1 = [some 1, some 2, some 3] ∧
    (vector.reallocate (2 ^ 62 + 1) (vector.ctor_list [1, 2, 3] ([] : Heap Nat)).1
      (vector.ctor_list [1, 2, 3] ([] : Heap Nat)).2).2.elems
      (vector.reallocate (2 ^ 62 + 1) (vector.ctor_list [1, 2, 3] ([] : Heap Nat)).1
        (vector.ctor_list [1, 2, 3] ([] : Heap Nat)).2).1 = [some 1, none, none] := by
  decide

/-- C10, amended: `reallocate(n)` leaves the store and the object unchanged when
`n == capacity_`; in every case the capacity afterwards is exactly `n` and the size is the
old size; when `n >= size_` and the request does not wrap (`n * sizeof(T) < 2^64`), for a
vector whose `data_` is null or a block of the store, the element sequence is unchanged;
when `n < size_` the call returns all the same, with `size_ > capacity_`. -/
theorem C10_reallocate {T : Type} [sized T] (n : Nat) (h : Heap T) (s : vector) :
    (n = s.capacity_ → vector.reallocate n h s = (h, s)) ∧
    (vector.reallocate n h s).2.capacity_ = n ∧
    (vector.reallocate n h s).2.size_ = s.size_ ∧
    (s.size_ ≤ n → n * sizeof T < SIZE_MOD → in_heap h s.data_ →
      (vector.reallocate n h s).2.elems (vector.reallocate n h s).1 = s.elems h) ∧
    (n < s.size_ →
      (vector.reallocate n h s).2.size_ > (vector.reallocate n h s).2.capacity_) := by
  refine ⟨fun he => by simp [vector.reallocate, he], (reallocate_fields n h s).2,
    (reallocate_fields n h s).1, fun hle hw hin => ?_, fun hlt => ?_⟩
  · by_cases he : n = s.capacity_
    · simp [vector.reallocate, he]
    · by_cases hn0 : n = 0
      · have hs0 : s.size_ = 0 := by omega
        unfold vector.elems
        rw [(reallocate_fields n h s).1, hs0]
        rfl
      · have hr : vector.reallocate n h s =
            (operator_delete s.data_ (for_loop 0 s.size_
              (fun i hh => store (store hh (some h.length) i (load hh s.data_ i)) s.data_ i none)
              (h ++ [some (List.replicate n none)])),
             { s with data_ := some h.length, capacity_ := n }) := by
          simp [vector.reallocate, he, hn0, operator_new, alloc_slots_eq T n hw]
        rw [hr]
        exact (relocate_elems h s n hin hle hn0).2
  · rw [(reallocate_fields n h s).1, (reallocate_fields n h s).2]
    exact hlt

/-- C10 witness: `reallocate(10)` keeps 1, 2, 3; `reallocate(2)` on the same vector returns
with size 3 and capacity 2. -/
theorem C10_reallocate_witness :
    10 * sizeof Nat < SIZE_MOD ∧
    (vector.reallocate 10 (vector.ctor_list [1, 2, 3] ([] : Heap Nat)).1
      (vector.ctor_list [1, 2, 3] ([] : Heap Nat)).2).2.elems
      (vector.reallocate 10 (vector.ctor_list [1, 2, 3] ([] : Heap Nat)).1
        (vector.ctor_list [1, 2, 3] ([] : Heap Nat)).2).1 = [some 1, some 2, some 3] ∧
    (vector.reallocate 2 (vector.ctor_list [1, 2, 3] ([] : Heap Nat)).1
      (vector.ctor_list [1, 2, 3] ([] : Heap Nat)).2).2.size_ >
    (vector.reallocate 2 (vector.ctor_list [1, 2, 3] ([] : Heap Nat)).1
      (vector.ctor_list [1, 2, 3] ([] : Heap Nat)).2).2.capacity_ :=
  ⟨by decide,
   ((C10_reallocate 10 (vector.ctor_list [1, 2, 3] ([] : Heap Nat)).1
      (vector.ctor_list [1, 2, 3] ([] : Heap Nat)).2).2.2.2.1 (by decide) (by decide)
        (by decide)).trans (by decide),
   (C10_reallocate 2 (vector.ctor_list [1, 2, 3] ([] : Heap Nat)).1
      (vector.ctor_list [1, 2, 3] ([] : Heap Nat)).2).2.2.2.2 (by decide)⟩


/-! ## C11 -/

theorem load_none_of_slots_le {T : Type} (h : Heap T) (p : pointer) (j : Nat)
    (hj : slots h p ≤ j) : load h p j = none := by
  cases p with
  | none => rfl
  | some a =>
    simp only [slots] at hj
    simp only [load]
    split
    · next b hb =>
      rw [hb] at hj
      simp only [] at hj
      rw [List.getElem?_eq_none hj]
      rfl
    · rfl

/-- C11: `clear()` sets `size_` to 0 and leaves `capacity_` and `data_` as they are; the
block is not released (same number of slots, store of the same length), its first `size_`
slots are raw afterwards and every other slot of the store is as before; a second
`clear()` gives exactly the store and the object of the first. -/
theorem C11_clear {T : Type} (h : Heap T) (s : vector) :
    (vector.clear h s).2.size_ = 0 ∧
    (vector.clear h s).2.capacity_ = s.capacity_ ∧
    (vector.clear h s).2.data_ = s.data_ ∧
    (vector.clear h s).1.length = h.length ∧
    (∀ q, slots (vector.clear h s).1 q = slots h q) ∧
    (∀ j, j < s.size_ → load (vector.clear h s).1 s.data_ j = none) ∧
    (∀ q j, q ≠ s.data_ ∨ s.size_ ≤ j → load (vector.clear h s).1 q j = load h q j) ∧
    (vector.clear h s).2.elems (vector.clear h s).1 = [] ∧
    vector.clear (vector.clear h s).1 (vector.clear h s).2 = vector.clear h s := by
  obtain ⟨hlen, hsl, hld⟩ :=
    store_loop_spec h s.data_ (fun _ => (none : Option T)) (Nat.zero_le s.size_)
  refine ⟨rfl, rfl, rfl, hlen, hsl, fun j hj => ?_, fun q j hq => ?_, rfl, ?_⟩
  · show load (for_loop 0 s.size_ (fun i hh => store hh s.data_ i none) h) s.data_ j = none
    rw [hld]
    by_cases hs : j < slots h s.data_
    · simp [hj, hs]
    · simp [hs, load_none_of_slots_le h s.data_ j (by omega)]
  · show load (for_loop 0 s.size_ (fun i hh => store hh s.data_ i none) h) q j = load h q j
    rw [hld]
    have : ¬ (q = s.data_ ∧ 0 ≤ j ∧ j < s.size_ ∧ j < slots h s.data_) := by
      rintro ⟨h1, -, h2, -⟩
      rcases hq with hq | hq
      · exact hq h1
      · omega
    rw [if_neg this]
  · simp [vector.clear, for_loop_self]

/-- C11 witness: after `clear()` on the vector 1, 2, 3 slot 1 is raw. -/
theorem C11_clear_witness :
    1 < (vector.ctor_list [1, 2, 3] ([] : Heap Nat)).2.size_ ∧
    load (vector.clear (vector.ctor_list [1, 2, 3] ([] : Heap Nat)).1
        (vector.ctor_list [1, 2, 3] ([] : Heap Nat)).2).1
      (vector.ctor_list [1, 2, 3] ([] : Heap Nat)).2.data_ 1 = none :=
  ⟨by decide,
    (C11_clear (vector.ctor_list [1, 2, 3] ([] : Heap Nat)).1
      (vector.ctor_list [1, 2, 3] ([] : Heap Nat)).2).2.2.2.2.2.1 1 (by decide)⟩


/-! ## C16 -/

/-- Filling a fresh block of `n` slots with the values `f 0, …, f (n-1)`. -/
theorem fill_fresh {T : Type} (h : Heap T) (n : Nat) (f : Nat → Option T) :
    slots (for_loop 0 n (fun i hh => store hh (some h.length) i (f i))
      (h ++ [some (List.replicate n none)])) (some h.length) = n ∧
    (∀ j, load (for_loop 0 n (fun i hh => store hh (some h.length) i (f i))
      (h ++ [some (List.replicate n none)])) (some h.length) j =
        if j < n then f j else none) ∧
    (∀ q, in_heap h q → same_block h (for_loop 0 n
      (fun i hh => store hh (some h.length) i (f i)) (h ++ [some (List.replicate n none)])) q) := by
  obtain ⟨-, hsl, hld⟩ := store_loop_spec (h ++ [some (List.replicate n none)])
    (some h.length) f (Nat.zero_le n)
  refine ⟨by rw [hsl, slots_fresh], fun j => ?_, fun q hq => ⟨?_, fun j => ?_⟩⟩
  · rw [hld, slots_fresh, load_fresh]
    by_cases hj : j < n <;> simp [hj]
  · rw [hsl, slots_append _ hq]
  · rw [hld, load_append _ _ hq]
    simp [ne_fresh hq]

/-- State built by `vector(count, value)`: the fields, and the number of slots of the block
obtained. -/
theorem ctor_fill_fields {T : Type} [sized T] (count : Nat) (value : T) (h : Heap T) :
    (vector.ctor_fill count value h).2.size_ = count ∧
    (vector.ctor_fill count value h).2.capacity_ = count ∧
    (vector.ctor_fill count value h).2.data_ = (if count ≠ 0 then some h.length else none) ∧
    (count ≠ 0 → slots (vector.ctor_fill count value h).1 (some h.length)
      = alloc_slots T count) := by
  refine ⟨rfl, rfl, ?_, fun hc => ?_⟩
  · by_cases hc : count = 0 <;> simp [vector.ctor_fill, hc, operator_new]
  · have hr : (vector.ctor_fill count value h).1 =
        for_loop 0 count (fun i hh => store hh (some h.length) i (some value))
          (h ++ [some (List.replicate (alloc_slots T count) none)]) := by
      simp [vector.ctor_fill, hc, operator_new]
    rw [hr, (store_loop_spec _ (some h.length) (fun _ => some value) (Nat.zero_le count)).2.1,
      slots_fresh]

/-- State built by `vector(count, value)` when the request does not wrap. -/
theorem ctor_fill_spec {T : Type} [sized T] (count : Nat) (value : T) (h : Heap T)
    (hw : count * sizeof T < SIZE_MOD) :
    (vector.ctor_fill count value h).2.owns (vector.ctor_fill count value h).1 ∧
    (vector.ctor_fill count value h).2.elems (vector.ctor_fill count value h).1 =
      List.replicate count (some value) := by
  by_cases hc : count = 0
  · subst hc
    simp [vector.ctor_fill, for_loop_self, vector.owns, vector.elems]
  · have hr : vector.ctor_fill count value h =
        (for_loop 0 count (fun i hh => store hh (some h.length) i (some value))
          (h ++ [some (List.replicate count none)]),
         { size_ := count, capacity_ := count, data_ := some h.length }) := by
      simp [vector.ctor_fill, hc, operator_new, alloc_slots_eq T count hw]
    obtain ⟨hsl, hld, -⟩ := fill_fresh h count (fun _ => some value)
    rw [hr]
    refine ⟨Or.inr ⟨by simp, hc, hsl⟩, ?_⟩
    apply elems_eq_of
    · simp
    · intro i hi
      have hi2 : i < count := hi
      simp only []
      rw [hld, if_pos hi2, List.getElem?_replicate, if_pos hi2]

/-- State built from a sequence of values that is walked once for its length and once for
its elements, when the request does not wrap: the shape shared by
`vector(std::initializer_list)` and `vector(iter, iter)` over forward iterators. -/
theorem ctor_seq_spec {T : Type} [sized T] (l : List T) (h : Heap T)
    (hw : l.length * sizeof T < SIZE_MOD) :
    ({ size_ := l.length, capacity_ := l.length,
       data_ := (if l.length ≠ 0 then operator_new l.length h else (none, h)).1 } : vector).owns
      (for_loop 0 l.length (fun i hh => store hh
        (if l.length ≠ 0 then operator_new l.length h else (none, h)).1 i l[i]?)
        (if l.length ≠ 0 then operator_new l.length h else (none, h)).2) ∧
    ({ size_ := l.length, capacity_ := l.length,
       data_ := (if l.length ≠ 0 then operator_new l.length h else (none, h)).1 } : vector).elems
      (for_loop 0 l.length (fun i hh => store hh
        (if l.length ≠ 0 then operator_new l.length h else (none, h)).1 i l[i]?)
        (if l.length ≠ 0 then operator_new l.length h else (none, h)).2) = l.map some := by
  by_cases hc : l.length = 0
  · have hl : l = [] := List.length_eq_zero.mp hc
    subst hl
    simp [for_loop_self, vector.owns, vector.elems]
  · obtain ⟨hsl, hld, -⟩ := fill_fresh h l.length (fun i => l[i]?)
    simp only [hc, ne_eq, not_false_eq_true, if_true, operator_new, alloc_slots_eq T _ hw]
    refine ⟨Or.inr ⟨by simp, hc, hsl⟩, ?_⟩
    apply elems_eq_of
    · simp
    · intro i hi
      have hi2 : i < l.length := hi
      simp only []
      rw [hld, if_pos hi2, List.getElem?_map, List.getElem?_eq_getElem hi2]
      rfl

/-- Over forward iterators `vector(begin, end)` does what `vector(init_list)` does. -/
theorem ctor_range_forward {T : Type} [sized T] (range : iter_range T) (h : Heap T)
    (hmp : range.second_pass = range.first_pass) :
    vector.ctor_range range h = vector.ctor_list range.first_pass h := by
  simp only [vector.ctor_range, vector.ctor_list, hmp]

set_option maxRecDepth 100000 in
/-- C16, as stated, fails, in two ways.  A range of `std::istream_iterator` over a stream
holding 1, 2, 3 has length 3 and is accepted by `vector(begin, end)`: `std::distance` drains
the stream, so the vector gets size 3 and capacity 3 while `std::uninitialized_copy` builds
slot 0 only.  And `vector<int>(2^62 + 1, 7)` requests `(2^62 + 1) * 4` bytes, which is 4 in
`size_t`: size and capacity are `2^62 + 1`, the block has one slot, and the element at
index 1 is not 7. -/
theorem C16_constructors_counterexample :
    ((iter_range.istream [1, 2, 3]).first_pass.length = 3 ∧
      (vector.ctor_range (iter_range.istream [1, 2, 3]) ([] : Heap Nat)).2.size_ = 3 ∧
      (vector.ctor_range (iter_range.istream [1, 2, 3]) ([] : Heap Nat)).2.capacity_ = 3 ∧
      (vector.ctor_range (iter_range.istream [1, 2, 3]) ([] : Heap Nat)).2.elems
        (vector.ctor_range (iter_range.istream [1, 2, 3]) ([] : Heap Nat)).1
        = [some 1, none, none]) ∧
    (sizeof Nat = 4 ∧
      (vector.ctor_fill (2 ^ 62 + 1) 7 ([] : Heap Nat)).2.size_ = 2 ^ 62 + 1 ∧
      (vector.ctor_fill (2 ^ 62 + 1) 7 ([] : Heap Nat)).2.capacity_ = 2 ^ 62 + 1 ∧
      slots (vector.ctor_fill (2 ^ 62 + 1) 7 ([] : Heap Nat)).1
        (vector.ctor_fill (2 ^ 62 + 1) 7 ([] : Heap Nat)).2.data_ = 1 ∧
      ((vector.ctor_fill (2 ^ 62 + 1) 7 ([] : Heap Nat)).2.elems
        (vector.ctor_fill (2 ^ 62 + 1) 7 ([] : Heap Nat)).1)[1]? = some none) := by
  refine ⟨by decide, by decide, rfl, rfl, ?_, ?_⟩
  · rw [(ctor_fill_fields (2 ^ 62 + 1) 7 ([] : Heap Nat)).2.2.1, if_pos (by decide)]
    rw [(ctor_fill_fields (2 ^ 62 + 1) 7 ([] : Heap Nat)).2.2.2 (by decide)]
    decide
  · rw [elems_getElem? _ _ 1 (by decide)]
    rw [(ctor_fill_fields (2 ^ 62 + 1) 7 ([] : Heap Nat)).2.2.1, if_pos (by decide)]
    rw [load_none_of_slots_le _ _ 1]
    rw [(ctor_fill_fields (2 ^ 62 + 1) 7 ([] : Heap Nat)).2.2.2 (by decide)]
    decide

/-- C16, amended: `vector()` yields size 0, capacity 0 and null data; `vector(count, value)`
yields `size_ == capacity_ == count` and, when the request does not wrap
(`count * sizeof(T) < 2^64`), every element equal to `value`, the object holding a block of
`count` slots; for `count == 0` it yields an empty instance with null data and no
allocation; `vector(init_list)` over a list of length `n`, and `vector(begin, end)` over a
range of forward (multi-pass) iterators of length `n`, yield `size_ == capacity_ == n` and,
when `n * sizeof(T) < 2^64`, hold the input elements in input order in a block of `n`
slots. -/
theorem C16_constructors {T : Type} [sized T] (h : Heap T) (count : Nat) (value : T)
    (l : List T) (range : iter_range T) :
    (vector.ctor.size_ = 0 ∧ vector.ctor.capacity_ = 0 ∧ vector.ctor.data_ = none) ∧
    ((vector.ctor_fill count value h).2.size_ = count ∧
      (vector.ctor_fill count value h).2.capacity_ = count ∧
      (count * sizeof T < SIZE_MOD →
        (vector.ctor_fill count value h).2.elems (vector.ctor_fill count value h).1 =
          List.replicate count (some value) ∧
        (vector.ctor_fill count value h).2.owns (vector.ctor_fill count value h).1) ∧
      (count = 0 → vector.ctor_fill count value h = (h, vector.ctor))) ∧
    ((vector.ctor_list l h).2.size_ = l.length ∧
      (vector.ctor_list l h).2.capacity_ = l.length ∧
      (l.length * sizeof T < SIZE_MOD →
        (vector.ctor_list l h).2.elems (vector.ctor_list l h).1 = l.map some ∧
        (vector.ctor_list l h).2.owns (vector.ctor_list l h).1)) ∧
    ((vector.ctor_range range h).2.size_ = range.first_pass.length ∧
      (vector.ctor_range range h).2.capacity_ = range.first_pass.length ∧
      (range.second_pass = range.first_pass →
        range.first_pass.length * sizeof T < SIZE_MOD →
        (vector.ctor_range range h).2.elems (vector.ctor_range range h).1 =
          range.first_pass.map some ∧
        (vector.ctor_range range h).2.owns (vector.ctor_range range h).1)) := by
  refine ⟨⟨rfl, rfl, rfl⟩, ⟨rfl, rfl, fun hw => ?_, fun h0 => ?_⟩, ⟨rfl, rfl, fun hw => ?_⟩,
    ⟨rfl, rfl, fun hmp hw => ?_⟩⟩
  · obtain ⟨f4, f5⟩ := ctor_fill_spec count value h hw
    exact ⟨f5, f4⟩
  · subst h0
    simp [vector.ctor_fill, vector.ctor, for_loop_self]
  · obtain ⟨s1, s2⟩ := ctor_seq_spec l h hw
    exact ⟨s2, s1⟩
  · rw [ctor_range_forward range h hmp]
    obtain ⟨s1, s2⟩ := ctor_seq_spec range.first_pass h hw
    exact ⟨s2, s1⟩

set_option maxRecDepth 100000 in
/-- C16 witness: `vector(3, 7)` holds 7, 7, 7, and the vector built from a range of forward
iterators over 1, 2, 3 holds 1, 2, 3. -/
theorem C16_constructors_witness :
    3 * sizeof Nat < SIZE_MOD ∧
    (vector.ctor_fill 3 7 ([] : Heap Nat)).2.elems (vector.ctor_fill 3 7 ([] : Heap Nat)).1
      = [some 7, some 7, some 7] ∧
    (iter_range.forward [1, 2, 3]).second_pass = (iter_range.forward [1, 2, 3]).first_pass ∧
    (vector.ctor_range (iter_range.forward [1, 2, 3]) ([] : Heap Nat)).2.elems
      (vector.ctor_range (iter_range.forward [1, 2, 3]) ([] : Heap Nat)).1
      = [some 1, some 2, some 3] :=
  ⟨by decide,
   ((C16_constructors ([] : Heap Nat) 3 7 [] (iter_range.forward [1, 2, 3])).2.1.2.2.1
      (by decide)).1,
   rfl,
   ((C16_constructors ([] : Heap Nat) 3 7 [] (iter_range.forward [1, 2, 3])).2.2.2.2.2
      rfl (by decide)).1⟩

/-! ## C17 -/

/-- C17: after `a.swap(b)`, `a` has `b`'s former `data_`, `size_` and `capacity_` and `b` has
`a`'s; the store is not touched, so `a` has `b`'s former element sequence and `b` has `a`'s;
a second swap restores both objects. -/
theorem C17_swap {T : Type} (h : Heap T) (a b : vector) :
    (vector.swap a b).1 = b ∧ (vector.swap a b).2 = a ∧
    (vector.swap a b).1.elems h = b.elems h ∧ (vector.swap a b).2.elems h = a.elems h ∧
    vector.swap (vector.swap a b).1 (vector.swap a b).2 = (a, b) :=
  ⟨rfl, rfl, rfl, rfl, rfl⟩


/-! ## C13 -/

/-- C13: move construction gives the new object exactly the source's `size_`, `capacity_`
and `data_` (hence, the store being untouched, its block and element sequence) and leaves
the source empty (0, 0, null); move assignment into another object does the same, the
target's old block being torn down first, and the adopted block with its elements is intact
when it is not the block the target held; move-assigning an object to itself changes
nothing. -/
theorem C13_move {T : Type} (h : Heap T) (s t : vector) :
    ((vector.ctor_move s).1 = s ∧ (vector.ctor_move s).1.elems h = s.elems h ∧
      (vector.ctor_move s).2 = { size_ := 0, capacity_ := 0, data_ := none }) ∧
    ((vector.operator_assign_move (.other s) h t).2.1 = s ∧
      (vector.operator_assign_move (.other s) h t).2.2 =
        some { size_ := 0, capacity_ := 0, data_ := none } ∧
      (s.data_ = none ∨ s.data_ ≠ t.data_ →
        same_block h (vector.operator_assign_move (.other s) h t).1 s.data_ ∧
        (vector.operator_assign_move (.other s) h t).2.1.elems
          (vector.operator_assign_move (.other s) h t).1 = s.elems h)) ∧
    vector.operator_assign_move .this_ h t = (h, t, none) := by
  refine ⟨⟨rfl, rfl, rfl⟩, ⟨rfl, rfl, fun hq => ?_⟩, rfl⟩
  have hb : same_block h (vector._clear h t).1 s.data_ := (_clear_frame h t s.data_ hq).1
  exact ⟨hb, elems_of_same_block hb⟩

/-- C13 witness: the vector 1, 2, 3 is move-assigned to a vector holding 9, 9; the target
then has the elements 1, 2, 3. -/
theorem C13_move_witness :
    (vector.operator_assign_move
      (.other (vector.ctor_list [1, 2, 3] (vector.ctor_fill 2 9 ([] : Heap Nat)).1).2)
      (vector.ctor_list [1, 2, 3] (vector.ctor_fill 2 9 ([] : Heap Nat)).1).1
      (vector.ctor_fill 2 9 ([] : Heap Nat)).2).2.1.elems
      (vector.operator_assign_move
        (.other (vector.ctor_list [1, 2, 3] (vector.ctor_fill 2 9 ([] : Heap Nat)).1).2)
        (vector.ctor_list [1, 2, 3] (vector.ctor_fill 2 9 ([] : Heap Nat)).1).1
        (vector.ctor_fill 2 9 ([] : Heap Nat)).2).1 = [some 1, some 2, some 3] :=
  (((C13_move (vector.ctor_list [1, 2, 3] (vector.ctor_fill 2 9 ([] : Heap Nat)).1).1
      (vector.ctor_list [1, 2, 3] (vector.ctor_fill 2 9 ([] : Heap Nat)).1).2
      (vector.ctor_fill 2 9 ([] : Heap Nat)).2).2.1.2.2 (by decide)).2).trans (by decide)

/-! ## C18 -/

/-- C18: `front()` is `at(0)` and `back()` is `at(size_ - 1)` with the index computed in
`size_t`; on an empty vector that index is the largest `size_t` value, which is
`>= size_`, and both calls throw `std::out_of_range`; on a non-empty vector (its size a
`size_t` value) they return the references to slot 0 and slot `size_ - 1`, the first and
the last entry of the element sequence. -/
theorem C18_front_back {T : Type} (h : Heap T) (s : vector) :
    vector.front h s = vector.at 0 h s ∧
    vector.back h s = vector.at ((s.size_ + SIZE_MOD - 1) % SIZE_MOD) h s ∧
    (s.size_ = 0 →
      (s.size_ + SIZE_MOD - 1) % SIZE_MOD = 2 ^ 64 - 1 ∧
      (s.size_ + SIZE_MOD - 1) % SIZE_MOD ≥ s.size_ ∧
      (∃ what, (vector.front h s).1 = .error (.out_of_range what)) ∧
      (∃ what, (vector.back h s).1 = .error (.out_of_range what))) ∧
    (0 < s.size_ → s.size_ < SIZE_MOD →
      (s.size_ + SIZE_MOD - 1) % SIZE_MOD = s.size_ - 1 ∧
      (vector.front h s).1 = .ok { base := s.data_, index := 0 } ∧
      (vector.back h s).1 = .ok { base := s.data_, index := s.size_ - 1 } ∧
      (s.elems h)[0]? =
        some (reference.get h ({ base := s.data_, index := 0 } : reference)) ∧
      (s.elems h)[(s.elems h).length - 1]? =
        some (reference.get h ({ base := s.data_, index := s.size_ - 1 } : reference))) := by
  refine ⟨rfl, rfl, fun h0 => ?_, fun hpos hlt => ?_⟩
  · have hi : (s.size_ + SIZE_MOD - 1) % SIZE_MOD = 2 ^ 64 - 1 := by
      rw [h0]; decide
    refine ⟨hi, by rw [hi, h0]; decide, ?_, ?_⟩
    · simp [vector.front, vector.at, h0]
    · simp [vector.back, vector.at, h0]
  · have hi : (s.size_ + SIZE_MOD - 1) % SIZE_MOD = s.size_ - 1 := by
      have e : s.size_ + SIZE_MOD - 1 = (s.size_ - 1) + SIZE_MOD := by omega
      rw [e, Nat.add_mod_right]
      exact Nat.mod_eq_of_lt (by omega)
    have h1 : ¬ 0 ≥ s.size_ := by omega
    have h2 : ¬ s.size_ - 1 ≥ s.size_ := by omega
    refine ⟨hi, by simp [vector.front, vector.at, h1], ?_, ?_, ?_⟩
    · simp only [vector.back, hi]
      simp [vector.at, h2]
    · rw [elems_getElem? h s 0 hpos]; rfl
    · rw [elems_length, elems_getElem? h s (s.size_ - 1) (by omega)]; rfl

/-- C18 witness: on the vector 1, 2, 3 `back()` refers to slot 2. -/
theorem C18_front_back_witness :
    (vector.back (vector.ctor_list [1, 2, 3] ([] : Heap Nat)).1
      (vector.ctor_list [1, 2, 3] ([] : Heap Nat)).2).1 =
    .ok { base := (vector.ctor_list [1, 2, 3] ([] : Heap Nat)).2.data_,
          index := (vector.ctor_list [1, 2, 3] ([] : Heap Nat)).2.size_ - 1 } :=
  ((C18_front_back (vector.ctor_list [1, 2, 3] ([] : Heap Nat)).1
      (vector.ctor_list [1, 2, 3] ([] : Heap Nat)).2).2.2.2 (by decide) (by decide)).2.2.1


/-! ## C14 -/

/-- Copying `sz` elements of `src` into a fresh block of `c` slots. -/
theorem copy_fresh {T : Type} (h : Heap T) (src : pointer) (sz c : Nat)
    (hin : in_heap h src) :
    slots (for_loop 0 sz (fun i hh => store hh (some h.length) i (load hh src i))
      (h ++ [some (List.replicate c none)])) (some h.length) = c ∧
    (∀ j, load (for_loop 0 sz (fun i hh => store hh (some h.length) i (load hh src i))
      (h ++ [some (List.replicate c none)])) (some h.length) j =
        if j < sz ∧ j < c then load h src j else none) ∧
    (∀ q, in_heap h q → same_block h (for_loop 0 sz
      (fun i hh => store hh (some h.length) i (load hh src i))
      (h ++ [some (List.replicate c none)])) q) := by
  obtain ⟨-, hsl, hld⟩ := @copy_loop_spec T (h ++ [some (List.replicate c none)])
    (some h.length) src sz (ne_fresh hin)
  refine ⟨by rw [hsl, slots_fresh], fun j => ?_, fun q hq => ⟨?_, fun j => ?_⟩⟩
  · rw [hld, slots_fresh, load_fresh, load_append _ _ hin]
    simp
  · rw [hsl, slots_append _ hq]
  · rw [hld, load_append _ _ hq]
    simp [ne_fresh hq]

/-- State built by the copy constructor from a source whose block lies in the store: the
slots of the new block, and the blocks left alone. -/
theorem ctor_copy_frame {T : Type} [sized T] (o : vector) (h : Heap T)
    (hin : in_heap h o.data_) :
    (∀ j, load (vector.ctor_copy o h).1 (vector.ctor_copy o h).2.data_ j =
      if j < o.size_ ∧ j < alloc_slots T o.capacity_ then load h o.data_ j else none) ∧
    (o.capacity_ ≠ 0 →
      slots (vector.ctor_copy o h).1 (vector.ctor_copy o h).2.data_
        = alloc_slots T o.capacity_) ∧
    (∀ q, in_heap h q → same_block h (vector.ctor_copy o h).1 q) ∧
    in_heap (vector.ctor_copy o h).1 (vector.ctor_copy o h).2.data_ ∧
    h.length ≤ (vector.ctor_copy o h).1.length ∧
    (∀ q, in_heap h q → q = none ∨ q ≠ (vector.ctor_copy o h).2.data_) := by
  by_cases hc : o.capacity_ = 0
  · have hd : (vector.ctor_copy o h).2.data_ = none := by simp [vector.ctor_copy, hc]
    have hh : (vector.ctor_copy o h).1 =
        for_loop 0 o.size_ (fun i hh => store hh none i (load hh o.data_ i)) h := by
      simp [vector.ctor_copy, hc]
    have hnop : ∀ n, for_loop 0 n (fun i hh => store hh none i (load hh o.data_ i)) h = h := by
      intro n
      exact for_loop_inv (fun _ acc => acc = h) _ h (Nat.zero_le n) rfl
        (fun i acc _ _ hacc => by rw [hacc]; rfl)
    rw [hd, hh, hnop]
    refine ⟨fun j => ?_, fun hne => absurd hc hne, fun q _ => same_block_refl h q, trivial,
      Nat.le_refl _, fun q _ => ?_⟩
    · have : ¬ (j < o.size_ ∧ j < alloc_slots T o.capacity_) := by
        rintro ⟨-, h2⟩
        have := alloc_slots_le T o.capacity_
        omega
      rw [if_neg this]
      rfl
    · by_cases hq : q = none
      · exact Or.inl hq
      · exact Or.inr hq
  · have hr : vector.ctor_copy o h =
        (for_loop 0 o.size_ (fun i hh => store hh (some h.length) i (load hh o.data_ i))
          (h ++ [some (List.replicate (alloc_slots T o.capacity_) none)]),
         { size_ := o.size_, capacity_ := o.capacity_, data_ := some h.length }) := by
      simp [vector.ctor_copy, hc, operator_new]
    obtain ⟨hsl, hld, hfr⟩ := copy_fresh h o.data_ o.size_ (alloc_slots T o.capacity_) hin
    have hlen := (@copy_loop_spec T
      (h ++ [some (List.replicate (alloc_slots T o.capacity_) none)])
      (some h.length) o.data_ o.size_ (ne_fresh hin)).1
    rw [hr]
    refine ⟨hld, fun _ => hsl, hfr, ?_, ?_, fun q hq => Or.inr (ne_fresh hq)⟩
    · show h.length < _
      rw [hlen]; simp
    · simp only []
      rw [hlen]; simp

/-- State built by the copy constructor from a source whose block lies in the store, when
the request does not wrap. -/
theorem ctor_copy_spec {T : Type} [sized T] (o : vector) (h : Heap T) (hin : in_heap h o.data_)
    (hinv : o.size_ ≤ o.capacity_) (hw : o.capacity_ * sizeof T < SIZE_MOD) :
    (vector.ctor_copy o h).2.owns (vector.ctor_copy o h).1 ∧
    (vector.ctor_copy o h).2.elems (vector.ctor_copy o h).1 = o.elems h := by
  obtain ⟨hld, hsl, -⟩ := ctor_copy_frame o h hin
  rw [alloc_slots_eq T _ hw] at hld hsl
  refine ⟨?_, ?_⟩
  · by_cases hc : o.capacity_ = 0
    · exact Or.inl ⟨by simp [vector.ctor_copy, hc], hc⟩
    · exact Or.inr ⟨by simp [vector.ctor_copy, hc, operator_new], hc, hsl hc⟩
  · refine @elems_congr T h _ o _ rfl ?_
    intro i hi
    rw [hld]
    have : i < o.capacity_ := by omega
    simp [hi, this]

/-- The object that copy assignment from another object leaves is, field by field, the
object the copy constructor builds. -/
theorem operator_assign_fields {T : Type} [sized T] (o : vector) (h : Heap T) (s : vector) :
    (vector.operator_assign (.other o) h s).2 = (vector.ctor_copy o h).2 := by
  have hlen := (_clear_frame h s none (Or.inl rfl)).2
  by_cases hc : o.capacity_ = 0
  · simp [vector.operator_assign, vector.ctor_copy, hc, vector._clear]
  · simp only [vector.operator_assign, vector.ctor_copy, hc, ne_eq, not_false_eq_true,
      if_true, operator_new]
    simp only [vector._clear] at hlen
    simp [vector._clear, hlen]

/-- Copy assignment from another object is the teardown followed by copy construction. -/
theorem operator_assign_eq {T : Type} [sized T] (o : vector) (h : Heap T) (s : vector) :
    vector.operator_assign (.other o) h s = vector.ctor_copy o (vector._clear h s).1 := by
  by_cases hc : o.capacity_ = 0
  · simp [vector.operator_assign, vector.ctor_copy, hc, vector._clear]
  · simp [vector.operator_assign, vector.ctor_copy, hc, vector._clear]

/-- Heap effect of copy assignment from another object whose block is not the target's:
the target receives the element sequence copy construction gives, and the source's block
is left alone. -/
theorem operator_assign_frame {T : Type} [sized T] (o : vector) (h : Heap T) (s : vector)
    (hin : in_heap h o.data_) (hq : o.data_ = none ∨ o.data_ ≠ s.data_) :
    (vector.operator_assign (.other o) h s).2.elems (vector.operator_assign (.other o) h s).1
      = (vector.ctor_copy o h).2.elems (vector.ctor_copy o h).1 ∧
    same_block h (vector.operator_assign (.other o) h s).1 o.data_ := by
  obtain ⟨hb, hlen⟩ := _clear_frame h s o.data_ hq
  have hin1 : in_heap (vector._clear h s).1 o.data_ := in_heap_mono (by rw [hlen]) hin
  obtain ⟨c1, -, c3, -⟩ := ctor_copy_frame o (vector._clear h s).1 hin1
  obtain ⟨d1, -⟩ := ctor_copy_frame o h hin
  rw [operator_assign_eq]
  refine ⟨?_, same_block_trans hb (c3 _ hin1)⟩
  refine @elems_congr T _ _ _ _ (by simp [vector.ctor_copy]) ?_
  intro i _
  rw [c1, d1, hb.2]

/-- Heap effect of copy assignment from another object whose block is not the target's,
when the request does not wrap. -/
theorem operator_assign_spec {T : Type} [sized T] (o : vector) (h : Heap T) (s : vector)
    (hin : in_heap h o.data_) (hinv : o.size_ ≤ o.capacity_)
    (hw : o.capacity_ * sizeof T < SIZE_MOD)
    (hq : o.data_ = none ∨ o.data_ ≠ s.data_) :
    (vector.operator_assign (.other o) h s).2.elems (vector.operator_assign (.other o) h s).1
      = o.elems h ∧
    (vector.operator_assign (.other o) h s).2.owns (vector.operator_assign (.other o) h s).1 := by
  obtain ⟨hb, hlen⟩ := _clear_frame h s o.data_ hq
  have hin1 : in_heap (vector._clear h s).1 o.data_ := in_heap_mono (by rw [hlen]) hin
  obtain ⟨c1, c2⟩ := ctor_copy_spec o (vector._clear h s).1 hin1 hinv hw
  rw [operator_assign_eq]
  exact ⟨by rw [c2]; exact elems_of_same_block hb, c1⟩

/-- C14: after the copy assignment `a = b` from another object, `a` is field by field the
object copy construction from `b` builds (same `size_`, `capacity_`), whatever `a` held
before; when `b`'s block lies in the store and is not the block `a` held, and
`b.size_ <= b.capacity_`, `a`'s element sequence is that of a copy-constructed vector, which
is `b`'s when the request `b.capacity_ * sizeof(T)` does not wrap, and `b`'s block and
elements are unchanged; copy-assigning an object to itself leaves store and object
unchanged. -/
theorem C14_copy_assignment {T : Type} [sized T] (h : Heap T) (a b : vector) :
    (vector.operator_assign (.other b) h a).2 = (vector.ctor_copy b h).2 ∧
    (vector.operator_assign (.other b) h a).2.size_ = b.size_ ∧
    (vector.operator_assign (.other b) h a).2.capacity_ = b.capacity_ ∧
    (in_heap h b.data_ → b.size_ ≤ b.capacity_ → (b.data_ = none ∨ b.data_ ≠ a.data_) →
      (vector.operator_assign (.other b) h a).2.elems (vector.operator_assign (.other b) h a).1
        = (vector.ctor_copy b h).2.elems (vector.ctor_copy b h).1 ∧
      (b.capacity_ * sizeof T < SIZE_MOD →
        (vector.operator_assign (.other b) h a).2.elems
          (vector.operator_assign (.other b) h a).1 = b.elems h) ∧
      same_block h (vector.operator_assign (.other b) h a).1 b.data_ ∧
      b.elems (vector.operator_assign (.other b) h a).1 = b.elems h) ∧
    vector.operator_assign .this_ h a = (h, a) := by
  have hf := operator_assign_fields b h a
  refine ⟨hf, ?_, ?_, fun hin hinv hq => ?_, rfl⟩
  · rw [hf]; simp [vector.ctor_copy]
  · rw [hf]; simp [vector.ctor_copy]
  · obtain ⟨e1, e2⟩ := operator_assign_frame b h a hin hq
    exact ⟨e1, fun hw => (operator_assign_spec b h a hin hinv hw hq).1, e2,
      elems_of_same_block e2⟩

/-- C14 witness: `a = b` with `a` holding 9, 9 and `b` holding 1, 2, 3. -/
theorem C14_copy_assignment_witness :
    (vector.operator_assign
      (.other (vector.ctor_list [1, 2, 3] (vector.ctor_fill 2 9 ([] : Heap Nat)).1).2)
      (vector.ctor_list [1, 2, 3] (vector.ctor_fill 2 9 ([] : Heap Nat)).1).1
      (vector.ctor_fill 2 9 ([] : Heap Nat)).2).2.elems
      (vector.operator_assign
        (.other (vector.ctor_list [1, 2, 3] (vector.ctor_fill 2 9 ([] : Heap Nat)).1).2)
        (vector.ctor_list [1, 2, 3] (vector.ctor_fill 2 9 ([] : Heap Nat)).1).1
        (vector.ctor_fill 2 9 ([] : Heap Nat)).2).1 = [some 1, some 2, some 3] :=
  (((C14_copy_assignment (vector.ctor_list [1, 2, 3] (vector.ctor_fill 2 9 ([] : Heap Nat)).1).1
      (vector.ctor_fill 2 9 ([] : Heap Nat)).2
      (vector.ctor_list [1, 2, 3] (vector.ctor_fill 2 9 ([] : Heap Nat)).1).2).2.2.2.1
        (by decide) (by decide) (by decide)).2.1 (by decide)).trans (by decide)


/-! ## C15 -/

/-- C15, the code: list assignment sets `size_` and `capacity_` to the length of the list
and `data_` to a fresh block (null for the empty list), but slot `i` receives `L[i]` only
for `i` below the number that `std::uninitialized_copy_n` takes from its second argument,
which the source fills with `init_list.end()`; the slots from that number on stay raw
(`i` is also below the number of slots of the block, which is the length of the list
whenever `length * sizeof(T) < 2^64`, as it is for a list held in memory).
With the number 0 the vector assigned the list 1, 2, 3 has three raw slots, and `at(0)`
refers to a slot that holds no value. -/
theorem C15_list_assignment_count {T : Type} [sized T] (init_list : List T) (end_as_count : Nat)
    (h : Heap T) (s : vector) :
    (vector.operator_assign_list init_list end_as_count h s).2.size_ = init_list.length ∧
    (vector.operator_assign_list init_list end_as_count h s).2.capacity_ = init_list.length ∧
    (init_list = [] →
      (vector.operator_assign_list init_list end_as_count h s).2 =
        { size_ := 0, capacity_ := 0, data_ := none }) ∧
    (∀ i, i < init_list.length →
      load (vector.operator_assign_list init_list end_as_count h s).1
        (vector.operator_assign_list init_list end_as_count h s).2.data_ i =
      if i < end_as_count ∧ i < alloc_slots T init_list.length then init_list[i]?
      else none) ∧
    ((vector.operator_assign_list [1, 2, 3] 0 ([] : Heap Nat) vector.ctor).2.elems
        (vector.operator_assign_list [1, 2, 3] 0 ([] : Heap Nat) vector.ctor).1 =
      [none, none, none] ∧
     (vector.at 0 (vector.operator_assign_list [1, 2, 3] 0 ([] : Heap Nat) vector.ctor).1
        (vector.operator_assign_list [1, 2, 3] 0 ([] : Heap Nat) vector.ctor).2).1.toOption.map
          (reference.get (vector.operator_assign_list [1, 2, 3] 0 ([] : Heap Nat) vector.ctor).1)
        = some none) := by
  refine ⟨by simp [vector.operator_assign_list], by simp [vector.operator_assign_list],
    fun hl => ?_, fun i hi => ?_, by decide, by decide⟩
  · subst hl
    simp [vector.operator_assign_list, vector._clear]
  · have hc : init_list.length ≠ 0 := by omega
    have hr : vector.operator_assign_list init_list end_as_count h s =
        (for_loop 0 end_as_count
          (fun i hh => store hh (some (vector._clear h s).1.length) i init_list[i]?)
          ((vector._clear h s).1 ++
            [some (List.replicate (alloc_slots T init_list.length) none)]),
         { size_ := init_list.length, capacity_ := init_list.length,
           data_ := some (vector._clear h s).1.length }) := by
      simp [vector.operator_assign_list, hc, operator_new, vector._clear]
    rw [hr]
    obtain ⟨-, -, hld⟩ := store_loop_spec
      ((vector._clear h s).1 ++
        [some (List.replicate (alloc_slots T init_list.length) none)])
      (some (vector._clear h s).1.length) (fun i => init_list[i]?) (Nat.zero_le end_as_count)
    simp only []
    rw [hld, slots_fresh, load_fresh]
    by_cases hlt : i < end_as_count ∧ i < alloc_slots T init_list.length
    · simp [hlt.1, hlt.2]
    · rw [if_neg hlt, if_neg (fun hh => hlt ⟨hh.2.2.1, hh.2.2.2⟩)]

/-- C15 witness: with the number 0 in the count position slot 1 of the vector assigned the
list 1, 2, 3 is raw. -/
theorem C15_list_assignment_count_witness :
    load (vector.operator_assign_list [1, 2, 3] 0 ([] : Heap Nat) vector.ctor).1
      (vector.operator_assign_list [1, 2, 3] 0 ([] : Heap Nat) vector.ctor).2.data_ 1 = none :=
  (C15_list_assignment_count [1, 2, 3] 0 ([] : Heap Nat) vector.ctor).2.2.2.1 1 (by decide)


/-! ## C19 -/

/-- Capacity after `resize(new_size, value)` is at least the capacity before, whenever the
call returns. -/
theorem resize_value_capacity_ge {T : Type} [sized T] (n : Nat) (value : argument T) (h : Heap T) (s : vector)
    (r : Heap T × vector) (hr : vector.resize_value n value h s = some r) :
    s.capacity_ ≤ r.2.capacity_ := by
  unfold vector.resize_value at hr
  by_cases h1 : n = s.size_
  · rw [if_pos h1] at hr
    cases hr
    exact Nat.le_refl _
  · rw [if_neg h1] at hr
    by_cases h2 : n < s.size_
    · rw [if_pos h2] at hr
      cases hr
      exact Nat.le_refl _
    · rw [if_neg h2] at hr
      cases hg : vector.resize_grow n RESIZE_FUEL h s with
      | none => rw [hg] at hr; cases hr
      | some g =>
        rw [hg] at hr
        obtain ⟨h1g, s1g⟩ := g
        simp only [Option.some.injEq] at hr
        subst hr
        obtain ⟨-, hle, k, hk, hlt⟩ := resize_grow_fields n _ _ _ _ hg
        simp only [] at hle hk
        show s.capacity_ ≤ s1g.capacity_
        cases k with
        | zero => rw [hk]; exact Nat.le_refl _
        | succ k =>
          have := hlt 0 (by omega)
          simp at this
          omega

/-- C19, as stated, fails: assigning a vector of capacity 2, or a list of one element, to
a vector of capacity 5 leaves capacity 2, respectively 1; so does move assignment. -/
theorem C19_assignment_shrinks_counterexample :
    (vector.ctor_fill 5 0 ([] : Heap Nat)).2.capacity_ = 5 ∧
    (vector.operator_assign
      (.other (vector.ctor_fill 2 7 (vector.ctor_fill 5 0 ([] : Heap Nat)).1).2)
      (vector.ctor_fill 2 7 (vector.ctor_fill 5 0 ([] : Heap Nat)).1).1
      (vector.ctor_fill 5 0 ([] : Heap Nat)).2).2.capacity_ = 2 ∧
    (vector.operator_assign_move
      (.other (vector.ctor_fill 2 7 (vector.ctor_fill 5 0 ([] : Heap Nat)).1).2)
      (vector.ctor_fill 2 7 (vector.ctor_fill 5 0 ([] : Heap Nat)).1).1
      (vector.ctor_fill 5 0 ([] : Heap Nat)).2).2.1.capacity_ = 2 ∧
    (vector.operator_assign_list [7] 1 (vector.ctor_fill 5 0 ([] : Heap Nat)).1
      (vector.ctor_fill 5 0 ([] : Heap Nat)).2).2.capacity_ = 1 ∧
    ¬ ((vector.ctor_fill 5 0 ([] : Heap Nat)).2.capacity_ ≤
      (vector.operator_assign
        (.other (vector.ctor_fill 2 7 (vector.ctor_fill 5 0 ([] : Heap Nat)).1).2)
        (vector.ctor_fill 2 7 (vector.ctor_fill 5 0 ([] : Heap Nat)).1).1
        (vector.ctor_fill 5 0 ([] : Heap Nat)).2).2.capacity_) := by
  decide

/-- C19, amended: `push_back` (both overloads) and `emplace_back` on a vector of capacity
below 2^63, `pop_back`, `clear`, `resize` (both overloads, whenever the call returns) and
`reserve` leave the capacity greater than or equal to the capacity before the call; copy
and move assignment from another object set the capacity to the capacity of the source and
list assignment sets it to the length of the list, whatever it was before; self-assignment
leaves it. -/
theorem C19_capacity_kept {T : Type} [sized T] [Inhabited T] (h : Heap T) (s : vector) :
    (∀ (value : argument T), s.capacity_ < 2 ^ 63 →
      s.capacity_ ≤ (vector.push_back value h s).2.capacity_ ∧
      s.capacity_ ≤ (vector.push_back_move value h s).2.capacity_ ∧
      s.capacity_ ≤ (vector.emplace_back value h s).2.capacity_) ∧
    (vector.pop_back h s).2.2.capacity_ = s.capacity_ ∧
    (vector.clear h s).2.capacity_ = s.capacity_ ∧
    (∀ (new_size : Nat) (value : argument T) (r : Heap T × vector),
      (vector.resize new_size h s = some r → s.capacity_ ≤ r.2.capacity_) ∧
      (vector.resize_value new_size value h s = some r → s.capacity_ ≤ r.2.capacity_)) ∧
    (∀ (n : Nat), s.capacity_ ≤ (vector.reserve n h s).2.capacity_) ∧
    (∀ (other : vector),
      (vector.operator_assign (.other other) h s).2.capacity_ = other.capacity_ ∧
      (vector.operator_assign_move (.other other) h s).2.1.capacity_ = other.capacity_) ∧
    (∀ (init_list : List T) (end_as_count : Nat),
      (vector.operator_assign_list init_list end_as_count h s).2.capacity_ =
        init_list.length) ∧
    (vector.operator_assign .this_ h s).2.capacity_ = s.capacity_ ∧
    (vector.operator_assign_move .this_ h s).2.1.capacity_ = s.capacity_ := by
  refine ⟨fun value hcap => ?_, (pop_back_fields h s).2, rfl, fun n value r => ⟨?_, ?_⟩,
    fun n => ?_, fun other => ⟨?_, rfl⟩, fun l e => ?_, rfl, rfl⟩
  · have hg := grown_capacity_pos s.capacity_ hcap
    refine ⟨?_, ?_, ?_⟩
    · rw [(push_back_fields value h s).2]
      split <;> omega
    · rw [(push_back_move_fields value h s).2]
      split <;> omega
    · rw [(emplace_back_fields value h s).2]
      split <;> omega
  · intro hr
    rw [resize_eq_resize_value] at hr
    exact resize_value_capacity_ge n (.value default) h s r hr
  · exact resize_value_capacity_ge n value h s r
  · rw [(reserve_fields n h s).2]
    split <;> omega
  · rw [operator_assign_fields]
    simp [vector.ctor_copy]
  · simp [vector.operator_assign_list]

/-- C19 witness: `push_back` on the full vector 1, 2, 3 raises the capacity from 3 to 6. -/
theorem C19_capacity_kept_witness :
    (vector.ctor_list [1, 2, 3] ([] : Heap Nat)).2.capacity_ ≤
      (vector.push_back (.value 4) (vector.ctor_list [1, 2, 3] ([] : Heap Nat)).1
        (vector.ctor_list [1, 2, 3] ([] : Heap Nat)).2).2.capacity_ :=
  ((C19_capacity_kept (vector.ctor_list [1, 2, 3] ([] : Heap Nat)).1
      (vector.ctor_list [1, 2, 3] ([] : Heap Nat)).2).1 (.value 4) (by decide)).1

/-! ## C20 -/

theorem _resize_data {T : Type} [sized T] (h : Heap T) (s : vector) :
    (vector._resize h s).2.capacity_ = 0 → (vector._resize h s).2.data_ = none := by
  intro h0
  rw [(_resize_fields h s).2] at h0
  simp [vector._resize, h0]

theorem resize_grow_data {T : Type} [sized T] (n : Nat) :
    ∀ (fuel : Nat) (h : Heap T) (s : vector) (r : Heap T × vector),
      (s.capacity_ = 0 → s.data_ = none) → vector.resize_grow n fuel h s = some r →
      r.2.capacity_ = 0 → r.2.data_ = none := by
  intro fuel
  induction fuel with
  | zero => intro h s r _ hr; simp [vector.resize_grow] at hr
  | succ f ih =>
    intro h s r hs hr
    unfold vector.resize_grow at hr
    by_cases hc : n > s.capacity_
    · rw [if_pos hc] at hr
      exact ih _ _ r (_resize_data h s) hr
    · rw [if_neg hc] at hr
      cases hr
      exact hs

theorem resize_value_data {T : Type} [sized T] (n : Nat) (value : argument T) (h : Heap T) (s : vector)
    (r : Heap T × vector) (hs : s.capacity_ = 0 → s.data_ = none)
    (hr : vector.resize_value n value h s = some r) :
    r.2.capacity_ = 0 → r.2.data_ = none := by
  unfold vector.resize_value at hr
  by_cases h1 : n = s.size_
  · rw [if_pos h1] at hr
    cases hr
    exact hs
  · rw [if_neg h1] at hr
    by_cases h2 : n < s.size_
    · rw [if_pos h2] at hr
      cases hr
      exact hs
    · rw [if_neg h2] at hr
      cases hg : vector.resize_grow n RESIZE_FUEL h s with
      | none => rw [hg] at hr; cases hr
      | some g =>
        rw [hg] at hr
        obtain ⟨h1g, s1g⟩ := g
        simp only [Option.some.injEq] at hr
        subst hr
        exact resize_grow_data n _ _ _ (h1g, s1g) hs hg

theorem reallocate_data {T : Type} [sized T] (n : Nat) (h : Heap T) (s : vector)
    (hs : s.capacity_ = 0 → s.data_ = none) :
    (vector.reallocate n h s).2.capacity_ = 0 → (vector.reallocate n h s).2.data_ = none := by
  by_cases hc : n = s.capacity_
  · simpa [vector.reallocate, hc] using hs
  · intro h0
    rw [(reallocate_fields n h s).2] at h0
    subst h0
    simp [vector.reallocate, hc]


theorem push_back_null_at_zero {T : Type} [sized T] (value : argument T) (h : Heap T) (s : vector)
    (hs : s.null_at_zero) :
    (vector.push_back value h s).2.null_at_zero ∧
    (vector.push_back_move value h s).2.null_at_zero ∧
    (vector.emplace_back value h s).2.null_at_zero := by
  have hr := _resize_data h s
  refine ⟨?_, ?_, ?_⟩
  · by_cases hc : s.size_ ≥ s.capacity_
    · simpa [vector.push_back, hc, vector.null_at_zero] using hr
    · simpa [vector.push_back, hc, vector.null_at_zero] using hs
  · by_cases hc : s.size_ ≥ s.capacity_
    · simpa [vector.push_back_move, hc, vector.null_at_zero] using hr
    · simpa [vector.push_back_move, hc, vector.null_at_zero] using hs
  · by_cases hc : s.size_ = s.capacity_
    · simpa [vector.emplace_back, hc, vector.null_at_zero] using hr
    · simpa [vector.emplace_back, hc, vector.null_at_zero] using hs

theorem shrink_to_fit_null_at_zero {T : Type} [sized T] (h : Heap T) (s : vector)
    (hs : s.null_at_zero) : (vector.shrink_to_fit h s).2.null_at_zero := by
  by_cases hc : s.capacity_ = s.size_
  · simpa [vector.shrink_to_fit, hc, vector.null_at_zero] using hs
  · intro h0
    rw [(shrink_to_fit_fields h s).2] at h0
    have hc' : ¬ s.capacity_ = 0 := by rw [h0] at hc; exact hc
    simp [vector.shrink_to_fit, h0, hc']

theorem reserve_null_at_zero {T : Type} [sized T] (n : Nat) (h : Heap T) (s : vector)
    (hs : s.null_at_zero) : (vector.reserve n h s).2.null_at_zero := by
  by_cases hc : n ≤ s.capacity_
  · simpa [vector.reserve, hc, vector.null_at_zero] using hs
  · intro h0
    rw [(reserve_fields n h s).2, if_neg hc] at h0
    omega

theorem ctor_copy_null_at_zero {T : Type} [sized T] (other : vector) (h : Heap T) :
    (vector.ctor_copy other h).2.null_at_zero := by
  intro h0
  have hc : other.capacity_ = 0 := by simpa [vector.ctor_copy] using h0
  simp [vector.ctor_copy, hc]

theorem ctor_fill_null_at_zero {T : Type} [sized T] (count : Nat) (value : T) (h : Heap T) :
    (vector.ctor_fill count value h).2.null_at_zero := by
  intro h0
  have hc : count = 0 := by simpa [vector.ctor_fill] using h0
  simp [vector.ctor_fill, hc]

theorem ctor_list_null_at_zero {T : Type} [sized T] (l : List T) (range : iter_range T)
    (h : Heap T) :
    (vector.ctor_list l h).2.null_at_zero ∧ (vector.ctor_range range h).2.null_at_zero := by
  constructor
  · intro h0
    have hc : l.length = 0 := by simpa [vector.ctor_list] using h0
    simp [vector.ctor_list, hc]
  · intro h0
    have hc : range.first_pass.length = 0 := by simpa [vector.ctor_range] using h0
    simp [vector.ctor_range, hc]

theorem operator_assign_list_null_at_zero {T : Type} [sized T] (l : List T) (e : Nat) (h : Heap T)
    (s : vector) : (vector.operator_assign_list l e h s).2.null_at_zero := by
  intro h0
  have hc : l.length = 0 := by simpa [vector.operator_assign_list] using h0
  simp [vector.operator_assign_list, hc]

/-- C20: `capacity_ == 0` implies a null `data_` after every constructor, and every public
operation keeps it: `push_back` (both overloads), `emplace_back`, `pop_back`, `clear`,
`shrink_to_fit`, `resize` (both overloads, whenever the call returns), `reserve`,
`reallocate` (any argument), `swap`, copy, move and list assignment.  In particular
`shrink_to_fit()` and `reallocate(0)` on an empty vector leave capacity 0 and null data, a
moved-from object has null data, and assignment from a vector of capacity 0 or from the
empty list leaves null data. -/
theorem C20_null_data_at_zero_capacity {T : Type} [sized T] [Inhabited T] :
    -- constructors
    vector.ctor.null_at_zero ∧
    (∀ (count : Nat) (value : T) (h : Heap T),
      (vector.ctor_fill count value h).2.null_at_zero) ∧
    (∀ (other : vector) (h : Heap T), (vector.ctor_copy other h).2.null_at_zero) ∧
    (∀ (other : vector), other.null_at_zero →
      (vector.ctor_move other).1.null_at_zero ∧ (vector.ctor_move other).2.null_at_zero) ∧
    (∀ (l : List T) (range : iter_range T) (h : Heap T),
      (vector.ctor_list l h).2.null_at_zero ∧ (vector.ctor_range range h).2.null_at_zero) ∧
    -- members
    (∀ (value : argument T) (h : Heap T) (s : vector), s.null_at_zero →
      (vector.push_back value h s).2.null_at_zero ∧
      (vector.push_back_move value h s).2.null_at_zero ∧
      (vector.emplace_back value h s).2.null_at_zero) ∧
    (∀ (h : Heap T) (s : vector), s.null_at_zero →
      (vector.pop_back h s).2.2.null_at_zero ∧
      (vector.clear h s).2.null_at_zero ∧
      (vector.shrink_to_fit h s).2.null_at_zero) ∧
    (∀ (n : Nat) (value : argument T) (h : Heap T) (s : vector) (r : Heap T × vector),
      s.null_at_zero →
      (vector.resize n h s = some r → r.2.null_at_zero) ∧
      (vector.resize_value n value h s = some r → r.2.null_at_zero)) ∧
    (∀ (n : Nat) (h : Heap T) (s : vector), s.null_at_zero →
      (vector.reserve n h s).2.null_at_zero ∧ (vector.reallocate n h s).2.null_at_zero) ∧
    (∀ (s other : vector), s.null_at_zero → other.null_at_zero →
      (vector.swap s other).1.null_at_zero ∧ (vector.swap s other).2.null_at_zero) ∧
    (∀ (h : Heap T) (s other : vector), s.null_at_zero → other.null_at_zero →
      (vector.operator_assign (.other other) h s).2.null_at_zero ∧
      (vector.operator_assign .this_ h s).2.null_at_zero ∧
      (vector.operator_assign_move (.other other) h s).2.1.null_at_zero ∧
      (∀ o, (vector.operator_assign_move (.other other) h s).2.2 = some o →
        o.null_at_zero) ∧
      (vector.operator_assign_move .this_ h s).2.1.null_at_zero) ∧
    (∀ (l : List T) (e : Nat) (h : Heap T) (s : vector),
      (vector.operator_assign_list l e h s).2.null_at_zero) ∧
    -- the states the claim names
    (∀ (h : Heap T) (s : vector), s.null_at_zero → s.size_ = 0 →
      (vector.shrink_to_fit h s).2.capacity_ = 0 ∧ (vector.shrink_to_fit h s).2.data_ = none ∧
      (vector.reallocate 0 h s).2.capacity_ = 0 ∧ (vector.reallocate 0 h s).2.data_ = none) ∧
    (∀ (h : Heap T) (s other : vector),
      (vector.ctor_move other).2.data_ = none ∧
      (vector.operator_assign_move (.other other) h s).2.2 =
        some { size_ := 0, capacity_ := 0, data_ := none } ∧
      (other.capacity_ = 0 → (vector.operator_assign (.other other) h s).2.data_ = none)) ∧
    (∀ (e : Nat) (h : Heap T) (s : vector),
      (vector.operator_assign_list ([] : List T) e h s).2.capacity_ = 0 ∧
      (vector.operator_assign_list ([] : List T) e h s).2.data_ = none) := by
  refine ⟨fun _ => rfl, ctor_fill_null_at_zero, ctor_copy_null_at_zero,
    fun other ho => ⟨ho, fun _ => rfl⟩, ctor_list_null_at_zero, push_back_null_at_zero,
    fun h s hs => ⟨?_, hs, shrink_to_fit_null_at_zero h s hs⟩,
    fun n value h s r hs => ⟨fun hr => ?_, fun hr => resize_value_data n value h s r hs hr⟩,
    fun n h s hs => ⟨reserve_null_at_zero n h s hs, reallocate_data n h s hs⟩,
    fun s other hs ho => ⟨ho, hs⟩,
    fun h s other hs ho => ⟨?_, hs, ho, ?_, hs⟩,
    operator_assign_list_null_at_zero,
    fun h s hs h0 => ?_,
    fun h s other => ⟨rfl, rfl, fun hc => ?_⟩,
    fun e h s => ?_⟩
  · by_cases hc : s.size_ = 0
    · simpa [vector.pop_back, hc] using hs
    · simpa [vector.pop_back, hc, vector.null_at_zero] using hs
  · rw [resize_eq_resize_value] at hr
    exact resize_value_data n (.value default) h s r hs hr
  · rw [operator_assign_fields]
    exact ctor_copy_null_at_zero other h
  · intro o ho
    simp [vector.operator_assign_move, vector._clear] at ho
    subst ho
    exact fun _ => rfl
  · have c1 : (vector.shrink_to_fit h s).2.capacity_ = 0 := by
      rw [(shrink_to_fit_fields h s).2, h0]
    have c2 : (vector.reallocate 0 h s).2.capacity_ = 0 := (reallocate_fields 0 h s).2
    exact ⟨c1, shrink_to_fit_null_at_zero h s hs c1, c2, reallocate_data 0 h s hs c2⟩
  · rw [operator_assign_fields]
    exact ctor_copy_null_at_zero other h (by simpa [vector.ctor_copy] using hc)
  · have c1 : (vector.operator_assign_list ([] : List T) e h s).2.capacity_ = 0 := by
      simp [vector.operator_assign_list]
    exact ⟨c1, operator_assign_list_null_at_zero [] e h s c1⟩

/-- C20 witness: `shrink_to_fit()` on a cleared vector gives capacity 0 and null data. -/
theorem C20_null_data_at_zero_capacity_witness :
    (vector.clear (vector.ctor_list [1, 2, 3] ([] : Heap Nat)).1
      (vector.ctor_list [1, 2, 3] ([] : Heap Nat)).2).2.size_ = 0 ∧
    (vector.shrink_to_fit
      (vector.clear (vector.ctor_list [1, 2, 3] ([] : Heap Nat)).1
        (vector.ctor_list [1, 2, 3] ([] : Heap Nat)).2).1
      (vector.clear (vector.ctor_list [1, 2, 3] ([] : Heap Nat)).1
        (vector.ctor_list [1, 2, 3] ([] : Heap Nat)).2).2).2.data_ = none :=
  ⟨by decide,
    (C20_null_data_at_zero_capacity.2.2.2.2.2.2.2.2.2.2.2.2.1
      (vector.clear (vector.ctor_list [1, 2, 3] ([] : Heap Nat)).1
        (vector.ctor_list [1, 2, 3] ([] : Heap Nat)).2).1
      (vector.clear (vector.ctor_list [1, 2, 3] ([] : Heap Nat)).1
        (vector.ctor_list [1, 2, 3] ([] : Heap Nat)).2).2 (by decide) (by decide)).2.1⟩


/-! ## Frame of the mutating members -/

theorem slot_get_nat {T : Type} (h : Heap T) (d : pointer) (j : Nat) :
    slot_pointer.get h { base := d, offset := (j : Int) } = load h d j := by
  simp [slot_pointer.get]

theorem iterator_walk_spec (d : pointer) (size : Nat) :
    ∀ (k fuel i : Nat), i + k = size → k < fuel →
      iterator.walk fuel { ptr_ := { base := d, offset := (i : Int) } }
          { ptr_ := { base := d, offset := (size : Int) } } =
        some ((List.range' i k).map (fun (j : Nat) => ({ base := d, offset := (j : Int) } : slot_pointer))) := by
  intro k
  induction k with
  | zero =>
    intro fuel i hik hf
    obtain ⟨f, rfl⟩ : ∃ f, fuel = f + 1 := ⟨fuel - 1, by omega⟩
    have : i = size := by omega
    subst this
    simp [iterator.walk, iterator.operator_ne]
  | succ k ih =>
    intro fuel i hik hf
    obtain ⟨f, rfl⟩ : ∃ f, fuel = f + 1 := ⟨fuel - 1, by omega⟩
    have hne : ¬ ((i : Int) = (size : Int)) := by omega
    have hstep := ih f (i + 1) (by omega) (by omega)
    simp only [iterator.walk, iterator.operator_ne, iterator.pre_inc, iterator.operator_star]
    have hcast : ((i : Int) + 1) = ((i + 1 : Nat) : Int) := by push_cast; rfl
    rw [hcast, hstep]
    simp [hne, List.range'_succ]

theorem const_iterator_walk_spec (d : pointer) (size : Nat) :
    ∀ (k fuel i : Nat), i + k = size → k < fuel →
      const_iterator.walk fuel { ptr_ := { base := d, offset := (i : Int) } }
          { ptr_ := { base := d, offset := (size : Int) } } =
        some ((List.range' i k).map (fun (j : Nat) => ({ base := d, offset := (j : Int) } : slot_pointer))) := by
  intro k
  induction k with
  | zero =>
    intro fuel i hik hf
    obtain ⟨f, rfl⟩ : ∃ f, fuel = f + 1 := ⟨fuel - 1, by omega⟩
    have : i = size := by omega
    subst this
    simp [const_iterator.walk, const_iterator.operator_ne]
  | succ k ih =>
    intro fuel i hik hf
    obtain ⟨f, rfl⟩ : ∃ f, fuel = f + 1 := ⟨fuel - 1, by omega⟩
    have hne : ¬ ((i : Int) = (size : Int)) := by omega
    have hstep := ih f (i + 1) (by omega) (by omega)
    simp only [const_iterator.walk, const_iterator.operator_ne, const_iterator.pre_inc,
      const_iterator.operator_star]
    have hcast : ((i : Int) + 1) = ((i + 1 : Nat) : Int) := by push_cast; rfl
    rw [hcast, hstep]
    simp [hne, List.range'_succ]

theorem reverse_iterator_walk_spec (d : pointer) :
    ∀ (k fuel : Nat), k < fuel →
      reverse_iterator.walk fuel { current := { ptr_ := { base := d, offset := (k : Int) } } }
          { current := { ptr_ := { base := d, offset := 0 } } } =
        some ((List.range k).reverse.map (fun (j : Nat) => ({ base := d, offset := (j : Int) } : slot_pointer))) := by
  intro k
  induction k with
  | zero =>
    intro fuel hf
    obtain ⟨f, rfl⟩ : ∃ f, fuel = f + 1 := ⟨fuel - 1, by omega⟩
    simp [reverse_iterator.walk, reverse_iterator.operator_ne, iterator.operator_ne]
  | succ k ih =>
    intro fuel hf
    obtain ⟨f, rfl⟩ : ∃ f, fuel = f + 1 := ⟨fuel - 1, by omega⟩
    have hne : ¬ (((k : Int) + 1) = 0) := by omega
    have hstep := ih f (by omega)
    simp only [reverse_iterator.walk, reverse_iterator.operator_ne, iterator.operator_ne,
      reverse_iterator.pre_inc, reverse_iterator.operator_star, iterator.pre_dec,
      iterator.operator_star]
    have hcast : (((k + 1 : Nat) : Int) - 1) = (k : Int) := by push_cast; ring
    rw [hcast, hstep]
    simp [hne, List.range_succ]

theorem const_reverse_iterator_walk_spec (d : pointer) :
    ∀ (k fuel : Nat), k < fuel →
      const_reverse_iterator.walk fuel
          { current := { ptr_ := { base := d, offset := (k : Int) } } }
          { current := { ptr_ := { base := d, offset := 0 } } } =
        some ((List.range k).reverse.map (fun (j : Nat) => ({ base := d, offset := (j : Int) } : slot_pointer))) := by
  intro k
  induction k with
  | zero =>
    intro fuel hf
    obtain ⟨f, rfl⟩ : ∃ f, fuel = f + 1 := ⟨fuel - 1, by omega⟩
    simp [const_reverse_iterator.walk, const_reverse_iterator.operator_ne,
      const_iterator.operator_ne]
  | succ k ih =>
    intro fuel hf
    obtain ⟨f, rfl⟩ : ∃ f, fuel = f + 1 := ⟨fuel - 1, by omega⟩
    have hne : ¬ (((k : Int) + 1) = 0) := by omega
    have hstep := ih f (by omega)
    simp only [const_reverse_iterator.walk, const_reverse_iterator.operator_ne,
      const_iterator.operator_ne, const_reverse_iterator.pre_inc,
      const_reverse_iterator.operator_star, const_iterator.pre_dec,
      const_iterator.operator_star]
    have hcast : (((k + 1 : Nat) : Int) - 1) = (k : Int) := by push_cast; ring
    rw [hcast, hstep]
    simp [hne, List.range_succ]

theorem slots_to_elems {T : Type} (h : Heap T) (s : vector) :
    ((List.range s.size_).map (fun (j : Nat) => ({ base := s.data_, offset := (j : Int) } : slot_pointer))).map
      (slot_pointer.get h) = s.elems h := by
  simp only [List.map_map, vector.elems]
  apply List.map_congr_left
  intro j _
  exact slot_get_nat h s.data_ j


theorem iterator_walk_elems {T : Type} (h : Heap T) (s : vector) (fuel : Nat)
    (hf : s.size_ < fuel) :
    (iterator.walk fuel s.begin s.end).map (List.map (slot_pointer.get h)) =
      some (s.elems h) := by
  have hw := iterator_walk_spec s.data_ s.size_ s.size_ fuel 0 (by omega) hf
  have hb : s.begin = { ptr_ := { base := s.data_, offset := ((0 : Nat) : Int) } } := rfl
  have he : s.end = { ptr_ := { base := s.data_, offset := (s.size_ : Int) } } := rfl
  rw [hb, he, hw, ← List.range_eq_range', Option.map_some', slots_to_elems]

theorem const_iterator_walk_elems {T : Type} (h : Heap T) (s : vector) (fuel : Nat)
    (hf : s.size_ < fuel) :
    (const_iterator.walk fuel s.begin_const s.end_const).map (List.map (slot_pointer.get h)) =
      some (s.elems h) := by
  have hw := const_iterator_walk_spec s.data_ s.size_ s.size_ fuel 0 (by omega) hf
  have hb : s.begin_const = { ptr_ := { base := s.data_, offset := ((0 : Nat) : Int) } } := rfl
  have he : s.end_const = { ptr_ := { base := s.data_, offset := (s.size_ : Int) } } := rfl
  rw [hb, he, hw, ← List.range_eq_range', Option.map_some', slots_to_elems]

theorem reverse_iterator_walk_elems {T : Type} (h : Heap T) (s : vector) (fuel : Nat)
    (hf : s.size_ < fuel) :
    (reverse_iterator.walk fuel s.rbegin s.rend).map (List.map (slot_pointer.get h)) =
      some (s.elems h).reverse := by
  have hw := reverse_iterator_walk_spec s.data_ s.size_ fuel hf
  have hb : s.rbegin =
      { current := { ptr_ := { base := s.data_, offset := (s.size_ : Int) } } } := rfl
  have he : s.rend = { current := { ptr_ := { base := s.data_, offset := 0 } } } := rfl
  rw [hb, he, hw, Option.map_some', ← slots_to_elems h s, List.map_reverse, List.map_reverse]

theorem const_reverse_iterator_walk_elems {T : Type} (h : Heap T) (s : vector) (fuel : Nat)
    (hf : s.size_ < fuel) :
    (const_reverse_iterator.walk fuel s.rbegin_const s.rend_const).map
      (List.map (slot_pointer.get h)) = some (s.elems h).reverse := by
  have hw := const_reverse_iterator_walk_spec s.data_ s.size_ fuel hf
  have hb : s.rbegin_const =
      { current := { ptr_ := { base := s.data_, offset := (s.size_ : Int) } } } := rfl
  have he : s.rend_const = { current := { ptr_ := { base := s.data_, offset := 0 } } } := rfl
  rw [hb, he, hw, Option.map_some', ← slots_to_elems h s, List.map_reverse, List.map_reverse]

/-- C21: for `iterator` and for `const_iterator`: `end() - begin() == size_`;
`begin() == end()` exactly when `size_ == 0`; for `i < size_` the slot `*(begin() + i)` is
slot `i` of `data_`, the slot `at(i)` returns, with the same content; the loop from
`begin()` to `end()` with `++` exits (within `size_ + 1` tests) and visits the elements in
index order; the loop from `rbegin()` to `rend()` over the standard reverse adaptor visits
them in the reverse order. -/
theorem C21_iterators {T : Type} (h : Heap T) (s : vector) :
    (s.end.difference s.begin = (s.size_ : Int) ∧
      (s.begin.operator_eq s.end = true ↔ s.size_ = 0) ∧
      (s.begin.operator_ne s.end = true ↔ s.size_ ≠ 0) ∧
      (∀ i, i < s.size_ →
        (s.begin.operator_plus (i : Int)).operator_star =
          { base := s.data_, offset := (i : Int) } ∧
        (vector.at i h s).1 = .ok { base := s.data_, index := i } ∧
        slot_pointer.get h (s.begin.operator_plus (i : Int)).operator_star =
          reference.get h ({ base := s.data_, index := i } : reference)) ∧
      (∀ fuel, s.size_ < fuel →
        (iterator.walk fuel s.begin s.end).map (List.map (slot_pointer.get h)) =
          some (s.elems h)) ∧
      (∀ fuel, s.size_ < fuel →
        (reverse_iterator.walk fuel s.rbegin s.rend).map (List.map (slot_pointer.get h)) =
          some (s.elems h).reverse)) ∧
    (s.end_const.difference s.begin_const = (s.size_ : Int) ∧
      (s.begin_const.operator_eq s.end_const = true ↔ s.size_ = 0) ∧
      (s.begin_const.operator_ne s.end_const = true ↔ s.size_ ≠ 0) ∧
      (∀ i, i < s.size_ →
        (s.begin_const.operator_plus (i : Int)).operator_star =
          { base := s.data_, offset := (i : Int) } ∧
        (vector.at i h s).1 = .ok { base := s.data_, index := i } ∧
        slot_pointer.get h (s.begin_const.operator_plus (i : Int)).operator_star =
          reference.get h ({ base := s.data_, index := i } : reference)) ∧
      (∀ fuel, s.size_ < fuel →
        (const_iterator.walk fuel s.begin_const s.end_const).map
          (List.map (slot_pointer.get h)) = some (s.elems h)) ∧
      (∀ fuel, s.size_ < fuel →
        (const_reverse_iterator.walk fuel s.rbegin_const s.rend_const).map
          (List.map (slot_pointer.get h)) = some (s.elems h).reverse)) := by
  have hat : ∀ i, i < s.size_ → (vector.at i h s).1 = .ok { base := s.data_, index := i } := by
    intro i hi
    have : ¬ i ≥ s.size_ := by omega
    simp [vector.at, this]
  refine ⟨⟨?_, ?_, ?_, fun i hi => ⟨?_, hat i hi, ?_⟩, iterator_walk_elems h s,
      reverse_iterator_walk_elems h s⟩,
    ⟨?_, ?_, ?_, fun i hi => ⟨?_, hat i hi, ?_⟩, const_iterator_walk_elems h s,
      const_reverse_iterator_walk_elems h s⟩⟩
  · simp [vector.end, vector.begin, iterator.difference, iterator.ctor_ptr]
  · simp only [vector.end, vector.begin, iterator.operator_eq, iterator.ctor_ptr,
      beq_iff_eq, slot_pointer.mk.injEq, true_and]
    omega
  · simp only [vector.end, vector.begin, iterator.operator_ne, iterator.ctor_ptr,
      bne_iff_ne, ne_eq, slot_pointer.mk.injEq, true_and]
    omega
  · simp [vector.begin, iterator.operator_plus, iterator.ctor_ptr, iterator.add_assign,
      iterator.operator_star]
  · simp [vector.begin, iterator.operator_plus, iterator.ctor_ptr, iterator.add_assign,
      iterator.operator_star, slot_pointer.get, reference.get]
  · simp [vector.end_const, vector.begin_const, const_iterator.difference,
      const_iterator.ctor_ptr]
  · simp only [vector.end_const, vector.begin_const, const_iterator.operator_eq,
      const_iterator.ctor_ptr, beq_iff_eq, slot_pointer.mk.injEq, true_and]
    omega
  · simp only [vector.end_const, vector.begin_const, const_iterator.operator_ne,
      const_iterator.ctor_ptr, bne_iff_ne, ne_eq, slot_pointer.mk.injEq, true_and]
    omega
  · simp [vector.begin_const, const_iterator.operator_plus, const_iterator.ctor_ptr,
      const_iterator.operator_star]
  · simp [vector.begin_const, const_iterator.operator_plus, const_iterator.ctor_ptr,
      const_iterator.operator_star, slot_pointer.get, reference.get]

set_option maxRecDepth 100000 in
/-- C21 witness: on the vector 1, 2, 3 the loop from `begin()` to `end()` reads 1, 2, 3 and
the loop from `rbegin()` to `rend()` reads 3, 2, 1. -/
theorem C21_iterators_witness :
    (iterator.walk 4 (vector.ctor_list [1, 2, 3] ([] : Heap Nat)).2.begin
        (vector.ctor_list [1, 2, 3] ([] : Heap Nat)).2.end).map
      (List.map (slot_pointer.get (vector.ctor_list [1, 2, 3] ([] : Heap Nat)).1)) =
      some [some 1, some 2, some 3] ∧
    (reverse_iterator.walk 4 (vector.ctor_list [1, 2, 3] ([] : Heap Nat)).2.rbegin
        (vector.ctor_list [1, 2, 3] ([] : Heap Nat)).2.rend).map
      (List.map (slot_pointer.get (vector.ctor_list [1, 2, 3] ([] : Heap Nat)).1)) =
      some [some 3, some 2, some 1] :=
  ⟨((C21_iterators (vector.ctor_list [1, 2, 3] ([] : Heap Nat)).1
      (vector.ctor_list [1, 2, 3] ([] : Heap Nat)).2).1.2.2.2.2.1 4 (by decide)).trans
        (by decide),
   ((C21_iterators (vector.ctor_list [1, 2, 3] ([] : Heap Nat)).1
      (vector.ctor_list [1, 2, 3] ([] : Heap Nat)).2).1.2.2.2.2.2 4 (by decide)).trans
        (by decide)⟩


/-! ## C22 -/

/-- C23: `operator*` of `unique_ptr<T>` and `operator[]` of `unique_ptr<T[]>` throw
`std::logic_error` if and only if the instance is non-owning (`get() == nullptr`, which is
`is_owning() == false`); on an owning instance they return the reference to `*ptr_`,
respectively `ptr_[index]`; in both cases the store and the object, hence the held
pointer, are as before the call. -/
theorem C23_unique_ptr_dereference {T : Type} (h : Heap T) (u : unique_ptr T)
    (a : unique_ptr_array T) (index : Nat) :
    ((u.get = none ↔ u.is_owning = false) ∧
      ((∃ e, (u.operator_star h).1 = .error e) ↔ u.is_owning = false) ∧
      (u.is_owning = false → (u.operator_star h).1 = .error
        (.logic_error "unique_ptr::operator* attempting to dereference nullptr")) ∧
      (u.is_owning = true → (u.operator_star h).1 = .ok { base := u.get, index := 0 }) ∧
      (u.operator_star h).2 = (h, u) ∧ (u.operator_star h).2.2.get = u.get) ∧
    ((a.get = none ↔ a.is_owning = false) ∧
      ((∃ e, (a.operator_index index h).1 = .error e) ↔ a.is_owning = false) ∧
      (a.is_owning = false → (a.operator_index index h).1 = .error
        (.logic_error "unique_ptr::operator* attempting to dereference nullptr")) ∧
      (a.is_owning = true →
        (a.operator_index index h).1 = .ok { base := a.get, index := index }) ∧
      (a.operator_index index h).2 = (h, a) ∧ (a.operator_index index h).2.2.get = a.get) := by
  constructor
  · by_cases hp : u.ptr_ = none
    · simp [unique_ptr.get, unique_ptr.is_owning, unique_ptr.operator_star, hp]
    · simp [unique_ptr.get, unique_ptr.is_owning, unique_ptr.operator_star, hp]
  · by_cases hp : a.ptr_ = none
    · simp [unique_ptr_array.get, unique_ptr_array.is_owning, unique_ptr_array.operator_index, hp]
    · simp [unique_ptr_array.get, unique_ptr_array.is_owning, unique_ptr_array.operator_index, hp]

/-- C23 witness: dereferencing a `unique_ptr` to block 0 gives the reference to its slot 0. -/
theorem C23_unique_ptr_dereference_witness :
    ((unique_ptr.ctor_ptr default_delete (some 0) : unique_ptr Nat).operator_star
      [some [some 5]]).1 = .ok { base := some 0, index := 0 } :=
  (C23_unique_ptr_dereference [some [some 5]]
    (unique_ptr.ctor_ptr default_delete (some 0) : unique_ptr Nat)
    (unique_ptr_array.ctor default_delete_array) 0).1.2.2.2.1 rfl

/-! ## C24 -/

/-- C24, the code: for a source holding `p`, move construction of `unique_ptr<T>` and move
assignment of both forms into another object leave `get() == p` in the destination and
`get() == nullptr` in the source; move construction of `unique_ptr<T[]>` leaves
`get() == p` in the destination and also in the source, whose constructor body is empty:
for `p` not null both instances own `p`, and the destructor of each calls the deleter on
`p`. -/
theorem C24_move_ownership {T : Type} (h : Heap T) (p : pointer)
    (D : pointer → Heap T → Heap T) (t : unique_ptr T) (ta : unique_ptr_array T) :
    ((unique_ptr.ctor_move (unique_ptr.ctor_ptr D p)).1.get = p ∧
      (unique_ptr.ctor_move (unique_ptr.ctor_ptr D p)).2.get = none ∧
      (unique_ptr.operator_assign_move (.other (unique_ptr.ctor_ptr D p)) h t).2.1.get = p ∧
      (unique_ptr.operator_assign_move (.other (unique_ptr.ctor_ptr D p)) h t).2.2.map
        unique_ptr.get = some none) ∧
    ((unique_ptr_array.operator_assign_move (.other (unique_ptr_array.ctor_ptr D p)) h
        ta).2.1.get = p ∧
      (unique_ptr_array.operator_assign_move (.other (unique_ptr_array.ctor_ptr D p)) h
        ta).2.2.map unique_ptr_array.get = some none) ∧
    ((unique_ptr_array.ctor_move (unique_ptr_array.ctor_ptr D p)).1.get = p ∧
      (unique_ptr_array.ctor_move (unique_ptr_array.ctor_ptr D p)).2.get = p ∧
      (p ≠ none →
        (unique_ptr_array.ctor_move (unique_ptr_array.ctor_ptr D p)).1.is_owning = true ∧
        (unique_ptr_array.ctor_move (unique_ptr_array.ctor_ptr D p)).2.is_owning = true) ∧
      unique_ptr_array.dtor h (unique_ptr_array.ctor_move (unique_ptr_array.ctor_ptr D p)).1
        = D p h ∧
      unique_ptr_array.dtor h (unique_ptr_array.ctor_move (unique_ptr_array.ctor_ptr D p)).2
        = D p h) := by
  refine ⟨⟨rfl, rfl, rfl, rfl⟩, ⟨rfl, rfl⟩, ⟨rfl, rfl, fun hp => ?_, rfl, rfl⟩⟩
  simp [unique_ptr_array.ctor_move, unique_ptr_array.ctor_ptr, unique_ptr_array.is_owning, hp]

/-- C24 witness: an array of three values held by `a` is move-constructed into `b`; both
`a` and `b` then own block 0. -/
theorem C24_move_ownership_witness :
    (unique_ptr_array.ctor_move
      (unique_ptr_array.ctor_ptr default_delete_array (some 0) : unique_ptr_array Nat)).1.is_owning
        = true ∧
    (unique_ptr_array.ctor_move
      (unique_ptr_array.ctor_ptr default_delete_array (some 0) : unique_ptr_array Nat)).2.is_owning
        = true :=
  (C24_move_ownership ([some [some 1, some 2, some 3]] : Heap Nat) (some 0)
    default_delete_array (unique_ptr.ctor default_delete)
    (unique_ptr_array.ctor default_delete_array)).2.2.2.2.1 (by decide)


/-! ## C25 -/

/-- Appending calls on a vector with room for all of them leave the capacity alone. -/
theorem run_all_appends {T : Type} [sized T] (n : Nat) (hmax : n < SIZE_MOD) :
    ∀ (ms : List (mutation T)) (h : Heap T) (s : vector),
      (∀ m, m ∈ ms → m.is_append = true) → s.capacity_ = n → s.size_ + ms.length ≤ n →
      ∃ r, mutation.run_all ms (h, s) = some r ∧ r.2.capacity_ = n ∧
        r.2.size_ = s.size_ + ms.length := by
  intro ms
  induction ms with
  | nil =>
    intro h s _ hc _
    exact ⟨(h, s), rfl, hc, rfl⟩
  | cons m ms ih =>
    intro h s hall hc hlen
    simp only [List.length_cons] at hlen
    have hm := hall m (List.mem_cons_self m ms)
    have hrest : ∀ m', m' ∈ ms → m'.is_append = true :=
      fun m' hm' => hall m' (List.mem_cons_of_mem m hm')
    have hmod : (s.size_ + 1) % SIZE_MOD = s.size_ + 1 := Nat.mod_eq_of_lt (by omega)
    have hlt : ¬ s.size_ ≥ s.capacity_ := by omega
    have hne : ¬ s.size_ = s.capacity_ := by omega
    cases m with
    | push_back value =>
      obtain ⟨f1, f2⟩ := push_back_fields value h s
      rw [hmod] at f1
      rw [if_neg hlt] at f2
      obtain ⟨r, hr, c1, c2⟩ := ih (vector.push_back value h s).1 (vector.push_back value h s).2
        hrest (by rw [f2]; exact hc) (by rw [f1]; omega)
      refine ⟨r, ?_, c1, ?_⟩
      · simpa [mutation.run_all, mutation.run] using hr
      · rw [c2, f1]; simp only [List.length_cons]; omega
    | emplace_back value =>
      obtain ⟨f1, f2⟩ := emplace_back_fields value h s
      rw [hmod] at f1
      rw [if_neg hne] at f2
      obtain ⟨r, hr, c1, c2⟩ := ih (vector.emplace_back value h s).1
        (vector.emplace_back value h s).2 hrest (by rw [f2]; exact hc) (by rw [f1]; omega)
      refine ⟨r, ?_, c1, ?_⟩
      · simpa [mutation.run_all, mutation.run] using hr
      · rw [c2, f1]; simp only [List.length_cons]; omega
    | pop_back => simp [mutation.is_append] at hm
    | resize a b => simp [mutation.is_append] at hm
    | clear => simp [mutation.is_append] at hm
    | reserve a => simp [mutation.is_append] at hm
    | shrink_to_fit => simp [mutation.is_append] at hm
    | reallocate a => simp [mutation.is_append] at hm
    | assign_at a b => simp [mutation.is_append] at hm

theorem grown_capacity_ne (n : Nat) (h0 : 0 < n) (hmax : n < SIZE_MOD) :
    vector.grown_capacity n ≠ n := by
  unfold vector.grown_capacity VECTOR_GROWTH_RATE
  rw [if_pos (by omega)]
  unfold SIZE_MOD at hmax ⊢
  omega

/-- C25: on a vector with `size_ <= capacity_`, after `reserve(n)` with `n > capacity_`
(`n` a `size_t` value), every sequence of at most `n - size_` calls of `push_back` or
`emplace_back` runs with the capacity equal to `n` at its end, the size having grown by the
number of calls: no growth step occurs while the size is below `n`; and after exactly
`n - size_` calls the next `push_back` or `emplace_back` makes a growth step and leaves a
capacity other than `n`. -/
theorem C25_reserve_then_push {T : Type} [sized T] (n : Nat) (h : Heap T) (s : vector)
    (hinv : s.size_ ≤ s.capacity_) (hn : s.capacity_ < n) (hmax : n < SIZE_MOD)
    (ms : List (mutation T)) (hall : ∀ m, m ∈ ms → m.is_append = true)
    (hlen : ms.length ≤ n - s.size_) :
    (vector.reserve n h s).2.capacity_ = n ∧ (vector.reserve n h s).2.size_ = s.size_ ∧
    ∃ r, mutation.run_all ms (vector.reserve n h s) = some r ∧
      r.2.capacity_ = n ∧ r.2.size_ = s.size_ + ms.length ∧
      (ms.length = n - s.size_ → ∀ x,
        (vector.push_back x r.1 r.2).2.capacity_ = vector.grown_capacity n ∧
        (vector.emplace_back x r.1 r.2).2.capacity_ = vector.grown_capacity n ∧
        (vector.push_back x r.1 r.2).2.capacity_ ≠ n ∧
        (vector.emplace_back x r.1 r.2).2.capacity_ ≠ n) := by
  obtain ⟨f1, f2⟩ := reserve_fields n h s
  rw [if_neg (by omega)] at f2
  obtain ⟨r, hr, c1, c2⟩ := run_all_appends n hmax ms (vector.reserve n h s).1
    (vector.reserve n h s).2 hall f2 (by rw [f1]; omega)
  rw [f1] at c2
  refine ⟨f2, f1, r, hr, c1, c2, fun hfull x => ?_⟩
  have hsz : r.2.size_ = r.2.capacity_ := by rw [c1, c2, hfull]; omega
  have hg := grown_capacity_ne n (by omega) hmax
  have p := (push_back_fields x r.1 r.2).2
  have e := (emplace_back_fields x r.1 r.2).2
  rw [if_pos (by omega), c1] at p
  rw [if_pos hsz, c1] at e
  exact ⟨p, e, by rw [p]; exact hg, by rw [e]; exact hg⟩

set_option maxRecDepth 100000 in
/-- C25 witness: `reserve(5)` on the vector 1, 2, 3, then `push_back(4)` and
`emplace_back(5)`: the capacity is still 5, and a further `push_back` changes it. -/
theorem C25_reserve_then_push_witness :
    ∃ r, mutation.run_all [.push_back (.value 4), .emplace_back (.value 5)]
        (vector.reserve 5 (vector.ctor_list [1, 2, 3] ([] : Heap Nat)).1
          (vector.ctor_list [1, 2, 3] ([] : Heap Nat)).2) = some r ∧
      r.2.capacity_ = 5 ∧ (vector.push_back (.value 6) r.1 r.2).2.capacity_ ≠ 5 := by
  obtain ⟨-, -, r, hr, c1, -, hnext⟩ :=
    C25_reserve_then_push 5 (vector.ctor_list [1, 2, 3] ([] : Heap Nat)).1
      (vector.ctor_list [1, 2, 3] ([] : Heap Nat)).2 (by decide) (by decide) (by decide)
      [.push_back (.value 4), .emplace_back (.value 5)] (by decide) (by decide)
  exact ⟨r, hr, c1, (hnext (by decide) (.value 6)).2.2.1⟩

end dsacpp
